import Mathlib

/-!
The statistics queries of huskyCI (`api/db/huskyqueries.go`).

A shallow embedding of the aggregation pipelines of `huskyqueries.go`.

* Part 1 is the data: BSON values, the Go map literal `bson.M`, and the pipelines the
  source builds (`generateSimpleAggr`, `generateTimeFilterStage`, `statsQueryBase`).
* Part 2 is a reference semantics of the stage kinds the pipelines use (`$project`,
  `$unwind`, `$group`, `$match`), under which the pipelines are run on a collection.
* Part 3 holds the notions the properties are stated with, Part 4 the properties.
-/

namespace HuskyCI

/-! ## Part 1: data -/

/-- A BSON value. `date` carries milliseconds; `doc` is an embedded document, an ordered
list of key/value pairs. -/
inductive Value where
  | null
  | bool (b : Bool)
  | int (n : Int)
  | str (s : String)
  | date (ms : Int)
  | arr (xs : List Value)
  | doc (fields : List (String × Value))

/-- A document: what a `bson.M` marshals to, and what a collection holds. -/
abbrev Doc := List (String × Value)

namespace Value

mutual
/-- Decidable equality of BSON values. -/
def decEqValue : (a b : Value) → Decidable (a = b)
  | .null, .null => isTrue rfl
  | .bool a, .bool b =>
    if h : a = b then isTrue (by rw [h]) else isFalse (by intro e; cases e; exact h rfl)
  | .int a, .int b =>
    if h : a = b then isTrue (by rw [h]) else isFalse (by intro e; cases e; exact h rfl)
  | .str a, .str b =>
    if h : a = b then isTrue (by rw [h]) else isFalse (by intro e; cases e; exact h rfl)
  | .date a, .date b =>
    if h : a = b then isTrue (by rw [h]) else isFalse (by intro e; cases e; exact h rfl)
  | .arr a, .arr b =>
    match decEqList a b with
    | isTrue h => isTrue (by rw [h])
    | isFalse h => isFalse (by intro e; cases e; exact h rfl)
  | .doc a, .doc b =>
    match decEqFields a b with
    | isTrue h => isTrue (by rw [h])
    | isFalse h => isFalse (by intro e; cases e; exact h rfl)
  | .null, .bool _ | .null, .int _ | .null, .str _ | .null, .date _ | .null, .arr _
  | .null, .doc _
  | .bool _, .null | .bool _, .int _ | .bool _, .str _ | .bool _, .date _ | .bool _, .arr _
  | .bool _, .doc _
  | .int _, .null | .int _, .bool _ | .int _, .str _ | .int _, .date _ | .int _, .arr _
  | .int _, .doc _
  | .str _, .null | .str _, .bool _ | .str _, .int _ | .str _, .date _ | .str _, .arr _
  | .str _, .doc _
  | .date _, .null | .date _, .bool _ | .date _, .int _ | .date _, .str _ | .date _, .arr _
  | .date _, .doc _
  | .arr _, .null | .arr _, .bool _ | .arr _, .int _ | .arr _, .str _ | .arr _, .date _
  | .arr _, .doc _
  | .doc _, .null | .doc _, .bool _ | .doc _, .int _ | .doc _, .str _ | .doc _, .date _
  | .doc _, .arr _ =>
    isFalse (by intro e; cases e)
/-- Decidable equality of arrays. -/
def decEqList : (a b : List Value) → Decidable (a = b)
  | [], [] => isTrue rfl
  | [], _ :: _ => isFalse (by intro e; cases e)
  | _ :: _, [] => isFalse (by intro e; cases e)
  | x :: xs, y :: ys =>
    match decEqValue x y, decEqList xs ys with
    | isTrue h₁, isTrue h₂ => isTrue (by rw [h₁, h₂])
    | isFalse h, _ => isFalse (by intro e; cases e; exact h rfl)
    | _, isFalse h => isFalse (by intro e; cases e; exact h rfl)
/-- Decidable equality of documents. -/
def decEqFields : (a b : List (String × Value)) → Decidable (a = b)
  | [], [] => isTrue rfl
  | [], _ :: _ => isFalse (by intro e; cases e)
  | _ :: _, [] => isFalse (by intro e; cases e)
  | (k, x) :: xs, (l, y) :: ys =>
    if hk : k = l then
      match decEqValue x y, decEqFields xs ys with
      | isTrue h₁, isTrue h₂ => isTrue (by rw [hk, h₁, h₂])
      | isFalse h, _ => isFalse (by intro e; cases e; exact h rfl)
      | _, isFalse h => isFalse (by intro e; cases e; exact h rfl)
    else isFalse (by intro e; cases e; exact hk rfl)
end

instance : DecidableEq Value := decEqValue

end Value

/-- Assignment `m[k] = v` on a Go map, kept as a list of entries with distinct keys: an
existing key has its value replaced, a new key is added. -/
def mapSet {α : Type} (m : List (String × α)) (k : String) (v : α) : List (String × α) :=
  match m with
  | [] => [(k, v)]
  | (k', v') :: rest => if k' = k then (k, v) :: rest else (k', v') :: mapSet rest k v

/-- A Go map composite literal `map[string]T{k₁: v₁, …}`: the entries are assigned in the
order they are written, so a key written twice keeps the value written last. (Go gives a
map no iteration order; the list order here is the order of first assignment.) -/
def mapLit {α : Type} (entries : List (String × α)) : List (String × α) :=
  entries.foldl (fun m e => mapSet m e.1 e.2) []

/-- The literal `bson.M{…}` as a value. -/
def bsonM (entries : List (String × Value)) : Value := .doc (mapLit entries)

/-- The literal `[]string{…}` as a value. -/
def strings (xs : List String) : Value := .arr (xs.map .str)

/-- The function `generateSimpleAggr` (lines 251-278): an aggregation that counts each
field group. `fmt.Sprintf("$%s", x)` is `"$" ++ x`. -/
def generateSimpleAggr (field finalName groupID : String) : List Doc :=
  [ mapLit [("$project", bsonM [(field, .int 1)])],
    mapLit [("$unwind", .str ("$" ++ field))],
    mapLit [("$group", bsonM [("_id", .str ("$" ++ groupID)),
                              ("count", bsonM [("$sum", .int 1)])])],
    mapLit [("$project", bsonM [(finalName, .str "$_id"), ("count", .int 1), ("_id", .int 0)])] ]

/-- The `analysis` pipeline (lines 19-41). -/
def analysisQuery : List Doc :=
  [ mapLit [("$project", bsonM [("finishedAt", .int 1), ("result", .int 1)])],
    mapLit [("$group", bsonM [("_id", .str "$result"), ("count", bsonM [("$sum", .int 1)])])],
    mapLit [("$project", bsonM [("count", .int 1), ("result", .str "$_id"), ("_id", .int 0)])] ]

/-- The `repository` pipeline (lines 42-86). -/
def repositoryQuery : List Doc :=
  [ mapLit [("$match", bsonM [("repositoryURL", bsonM [("$exists", .bool true)])])],
    mapLit [("$match", bsonM [("repositoryBranch", bsonM [("$exists", .bool true)])])],
    mapLit [("$group", bsonM [("_id", bsonM [("repositoryBranch", .str "$repositoryBranch"),
                                             ("repositoryURL", .str "$repositoryURL")])])],
    mapLit [("$group", bsonM [("_id", bsonM [("repositoryURL", .str "$_id.repositoryURL")]),
                              ("branches", bsonM [("$sum", .int 1)])])],
    mapLit [("$group", bsonM [("_id", .str "repositories"),
                              ("totalBranches", bsonM [("$sum", .str "$branches")]),
                              ("totalRepositories", bsonM [("$sum", .int 1)])])] ]

/-- The `author` pipeline (lines 87-109). -/
def authorQuery : List Doc :=
  [ mapLit [("$project", bsonM [("commitAuthors", .int 1)])],
    mapLit [("$unwind", .str "$commitAuthors")],
    mapLit [("$group", bsonM [("_id", .str "$commitAuthors")])],
    mapLit [("$group", bsonM [("_id", .str "commitAuthors"),
                              ("totalAuthors", bsonM [("$sum", .int 1)])])] ]

/-- The `severity` pipeline (lines 110-158). -/
def severityQuery : List Doc :=
  [ mapLit [("$project",
      bsonM [("huskyresults", bsonM [("$objectToArray", .str "$huskyciresults")])])],
    mapLit [("$unwind", .str "$huskyresults")],
    mapLit [("$project",
      bsonM [("languageresults", bsonM [("$objectToArray", .str "$huskyresults.v")])])],
    mapLit [("$unwind", .str "$languageresults")],
    mapLit [("$project",
      bsonM [("results", bsonM [("$objectToArray", .str "$languageresults.v")])])],
    mapLit [("$unwind", .str "$results")],
    mapLit [("$group", bsonM [("_id", .str "$results.k"),
      ("count", bsonM [("$sum", bsonM [("$size", .str "$results.v")])])])],
    mapLit [("$project", bsonM [("severity", .str "$_id"), ("count", .int 1), ("_id", .int 0)])] ]

/-- The `time-to-fix` pipeline (lines 159-248). -/
def timeToFixQuery : List Doc :=
  [ mapLit [("$project", bsonM [
      ("repositoryBranch", .int 1),
      ("startedAt", .int 1),
      ("finishedAt", .int 1),
      ("result", .int 1),
      ("repositoryURL", .int 1),
      ("huskyciresults", bsonM [("$cond", bsonM [
        ("if", bsonM [("$eq", strings ["{}", "$huskyciresults"])]),
        ("then", .str "$REMOVE"),
        ("else", .str "$huskyciresults")])])])],
    mapLit [("$match", bsonM [("result", bsonM [("$in", strings ["passed", "failed"])])])],
    mapLit [("$unwind", bsonM [("path", .str "$startedAt"),
                               ("preserveNullAndEmptyArrays", .bool false)])],
    mapLit [("$unwind", bsonM [("path", .str "$finishedAt"),
                               ("preserveNullAndEmptyArrays", .bool false)])],
    mapLit [("$unwind", bsonM [("path", .str "$huskyciresults"),
                               ("preserveNullAndEmptyArrays", .bool false)])],
    mapLit [("$group", bsonM [
      ("_id", bsonM [("repositoryURL", .str "$repositoryURL"),
                     ("repositoryBranch", .str "$repositoryBranch"),
                     ("result", .str "$result")]),
      ("data", bsonM [("$push", bsonM [("startedAt", .str "$startedAt"),
                                       ("finishedAt", .str "$finishedAt"),
                                       ("hunkyciresults", .str "$huskyciresults")])]),
      ("count", bsonM [("$sum", .int 1)])])],
    mapLit [("$group", bsonM [
      ("_id", bsonM [("repositoryURL", .str "$_id.repositoryURL"),
                     ("repositoryBranch", .str "$_id.repositoryBranch")]),
      ("analyses", bsonM [("$push", bsonM [("result", .str "$_id.result"),
                                           ("count", .str "$count"),
                                           ("data", .str "$data")])]),
      ("total", bsonM [("$sum", .str "$count")])])],
    mapLit [("$match", bsonM [("analyses", bsonM [("$size", .int 2)])])],
    mapLit [("$project", bsonM [
      ("_id", .int 0),
      ("repositoryURL", .str "$_id.repositoryURL"),
      ("repositoryBranch", .str "$_id.repositoryBranch"),
      ("analyses", .int 1),
      ("totalAnalyses", .int 1)])] ]

/-- The catalog `statsQueryBase` (lines 16-249), a `map[string][]bson.M`. -/
def statsQueryBase : List (String × List Doc) :=
  mapLit [
    ("language", generateSimpleAggr "codes" "language" "codes.language"),
    ("container", generateSimpleAggr "containers" "container" "containers.securityTest.name"),
    ("analysis", analysisQuery),
    ("repository", repositoryQuery),
    ("author", authorQuery),
    ("severity", severityQuery),
    ("time-to-fix", timeToFixQuery) ]

/-- Arithmetic of the Go types `int64` and, on a 64-bit platform, `int`: a result is taken
modulo `2^64` into the range from `-2^63` to `2^63 - 1`. -/
def wrapInt64 (x : Int) : Int :=
  (x + 9223372036854775808) % 18446744073709551616 - 9223372036854775808

/-- Seconds in a day of the wall clock. -/
def secondsPerDay : Int := 86400

/-- A `time.Time` of the Go standard library: an instant as the seconds since the Unix
epoch, an `int64`, and the nanoseconds within the second. The location of the values here
is the one of the process, `time.Local`, which the functions below take as `loc`. -/
structure Time where
  sec : Int
  nsec : Int
deriving DecidableEq

/-- A `time.Location` of the Go standard library, by its `lookup`: for an instant in Unix
seconds, the offset from UTC in force at it (seconds east of UTC), and the first instant
and the end of the period in which this offset is in force. -/
structure Location where
  lookup : Int → Int × Int × Int

/-- A location whose offset never changes, as `time.UTC` (offset 0) and `time.FixedZone`:
its one period is all of `int64`. -/
def fixedZone (offset : Int) : Location :=
  ⟨fun _ => (offset, -9223372036854775808, 9223372036854775807)⟩

/-- The reading of the wall clock of `loc` at an instant, as a count of seconds: the
instant shifted by the offset in force. It is what `t.Date()` and `t.Clock()` take apart
into year, month, day, hour, minute and second. -/
def wallClock (loc : Location) (t : Time) : Int :=
  wrapInt64 (t.sec + (loc.lookup t.sec).1)

/-- The function `time.Date` of the Go standard library, on a reading of the wall clock
given as a count of seconds: the instant at which the wall clock of `loc` shows it. The
offset is looked up at the reading taken as an instant, and once more at the instant this
gives when that falls outside the period of the first offset. -/
def Date (loc : Location) (wall nsec : Int) : Time :=
  match loc.lookup (wrapInt64 wall) with
  | (offset, start, stop) =>
    if offset = 0 then ⟨wrapInt64 wall, nsec⟩
    else if wrapInt64 (wrapInt64 wall - offset) < start ∨
        stop ≤ wrapInt64 (wrapInt64 wall - offset) then
      ⟨wrapInt64 (wrapInt64 wall - (loc.lookup (wrapInt64 (wrapInt64 wall - offset))).1), nsec⟩
    else ⟨wrapInt64 (wrapInt64 wall - offset), nsec⟩

/-- The call `t.AddDate(0, 0, days)` of the Go standard library: `time.Date` at the year,
month, hour, minute, second and nanosecond of `t` on its wall clock and at its day of the
month plus `days`. The sum is a Go `int` and the seconds are made up in 64 bits, so the
reading of the wall clock moves by `days` days modulo `2^64` seconds. -/
def AddDate (loc : Location) (t : Time) (days : Int) : Time :=
  Date loc (wallClock loc t + wrapInt64 days * secondsPerDay) t.nsec

/-- Modelled from the spec: `util.BeginningOfTheDay` is not among the sources. The spec
defines the start of a day as 00:00:00.000 of that day in the configured time zone. -/
def BeginningOfTheDay (loc : Location) (t : Time) : Time :=
  Date loc (wallClock loc t - wallClock loc t % secondsPerDay) 0

/-- Modelled from the spec: `util.EndOfTheDay` is not among the sources. The spec defines
the end of a day as 23:59:59.999 of that day in the configured time zone. -/
def EndOfTheDay (loc : Location) (t : Time) : Time :=
  Date loc (wallClock loc t - wallClock loc t % secondsPerDay + (secondsPerDay - 1)) 999000000

/-- The BSON date that a `time.Time` in a `bson.M` is sent as: the milliseconds since the
Unix epoch, an `int64`. -/
def bsonDate (t : Time) : Int := wrapInt64 (t.sec * 1000 + t.nsec / 1000000)

/-- The function `generateTimeFilterStage` (lines 280-292). It reads the clock twice, once
for each bound: `now₁` is what the first `time.Now()` returns (for `$gte`) and `now₂`
what the second returns (for `$lte`); `loc` is the location of the process. The day
offsets are Go `int`s. -/
def generateTimeFilterStage (loc : Location) (now₁ now₂ : Time)
    (rangeInitDays rangeEndDays : Int) : List Doc :=
  [ mapLit [("$match", bsonM [("finishedAt", bsonM [
      ("$gte", .date (bsonDate (BeginningOfTheDay loc (AddDate loc now₁ rangeInitDays)))),
      ("$lte", .date (bsonDate (EndOfTheDay loc (AddDate loc now₂ rangeEndDays))))])])] ]

/-- The execution capability `mongoHuskyCI.Conn.Aggregation`, which is not among the
sources: called with a stage sequence and a collection in a state `σ` of the connection, it
returns rows `ρ`, an error (`none` for `nil`) and the state it leaves. -/
abbrev Aggregation (σ ρ ε κ : Type) := List Doc → κ → σ → (ρ × Option ε) × σ

/-- The function `TimeToFixData` (lines 294-298). The capability `Conn.Aggregation` and the
constant `mongoHuskyCI.AnalysisCollection` are not among the sources and are parameters. -/
def TimeToFixData {σ ρ ε κ : Type} (connAggregation : Aggregation σ ρ ε κ)
    (AnalysisCollection : κ) (query : List Doc) (s : σ) : (ρ × Option ε) × σ :=
  match connAggregation query AnalysisCollection s with
  | ((result, err), s') => ((result, err), s')

/-! ## Part 2: reference semantics of the stages

The database is not part of the sources. The stages are given the meaning the aggregation
framework documents for them, on the forms the catalog uses. A stage of any other form,
and an expression of any other form, has no meaning here: running it gives `none`.
A field that is absent is written `none`; grouping reads an absent key as `null`. -/

/-- Components of a dotted name, as character lists. -/
def splitDots : List Char → List (List Char)
  | [] => [[]]
  | c :: cs =>
    if c = '.' then [] :: splitDots cs
    else match splitDots cs with
      | [] => [[c]]
      | s :: ss => (c :: s) :: ss

/-- A dotted name as a list of field names; `none` when a component is empty or the name
starts with `$`. -/
def parseName (cs : List Char) : Option (List String) :=
  if cs.head? = some '$' then none
  else if (splitDots cs).all (fun s => !s.isEmpty) then some ((splitDots cs).map String.mk)
  else none

/-- A field path expression `"$a.b"` as a list of field names. -/
def parsePath (s : String) : Option (List String) :=
  match s.data with
  | '$' :: rest => parseName rest
  | _ => none

/-- The value at a path, descending through embedded documents. -/
def getPath : List String → Doc → Option Value
  | [], _ => none
  | [k], d => d.lookup k
  | k :: k' :: ks, d =>
    match d.lookup k with
    | some (.doc d') => getPath (k' :: ks) d'
    | _ => none

/-- Whether a field of a document expression names an operator. -/
def isOperator (k : String) : Bool := k.data.head? = some '$'

/-- The array `$objectToArray` makes of a document: one `{k, v}` document for each field. -/
def objectToArray (fields : Doc) : Value :=
  .arr (fields.map (fun p => .doc [("k", .str p.1), ("v", p.2)]))

/-- Whether a value counts as true in `$cond`: an absent value, `null`, `false` and the
number 0 do not, every other value does. -/
def truthy : Option Value → Bool
  | none => false
  | some .null => false
  | some (.bool b) => b
  | some (.int n) => n != 0
  | some _ => true

mutual
/-- Value of an aggregation expression in a document. The outer `none` is an expression
with no meaning here, or one whose evaluation fails; the inner `none` is an absent value.
A string starting with `$` is a field path, another string and a number or boolean are
themselves, and a document is evaluated by `evalDoc`. -/
def evalExpr : Value → Doc → Option (Option Value)
  | .str s, d =>
    match s.data with
    | '$' :: _ => (parsePath s).map (fun p => getPath p d)
    | _ => some (some (.str s))
  | .int n, _ => some (some (.int n))
  | .bool b, _ => some (some (.bool b))
  | .null, _ => some (some .null)
  | .date t, _ => some (some (.date t))
  | .arr _, _ => none
  | .doc fs, d => evalDoc fs d
termination_by structural e => e
/-- Value of a document expression. A document with no operator is the document of its
fields' values, absent ones left out. The operators are `$size` (the length of an array,
and a failure on anything else), `$objectToArray` (`null` on `null` or an absent value, a
failure on what is not a document), `$eq` of two expressions and `$cond` with `if`, `then`
and `else`. -/
def evalDoc : List (String × Value) → Doc → Option (Option Value)
  | [], _ => some (some (.doc []))
  | (k, e) :: rest, d =>
    if k = "$size" then
      match rest, evalExpr e d with
      | [], some (some (.arr xs)) => some (some (.int xs.length))
      | _, _ => none
    else if k = "$objectToArray" then
      match rest, evalExpr e d with
      | [], some (some (.doc fields)) => some (some (objectToArray fields))
      | [], some (some .null) => some (some .null)
      | [], some none => some (some .null)
      | _, _ => none
    else if k = "$eq" then
      match rest, evalList e d with
      | [], some [x, y] => some (some (.bool (decide (x = y))))
      | _, _ => none
    else if k = "$cond" then
      match rest, evalArgs e d with
      | [], some vs =>
        match vs.lookup "if", vs.lookup "then", vs.lookup "else" with
        | some c, some t, some f => some (if truthy c then t else f)
        | _, _, _ => none
      | _, _ => none
    else if isOperator k then none
    else
      match evalExpr e d, evalFields rest d with
      | some (some v), some r => some (some (.doc ((k, v) :: r)))
      | some none, some r => some (some (.doc r))
      | _, _ => none
termination_by structural fs => fs
/-- Values of the fields of a document expression. -/
def evalFields : List (String × Value) → Doc → Option Doc
  | [], _ => some []
  | (k, e) :: rest, d =>
    if isOperator k then none
    else
      match evalExpr e d, evalFields rest d with
      | some (some v), some r => some ((k, v) :: r)
      | some none, some r => some r
      | _, _ => none
termination_by structural fs => fs
/-- Values of the operands of an operator that takes an array of expressions. -/
def evalList : Value → Doc → Option (List (Option Value))
  | .arr xs, d => evalElems xs d
  | _, _ => none
termination_by structural e => e
/-- Values of a list of expressions, absent values included. -/
def evalElems : List Value → Doc → Option (List (Option Value))
  | [], _ => some []
  | e :: rest, d =>
    match evalExpr e d, evalElems rest d with
    | some v, some r => some (v :: r)
    | _, _ => none
termination_by structural es => es
/-- Values of the named operands of an operator that takes a document of expressions. -/
def evalArgs : Value → Doc → Option (List (String × Option Value))
  | .doc fs, d => evalArgFields fs d
  | _, _ => none
termination_by structural e => e
/-- Values of named expressions, absent values included. -/
def evalArgFields : List (String × Value) → Doc → Option (List (String × Option Value))
  | [], _ => some []
  | (k, e) :: rest, d =>
    match evalExpr e d, evalArgFields rest d with
    | some v, some r => some ((k, v) :: r)
    | _, _ => none
termination_by structural fs => fs
end

/-- A plain field name: not empty, no dot, not starting with `$`. -/
def isFieldName (k : String) : Bool :=
  !k.data.isEmpty && !k.data.contains '.' && k.data.head? != some '$'

/-- Whether a `$project` specification keeps the input field `k`: `_id` unless it is
switched off, another field when it is switched on. -/
def projKeeps (spec : Doc) (k : String) : Bool :=
  match spec.lookup k with
  | some (.int n) => n != 0
  | some (.bool b) => b
  | some _ => false
  | none => k == "_id"

/-- The computed fields of a `$project` specification, added in turn to `acc`; a field
whose value is absent is not added. An entry that is a number or boolean is an inclusion
flag, handled by `projKeeps`; an inclusion flag that is off is accepted for `_id` only. -/
def projCompute (d : Doc) : List (String × Value) → Doc → Option Doc
  | [], acc => some acc
  | (k, e) :: rest, acc =>
    if !isFieldName k then none
    else
      match e with
      | .int n => if n = 0 ∧ k ≠ "_id" then none else projCompute d rest acc
      | .bool b => if b = false ∧ k ≠ "_id" then none else projCompute d rest acc
      | _ =>
        match evalExpr e d with
        | some (some v) => projCompute d rest (mapSet acc k v)
        | some none => projCompute d rest acc
        | none => none

/-- The stage `$project` on one document: the kept input fields in their order, then the
computed fields. -/
def projectDoc (spec : Doc) (d : Doc) : Option Doc :=
  projCompute d spec (d.filter (fun p => projKeeps spec p.1))

/-- The values a field unwinds to: the elements of an array, nothing for an absent field
or `null`, and the value itself when it is a single value. -/
def unwindValues : Option Value → List Value
  | none => []
  | some .null => []
  | some (.arr xs) => xs
  | some v => [v]

/-- The stage `$unwind` on one document, for a top-level field `k`: one document for each
value the field unwinds to, with the field set to that value. With `preserve` a document
whose field unwinds to nothing is kept, without the field when it was an empty array. -/
def unwindDoc (k : String) (preserve : Bool) (d : Doc) : List Doc :=
  match unwindValues (d.lookup k) with
  | [] =>
    if preserve then
      match d.lookup k with
      | some (.arr _) => [d.filter (fun p => p.1 != k)]
      | _ => [d]
    else []
  | vs => vs.map (fun v => mapSet d k v)

/-- The operand of `$unwind`: the field and the `preserveNullAndEmptyArrays` flag. -/
def unwindSpec : Value → Option (String × Bool)
  | .str p =>
    match parsePath p with
    | some [k] => some (k, false)
    | _ => none
  | .doc opts =>
    match opts.lookup "path" with
    | some (.str p) =>
      match parsePath p, opts.lookup "preserveNullAndEmptyArrays" with
      | some [k], some (.bool b) => some (k, b)
      | some [k], none => some (k, false)
      | _, _ => none
    | _ => none
  | _ => none

/-- The number a value adds to a `$sum`: a value that is not a number adds nothing. -/
def numOf : Option Value → Int
  | some (.int n) => n
  | _ => 0

/-- Values of an expression over a list of documents. -/
def evalAll (e : Value) : List Doc → Option (List (Option Value))
  | [] => some []
  | d :: ds =>
    match evalExpr e d, evalAll e ds with
    | some v, some vs => some (v :: vs)
    | _, _ => none

/-- An accumulator of `$group` over the documents of one group: `$sum` adds the numbers,
`$push` collects the values that are present, in the order of the documents. -/
def evalAccumulator (acc : Value) (members : List Doc) : Option Value :=
  match acc with
  | .doc [("$sum", e)] => (evalAll e members).map (fun vs => .int (vs.map numOf).sum)
  | .doc [("$push", e)] => (evalAll e members).map (fun vs => .arr (vs.filterMap id))
  | _ => none

/-- The accumulator fields of a `$group` specification over one group. -/
def evalAccumulators (members : List Doc) : List (String × Value) → Option Doc
  | [] => some []
  | (k, acc) :: rest =>
    if k = "_id" then evalAccumulators members rest
    else if !isFieldName k then none
    else
      match evalAccumulator acc members, evalAccumulators members rest with
      | some v, some r => some ((k, v) :: r)
      | _, _ => none

/-- One output document of `$group` for each key in `keys`, built from the documents
whose key it is. -/
def groupRows (spec : Doc) (keyed : List (Value × Doc)) : List Value → Option (List Doc)
  | [] => some []
  | g :: gs =>
    match evalAccumulators ((keyed.filter (fun p => p.1 = g)).map Prod.snd) spec,
          groupRows spec keyed gs with
    | some r, some rs => some ((("_id", g) :: r) :: rs)
    | _, _ => none

/-- The stage `$group`: the key of a document is the value of the `_id` expression, an
absent value read as `null`; there is one output document for each distinct key. -/
def groupDocs (spec : Doc) (docs : List Doc) : Option (List Doc) :=
  match spec.lookup "_id" with
  | none => none
  | some idExpr =>
    match evalAll idExpr docs with
    | none => none
    | some ks =>
      let keys := ks.map (fun k => k.getD .null)
      groupRows spec (keys.zip docs) keys.dedup

/-- One operator of a `$match` condition on the value of a field. Comparisons are on the
field's own value: `$gte` and `$lte` with a date bound hold of a date on that side of the
bound, and of nothing else. -/
def matchOp (v : Option Value) : String × Value → Option Bool
  | ("$exists", .bool b) => some (v.isSome == b)
  | ("$gte", .date a) =>
    match v with
    | some (.date t) => some (decide (a ≤ t))
    | _ => some false
  | ("$lte", .date b) =>
    match v with
    | some (.date t) => some (decide (t ≤ b))
    | _ => some false
  | ("$in", .arr xs) => some (decide (v.getD .null ∈ xs))
  | ("$size", .int n) =>
    match v with
    | some (.arr xs) => some (decide ((xs.length : Int) = n))
    | _ => some false
  | _ => none

/-- All operators of a condition on one value. -/
def matchOps (v : Option Value) : List (String × Value) → Option Bool
  | [] => some true
  | op :: ops =>
    match matchOp v op, matchOps v ops with
    | some a, some b => some (a && b)
    | _, _ => none

/-- The stage `$match` on one document: every field condition holds. -/
def matchDoc (d : Doc) : List (String × Value) → Option Bool
  | [] => some true
  | (k, .doc ops) :: rest =>
    match parseName k.data with
    | none => none
    | some p =>
      match matchOps (getPath p d) ops, matchDoc d rest with
      | some a, some b => some (a && b)
      | _, _ => none
  | _ :: _ => none

/-- The documents of a list that a `$match` specification keeps. -/
def matchDocs (spec : Doc) : List Doc → Option (List Doc)
  | [] => some []
  | d :: ds =>
    match matchDoc d spec, matchDocs spec ds with
    | some true, some r => some (d :: r)
    | some false, some r => some r
    | _, _ => none

/-- The stage `$project` over a list of documents. -/
def projectDocs (spec : Doc) : List Doc → Option (List Doc)
  | [] => some []
  | d :: ds =>
    match projectDoc spec d, projectDocs spec ds with
    | some r, some rs => some (r :: rs)
    | _, _ => none

/-- One stage on the documents that reach it. -/
def runStage (stage : Doc) (docs : List Doc) : Option (List Doc) :=
  match stage with
  | [("$project", .doc spec)] => projectDocs spec docs
  | [("$unwind", operand)] =>
    match unwindSpec operand with
    | some (k, preserve) => some (docs.flatMap (unwindDoc k preserve))
    | none => none
  | [("$group", .doc spec)] => groupDocs spec docs
  | [("$match", .doc spec)] => matchDocs spec docs
  | _ => none

/-- The rows a pipeline gives on a collection: the stages in order, each on the output of
the one before. -/
def aggregate : List Doc → List Doc → Option (List Doc)
  | [], docs => some docs
  | stage :: rest, docs =>
    match runStage stage docs with
    | some out => aggregate rest out
    | none => none

/-! ## Part 3: notions the properties are stated with -/

/-- Whether the `finishedAt` of a document is a date in the inclusive range `lo … hi`. -/
def finishedAtWithin (lo hi : Int) (d : Doc) : Bool :=
  match d.lookup "finishedAt" with
  | some (.date t) => decide (lo ≤ t ∧ t ≤ hi)
  | _ => false

/-- The value a document is grouped under for the field `k`: the value of the field, and
`null` when the document has no such field. -/
def fieldOrNull (k : String) (d : Doc) : Value := (d.lookup k).getD .null

/-- The rows `rows` report the values `vals` with their counts under the name `name`:
there are as many rows as distinct values, every row is `{name: v, count: c}` for a value
`v` of `vals` occurring `c` times in it, with no other field, and every value of `vals` is
reported by exactly one row. -/
def CountRows (name : String) (vals : List Value) (rows : List Doc) : Prop :=
  rows.length = vals.dedup.length ∧
  (∀ row ∈ rows, ∃ v ∈ vals, row.Perm [(name, v), ("count", .int (vals.count v))]) ∧
  (∀ v ∈ vals, rows.countP (fun row => decide (row.lookup name = some v)) = 1)

/-- A single value: one that is neither `null` nor an array. -/
def isSingle : Value → Bool
  | .null => false
  | .arr _ => false
  | _ => true

/-- The elements a document has under the field `k`: the elements of the array when the
field holds one, none when the field is absent or `null`, and the value itself when the
field holds a single value (the flattening stage takes a single value as its own one
element). -/
def elementsOf (k : String) (d : Doc) : List Value :=
  match d.lookup k with
  | some (.arr xs) => xs
  | some .null => []
  | none => []
  | some v => [v]

/-- The language of an element of `codes`: its field `language`, and `null` when the
element has none. -/
def languageOf (e : Value) : Value :=
  match e with
  | .doc fields => (fields.lookup "language").getD .null
  | _ => .null

/-- Whether a document has both `repositoryURL` and `repositoryBranch`. -/
def hasRepository (d : Doc) : Bool :=
  (d.lookup "repositoryURL").isSome && (d.lookup "repositoryBranch").isSome

/-- The distinct (repositoryURL, repositoryBranch) pairs of the documents that have both
fields. -/
def repositoryBranches (coll : List Doc) : List (Value × Value) :=
  ((coll.filter hasRepository).map
    (fun d => (fieldOrNull "repositoryURL" d, fieldOrNull "repositoryBranch" d))).dedup

/-- The distinct repositoryURL values of the documents that have both fields. -/
def repositoryURLs (coll : List Doc) : List Value :=
  ((coll.filter hasRepository).map (fieldOrNull "repositoryURL")).dedup

/-- The identifier of the group of a (repositoryURL, repositoryBranch) pair in the first
`$group` of the `repository` pipeline. -/
def branchKey (p : Value × Value) : Value :=
  .doc [("repositoryBranch", p.2), ("repositoryURL", p.1)]

/-- The identifier of the group of a repositoryURL in the second `$group` of the
`repository` pipeline. -/
def urlKey (u : Value) : Value := .doc [("repositoryURL", u)]

/-- The distinct author values of a collection: the distinct elements of the
`commitAuthors` of its documents. -/
def distinctAuthors (coll : List Doc) : List Value :=
  (coll.flatMap (elementsOf "commitAuthors")).dedup

/-- A capability that behaves as `agg` and writes down each call it receives, the stage
sequence and the collection, at the end of a list kept beside the state. -/
def recording {σ ρ ε κ : Type} (agg : Aggregation σ ρ ε κ) :
    Aggregation (σ × List (List Doc × κ)) ρ ε κ :=
  fun query coll s => ((agg query coll s.1).1, ((agg query coll s.1).2, s.2 ++ [(query, coll)]))

/-- The field `k` with the value `o`, or no field when the value is absent. -/
def optField (k : String) (o : Option Value) : Doc :=
  match o with
  | some v => [(k, v)]
  | none => []

/-- The results that the first stage of the `time-to-fix` pipeline leaves in a record:
those of the record, or, when they are the string `"{}"`, what the path `$REMOVE` reads,
which is the field `REMOVE` of the record. -/
def timeToFixResults (d : Doc) : Option Value :=
  if d.lookup "huskyciresults" = some (.str "{}") then d.lookup "REMOVE"
  else d.lookup "huskyciresults"

/-- The record after the first stage of the `time-to-fix` pipeline. -/
def timeToFixProjected (d : Doc) : Doc :=
  d.filter (fun p => p.1 = "_id" ∨ p.1 = "repositoryBranch" ∨ p.1 = "startedAt" ∨
    p.1 = "finishedAt" ∨ p.1 = "result" ∨ p.1 = "repositoryURL") ++
  optField "huskyciresults" (timeToFixResults d)

/-- Whether the result of a record is `passed` or `failed`. -/
def passedOrFailed (d : Doc) : Bool :=
  decide (d.lookup "result" = some (.str "passed") ∨ d.lookup "result" = some (.str "failed"))

/-- The documents a record becomes in the first five stages of the `time-to-fix` pipeline:
none when its result is neither `passed` nor `failed`, and otherwise one for each choice
of an element of `startedAt`, of `finishedAt` and of the results. -/
def timeToFixUnwound (d : Doc) : List Doc :=
  (((if passedOrFailed d then [timeToFixProjected d] else []).flatMap
    (unwindDoc "startedAt" false)).flatMap
    (unwindDoc "finishedAt" false)).flatMap
    (unwindDoc "huskyciresults" false)

/-- The repository branch of a record: its `repositoryURL` and its `repositoryBranch`, each
of them possibly absent. -/
def branchOf (e : Doc) : Option Value × Option Value :=
  (e.lookup "repositoryURL", e.lookup "repositoryBranch")

/-- The group of a record in the first `$group` of the `time-to-fix` pipeline: its
repository branch and its result. -/
def groupOf (e : Doc) : (Option Value × Option Value) × Option Value :=
  (branchOf e, e.lookup "result")

/-- The identifier of a group of the first `$group` of the `time-to-fix` pipeline. -/
def groupKey (t : (Option Value × Option Value) × Option Value) : Value :=
  .doc (optField "repositoryURL" t.1.1 ++ optField "repositoryBranch" t.1.2 ++
    optField "result" t.2)

/-- The identifier of a group of the second `$group` of the `time-to-fix` pipeline. -/
def pairKey (p : Option Value × Option Value) : Value :=
  .doc (optField "repositoryURL" p.1 ++ optField "repositoryBranch" p.2)

/-- What the first `$group` of the `time-to-fix` pipeline pushes for a document. -/
def datumOf (e : Doc) : Value :=
  .doc (optField "startedAt" (e.lookup "startedAt") ++
    optField "finishedAt" (e.lookup "finishedAt") ++
    optField "hunkyciresults" (e.lookup "huskyciresults"))

/-- The entry of `analyses` for the group `t` of the unwound documents `S`. -/
def analysisOf (S : List Doc) (t : (Option Value × Option Value) × Option Value) : Value :=
  .doc (optField "result" t.2 ++
    [("count", .int (S.filter (fun e => groupOf e = t)).length),
     ("data", .arr ((S.filter (fun e => groupOf e = t)).map datumOf))])

/-- The groups of the unwound documents `S`, each once. -/
def groupsOf (S : List Doc) : List ((Option Value × Option Value) × Option Value) :=
  (S.map groupOf).dedup

/-- The entries of `analyses` for the repository branch `p`. -/
def analysesOf (S : List Doc) (p : Option Value × Option Value) : List Value :=
  ((groupsOf S).filter (fun t => t.1 = p)).map (analysisOf S)

/-- The output row of the `time-to-fix` pipeline for the repository branch `p`. -/
def timeToFixRow (S : List Doc) (p : Option Value × Option Value) : Doc :=
  ("analyses", .arr (analysesOf S p)) ::
    (optField "repositoryURL" p.1 ++ optField "repositoryBranch" p.2)

/-- The rows of the `time-to-fix` pipeline on the unwound documents `S`: one for each
repository branch that has two entries of `analyses`. -/
def timeToFixRows (S : List Doc) : List Doc :=
  ((((groupsOf S).map Prod.fst).dedup).filter
    (fun p => decide ((analysesOf S p).length = 2))).map (timeToFixRow S)

/-- The entries of a map: its fields, and none when the value is absent or not a map. -/
def entriesOf (o : Option Value) : Doc :=
  match o with
  | some (.doc fields) => fields
  | _ => []

/-- Whether a value is a map, `null` or absent: what `$objectToArray` accepts. -/
def mapOrNull (o : Option Value) : Bool :=
  match o with
  | none => true
  | some .null => true
  | some (.doc _) => true
  | _ => false

/-- The `{k, v}` document that `$objectToArray` makes of an entry. -/
def kvDoc (p : String × Value) : Value := .doc [("k", .str p.1), ("v", p.2)]

/-- What `$objectToArray` gives on a map, `null` or an absent value. -/
def objectToArrayOf (o : Option Value) : Value :=
  match o with
  | some (.doc fields) => objectToArray fields
  | _ => .null

/-- The fields `_id` of a document: what a projection keeps of it without being asked. -/
def idPart (d : Doc) : Doc := d.filter (fun q => q.1 = "_id")

/-- The entries of the results of a record, by tool. -/
def toolEntries (d : Doc) : List (String × Value) := entriesOf (d.lookup "huskyciresults")

/-- The entries by language, over all tools of a record. -/
def languageEntries (d : Doc) : List (String × Value) :=
  (toolEntries d).flatMap (fun tool => entriesOf (some tool.2))

/-- The entries by severity, over all tools and languages of a record: each is a severity
key with the findings stored under it. -/
def severityEntries (d : Doc) : List (String × Value) :=
  (languageEntries d).flatMap (fun language => entriesOf (some language.2))

/-- Whether a value is an array. -/
def isArray (v : Value) : Bool :=
  match v with
  | .arr _ => true
  | _ => false

/-- The number of findings of a severity entry: the length of its array. -/
def findingsCount (v : Value) : Int :=
  match v with
  | .arr xs => xs.length
  | _ => 0

/-- Whether the results of a record have the shape the `severity` pipeline reads:
`huskyciresults` is absent, `null` or a map by tool; what a tool maps to is `null` or a map
by language; what a language maps to is `null` or a map by severity; and what a severity
maps to is an array. -/
def resultsShaped (d : Doc) : Bool :=
  mapOrNull (d.lookup "huskyciresults") &&
  (toolEntries d).all (fun tool => mapOrNull (some tool.2)) &&
  (languageEntries d).all (fun language => mapOrNull (some language.2)) &&
  (severityEntries d).all (fun severity => isArray severity.2)

/-- The total number of findings of the severity `s` in a collection: the sum of the
lengths of the arrays stored under `s`, over every record, tool and language. -/
def severityTotal (coll : List Doc) (s : String) : Int :=
  (((coll.flatMap severityEntries).filter (fun e => e.1 = s)).map
    (fun e => findingsCount e.2)).sum

/-- The entries that `f` reads off the records of a collection, each with the record it
comes from. -/
def tagged (coll : List Doc) (f : Doc → List (String × Value)) : List (Doc × (String × Value)) :=
  coll.flatMap (fun d => (f d).map (fun g => (d, g)))

/-- The severity keys of a collection: the keys of the innermost maps of the results, over
every record, tool and language, in the order they are stored and with repetitions. -/
def severityKeys (coll : List Doc) : List String :=
  (coll.flatMap severityEntries).map Prod.fst

/-- The rows `rows` report the findings of a collection by severity: there are as many rows
as distinct severity keys, every row is `{severity: s, count: c}` for a severity key `s`
with `c` the total number of findings of `s` and no other field, and every severity key is
reported by exactly one row. -/
def SeverityRows (coll : List Doc) (rows : List Doc) : Prop :=
  rows.length = (severityKeys coll).dedup.length ∧
  (∀ row ∈ rows, ∃ s ∈ severityKeys coll,
    row.Perm [("severity", .str s), ("count", .int (severityTotal coll s))]) ∧
  (∀ s ∈ severityKeys coll,
    rows.countP (fun row => decide (row.lookup "severity" = some (.str s))) = 1)

/-- The calendar day of an instant on the wall clock of a zone of offset `off`, as a count
of days. -/
def dayOf (off : Int) (t : Time) : Int := (t.sec + off) / secondsPerDay

/-- The BSON date of 00:00:00.000 of day `n` on the wall clock of a zone of offset `off`. -/
def startOfDay (off n : Int) : Int := (n * secondsPerDay - off) * 1000

/-- The BSON date of 23:59:59.999 of day `n` on the wall clock of a zone of offset `off`. -/
def endOfDay (off n : Int) : Int := (n * secondsPerDay + (secondsPerDay - 1) - off) * 1000 + 999

/-- An instant, in Unix seconds, within nine thousand million million seconds of the
epoch: the dates of its day are BSON dates, whose milliseconds are an `int64`. -/
abbrev inRange (s : Int) : Prop := -9000000000000000 ≤ s ∧ s ≤ 9000000000000000

/-- An offset from UTC of less than a day. -/
abbrev zoneOffset (off : Int) : Prop := -86400 < off ∧ off < 86400

/-- A location of two periods: the offset `before` up to the instant `change`, and the
offset `after` from it on. -/
def twoPeriodZone (before change after : Int) : Location :=
  ⟨fun sec => if sec < change then (before, -9223372036854775808, change)
    else (after, change, 9223372036854775807)⟩

/-! ## Part 4: properties -/

theorem evalExpr_doc_eq (fs : List (String × Value)) (d : Doc) :
    evalExpr (.doc fs) d = evalDoc fs d := rfl

theorem evalDoc_nil (d : Doc) : evalDoc [] d = some (some (.doc [])) := rfl

theorem evalDoc_cons (k : String) (e : Value) (rest : List (String × Value)) (d : Doc) :
    evalDoc ((k, e) :: rest) d =
    if k = "$size" then
      match rest, evalExpr e d with
      | [], some (some (.arr xs)) => some (some (.int xs.length))
      | _, _ => none
    else if k = "$objectToArray" then
      match rest, evalExpr e d with
      | [], some (some (.doc fields)) => some (some (objectToArray fields))
      | [], some (some .null) => some (some .null)
      | [], some none => some (some .null)
      | _, _ => none
    else if k = "$eq" then
      match rest, evalList e d with
      | [], some [x, y] => some (some (.bool (decide (x = y))))
      | _, _ => none
    else if k = "$cond" then
      match rest, evalArgs e d with
      | [], some vs =>
        match vs.lookup "if", vs.lookup "then", vs.lookup "else" with
        | some c, some t, some f => some (if truthy c then t else f)
        | _, _, _ => none
      | _, _ => none
    else if isOperator k then none
    else
      match evalExpr e d, evalFields rest d with
      | some (some v), some r => some (some (.doc ((k, v) :: r)))
      | some none, some r => some (some (.doc r))
      | _, _ => none := rfl

theorem evalFields_nil_eq (d : Doc) : evalFields [] d = some [] := rfl

theorem evalFields_cons_eq (k : String) (e : Value) (rest : List (String × Value)) (d : Doc) :
    evalFields ((k, e) :: rest) d =
      if isOperator k then none
      else
        match evalExpr e d, evalFields rest d with
        | some (some v), some r => some ((k, v) :: r)
        | some none, some r => some r
        | _, _ => none := rfl

theorem evalList_arr (xs : List Value) (d : Doc) : evalList (.arr xs) d = evalElems xs d := rfl

theorem evalElems_nil (d : Doc) : evalElems [] d = some [] := rfl

theorem evalElems_cons (e : Value) (rest : List Value) (d : Doc) :
    evalElems (e :: rest) d =
      match evalExpr e d, evalElems rest d with
      | some v, some r => some (v :: r)
      | _, _ => none := rfl

theorem evalArgs_doc (fs : List (String × Value)) (d : Doc) :
    evalArgs (.doc fs) d = evalArgFields fs d := rfl

theorem evalArgFields_nil (d : Doc) : evalArgFields [] d = some [] := rfl

theorem evalArgFields_cons (k : String) (e : Value) (rest : List (String × Value)) (d : Doc) :
    evalArgFields ((k, e) :: rest) d =
      match evalExpr e d, evalArgFields rest d with
      | some v, some r => some ((k, v) :: r)
      | _, _ => none := rfl

theorem mapLit_single {α : Type} (k : String) (v : α) : mapLit [(k, v)] = [(k, v)] := rfl

theorem splitDots_of_no_dot (cs : List Char) (h : '.' ∉ cs) : splitDots cs = [cs] := by
  induction cs with
  | nil => rfl
  | cons c cs ih =>
    have hc : c ≠ '.' := fun e => h (by simp [e])
    have hcs : '.' ∉ cs := fun e => h (by simp [e])
    simp [splitDots, hc, ih hcs]

theorem parseName_of_isFieldName (k : String) (h : isFieldName k = true) :
    parseName k.data = some [k] := by
  simp only [isFieldName, Bool.and_eq_true, Bool.not_eq_true', bne_iff_ne, ne_eq] at h
  obtain ⟨⟨h1, h2⟩, h3⟩ := h
  have hdot : '.' ∉ k.data := by simpa using h2
  have hne : k.data ≠ [] := by simpa using h1
  simp [parseName, h3, splitDots_of_no_dot _ hdot, hne]

theorem parsePath_dollar (k : String) (h : isFieldName k = true) :
    parsePath ("$" ++ k) = some [k] := by
  have : ("$" ++ k).data = '$' :: k.data := by simp [String.data_append]
  simp [parsePath, this, parseName_of_isFieldName k h]

theorem evalExpr_field (k : String) (h : isFieldName k = true) (d : Doc) :
    evalExpr (.str ("$" ++ k)) d = some (d.lookup k) := by
  have : ("$" ++ k).data = '$' :: k.data := by simp [String.data_append]
  simp [evalExpr, this, parsePath_dollar k h, getPath]

theorem simpleAggr_stage_list (field finalName groupID : String)
    (hcount : finalName ≠ "count") (hid : finalName ≠ "_id") :
    generateSimpleAggr field finalName groupID =
      [ [("$project", .doc [(field, .int 1)])],
        [("$unwind", .str ("$" ++ field))],
        [("$group", .doc [("_id", .str ("$" ++ groupID)),
                          ("count", .doc [("$sum", .int 1)])])],
        [("$project", .doc [(finalName, .str "$_id"), ("count", .int 1), ("_id", .int 0)])] ] := by
  simp [generateSimpleAggr, mapLit, bsonM, mapSet, hcount, hid]

/-- C1. With a result name other than `count` and `_id`, `generateSimpleAggr` returns four
stages in this order: a `$project` keeping only `field`, a `$unwind` of `"$" ++ field`, a
`$group` with `_id` the path `"$" ++ groupID` and `count` the sum of 1, and a `$project`
mapping `finalName` to `"$_id"`, `count` to 1 and `_id` to 0. -/
theorem generateSimpleAggr_stages (field finalName groupID : String)
    (hcount : finalName ≠ "count") (hid : finalName ≠ "_id") :
    generateSimpleAggr field finalName groupID =
      [ [("$project", .doc [(field, .int 1)])],
        [("$unwind", .str ("$" ++ field))],
        [("$group", .doc [("_id", .str ("$" ++ groupID)),
                          ("count", .doc [("$sum", .int 1)])])],
        [("$project", .doc [(finalName, .str "$_id"), ("count", .int 1), ("_id", .int 0)])] ] := by
  simp [generateSimpleAggr, mapLit, bsonM, mapSet, hcount, hid]

theorem generateSimpleAggr_stages_witness :
    generateSimpleAggr "codes" "language" "codes.language" =
      [ [("$project", .doc [("codes", .int 1)])],
        [("$unwind", .str "$codes")],
        [("$group", .doc [("_id", .str "$codes.language"),
                          ("count", .doc [("$sum", .int 1)])])],
        [("$project", .doc [("language", .str "$_id"), ("count", .int 1), ("_id", .int 0)])] ] :=
  generateSimpleAggr_stages "codes" "language" "codes.language" (by decide) (by decide)

theorem statsQueryBase_entries :
    statsQueryBase =
      [ ("language", generateSimpleAggr "codes" "language" "codes.language"),
        ("container", generateSimpleAggr "containers" "container" "containers.securityTest.name"),
        ("analysis", analysisQuery),
        ("repository", repositoryQuery),
        ("author", authorQuery),
        ("severity", severityQuery),
        ("time-to-fix", timeToFixQuery) ] := by
  simp [statsQueryBase, mapLit, mapSet]

theorem lookup_isSome_iff {α : Type} (l : List (String × α)) (k : String) :
    (l.lookup k).isSome = true ↔ k ∈ l.map Prod.fst := by
  induction l with
  | nil => simp
  | cons p l ih =>
    obtain ⟨k', v⟩ := p
    by_cases h : k = k'
    · simp [List.lookup, h]
    · have h' : (k == k') = false := by simpa using h
      simp [List.lookup, h', ih, h]

theorem mem_of_lookup_eq_some {α : Type} (l : List (String × α)) (k : String) (v : α)
    (h : l.lookup k = some v) : v ∈ l.map Prod.snd := by
  induction l with
  | nil => simp at h
  | cons p l ih =>
    obtain ⟨k', v'⟩ := p
    by_cases hk : k = k'
    · simp [List.lookup, hk] at h
      simp [h]
    · have h' : (k == k') = false := by simpa using hk
      simp only [List.lookup, h'] at h
      simp [ih h]

/-- C4. The keys of `statsQueryBase` are exactly the seven names `language`, `container`,
`analysis`, `repository`, `author`, `severity` and `time-to-fix`: a name has an entry if and
only if it is one of the seven, no key occurs twice, and each entry is a pipeline with at
least one stage. -/
theorem statsQueryBase_keys :
    (∀ name : String, (statsQueryBase.lookup name).isSome = true ↔
      name ∈ ["language", "container", "analysis", "repository", "author", "severity",
              "time-to-fix"]) ∧
    (statsQueryBase.map Prod.fst).Nodup ∧
    (∀ name pipeline, statsQueryBase.lookup name = some pipeline → pipeline ≠ []) := by
  refine ⟨?_, ?_, ?_⟩
  · intro name
    rw [lookup_isSome_iff, statsQueryBase_entries]
    rfl
  · rw [statsQueryBase_entries]; decide
  · intro name pipeline h
    have hm := mem_of_lookup_eq_some _ _ _ h
    rw [statsQueryBase_entries] at hm
    simp only [List.map, List.mem_cons, List.mem_singleton, List.not_mem_nil, or_false] at hm
    rcases hm with h | h | h | h | h | h | h <;> subst h <;>
      simp [generateSimpleAggr, analysisQuery, repositoryQuery, authorQuery, severityQuery,
        timeToFixQuery]

theorem matchDoc_finishedAt (lo hi : Int) (d : Doc) :
    matchDoc d [("finishedAt", .doc [("$gte", .date lo), ("$lte", .date hi)])] =
      some (finishedAtWithin lo hi d) := by
  have hp : parseName "finishedAt".data = some ["finishedAt"] := by decide
  simp only [matchDoc, hp, getPath, matchOps, matchOp, finishedAtWithin]
  cases h : d.lookup "finishedAt" with
  | none => simp
  | some v => cases v <;> simp [Bool.decide_and]

theorem matchDocs_eq_filter (spec : Doc) (f : Doc → Bool)
    (h : ∀ d, matchDoc d spec = some (f d)) (docs : List Doc) :
    matchDocs spec docs = some (docs.filter f) := by
  induction docs with
  | nil => rfl
  | cons d ds ih =>
    rw [matchDocs, h d, ih]
    cases hf : f d <;> simp [List.filter, hf]

theorem wrapInt64_eq (x : Int) (h₁ : -9223372036854775808 ≤ x)
    (h₂ : x ≤ 9223372036854775807) : wrapInt64 x = x := by
  unfold wrapInt64; omega

theorem Date_fixedZone (off wall nsec : Int) (hoff : zoneOffset off)
    (hw : -9100000000000000 ≤ wall ∧ wall ≤ 9100000000000000) :
    Date (fixedZone off) wall nsec = ⟨wall - off, nsec⟩ := by
  obtain ⟨h1, h2⟩ := hoff
  obtain ⟨h3, h4⟩ := hw
  have e1 : wrapInt64 wall = wall := wrapInt64_eq _ (by omega) (by omega)
  have e2 : wrapInt64 (wall - off) = wall - off := wrapInt64_eq _ (by omega) (by omega)
  simp only [Date, fixedZone, e1, e2]
  by_cases h0 : off = 0
  · simp [h0]
  · have h5 : ¬ (wall - off < -9223372036854775808 ∨ 9223372036854775807 ≤ wall - off) := by
      omega
    simp [h0, h5]

theorem wallClock_fixedZone (off : Int) (t : Time) (hoff : zoneOffset off)
    (ht : inRange t.sec) : wallClock (fixedZone off) t = t.sec + off := by
  obtain ⟨h1, h2⟩ := hoff
  obtain ⟨h3, h4⟩ := ht
  simp only [wallClock, fixedZone]
  exact wrapInt64_eq _ (by omega) (by omega)

/-- In a zone of fixed offset and within range, `t.AddDate(0, 0, days)` is the instant
`days` times 86400 seconds after `t`. -/
theorem AddDate_fixedZone (off : Int) (t : Time) (days : Int) (hoff : zoneOffset off)
    (ht : inRange t.sec) (hd : inRange (t.sec + days * 86400)) :
    AddDate (fixedZone off) t days = ⟨t.sec + days * 86400, t.nsec⟩ := by
  obtain ⟨h1, h2⟩ := hoff
  obtain ⟨h3, h4⟩ := ht
  obtain ⟨h5, h6⟩ := hd
  have e : wrapInt64 days = days := wrapInt64_eq _ (by omega) (by omega)
  unfold AddDate
  rw [wallClock_fixedZone off t ⟨h1, h2⟩ ⟨h3, h4⟩, e, Date_fixedZone _ _ _ ⟨h1, h2⟩
    (by unfold secondsPerDay; omega)]
  congr 1
  unfold secondsPerDay
  omega

theorem lowerBound_fixedZone (off : Int) (t : Time) (days : Int) (hoff : zoneOffset off)
    (ht : inRange t.sec) (hd : inRange (t.sec + days * 86400)) :
    bsonDate (BeginningOfTheDay (fixedZone off) (AddDate (fixedZone off) t days)) =
      startOfDay off (dayOf off t + days) := by
  obtain ⟨h1, h2⟩ := hoff
  obtain ⟨h5, h6⟩ := hd
  rw [AddDate_fixedZone off t days ⟨h1, h2⟩ ht ⟨h5, h6⟩]
  unfold BeginningOfTheDay
  rw [wallClock_fixedZone off _ ⟨h1, h2⟩ ⟨h5, h6⟩, Date_fixedZone _ _ _ ⟨h1, h2⟩
    (by simp only [secondsPerDay]; omega)]
  simp only [bsonDate, startOfDay, dayOf, secondsPerDay]
  rw [wrapInt64_eq _ (by omega) (by omega)]
  omega

theorem upperBound_fixedZone (off : Int) (t : Time) (days : Int) (hoff : zoneOffset off)
    (ht : inRange t.sec) (hd : inRange (t.sec + days * 86400)) :
    bsonDate (EndOfTheDay (fixedZone off) (AddDate (fixedZone off) t days)) =
      endOfDay off (dayOf off t + days) := by
  obtain ⟨h1, h2⟩ := hoff
  obtain ⟨h5, h6⟩ := hd
  rw [AddDate_fixedZone off t days ⟨h1, h2⟩ ht ⟨h5, h6⟩]
  unfold EndOfTheDay
  rw [wallClock_fixedZone off _ ⟨h1, h2⟩ ⟨h5, h6⟩, Date_fixedZone _ _ _ ⟨h1, h2⟩
    (by simp only [secondsPerDay]; omega)]
  simp only [bsonDate, endOfDay, dayOf, secondsPerDay]
  rw [wrapInt64_eq _ (by omega) (by omega)]
  omega

/-- Where the offset of the zone changes, `t.AddDate(0, 0, 1)` keeps the time of the wall
clock and not the distance of 24 hours: from 12:00 at UTC-5 on the day before the offset
becomes UTC-4 it gives 12:00 of the next day, 23 hours later; and a day count of
`2^63 - 1` wraps round to one day back. -/
theorem AddDate_keeps_wall_clock :
    AddDate (twoPeriodZone (-18000) 1710054000 (-14400)) ⟨1710003600, 0⟩ 1 =
      ⟨1710003600 + 23 * 3600, 0⟩ ∧
    wallClock (twoPeriodZone (-18000) 1710054000 (-14400)) ⟨1710003600 + 23 * 3600, 0⟩ =
      wallClock (twoPeriodZone (-18000) 1710054000 (-14400)) ⟨1710003600, 0⟩ + 86400 ∧
    AddDate (fixedZone 0) ⟨1700000000, 0⟩ 9223372036854775807 = ⟨1700000000 - 86400, 0⟩ := by
  decide

/-- The stage of `generateTimeFilterStage`, whatever the zone, the readings and the
offsets: one `$match` whose only condition is on `finishedAt`, with a date under `$gte` and
a date under `$lte`, which keeps the records whose `finishedAt` is a date between them. -/
theorem generateTimeFilterStage_stage (loc : Location) (now₁ now₂ : Time)
    (initDays endDays : Int) (coll : List Doc) :
    generateTimeFilterStage loc now₁ now₂ initDays endDays =
      [ [("$match", .doc [("finishedAt", .doc [
          ("$gte", .date (bsonDate (BeginningOfTheDay loc (AddDate loc now₁ initDays)))),
          ("$lte", .date (bsonDate (EndOfTheDay loc (AddDate loc now₂ endDays))))])])] ] ∧
    aggregate (generateTimeFilterStage loc now₁ now₂ initDays endDays) coll =
      some (coll.filter (finishedAtWithin
        (bsonDate (BeginningOfTheDay loc (AddDate loc now₁ initDays)))
        (bsonDate (EndOfTheDay loc (AddDate loc now₂ endDays))))) := by
  have hs : generateTimeFilterStage loc now₁ now₂ initDays endDays =
      [ [("$match", .doc [("finishedAt", .doc [
          ("$gte", .date (bsonDate (BeginningOfTheDay loc (AddDate loc now₁ initDays)))),
          ("$lte", .date (bsonDate (EndOfTheDay loc (AddDate loc now₂ endDays))))])])] ] := by
    simp [generateTimeFilterStage, mapLit, bsonM, mapSet]
  refine ⟨hs, ?_⟩
  rw [hs]
  simp only [aggregate, runStage]
  rw [matchDocs_eq_filter _ _ (matchDoc_finishedAt _ _)]

/-- C5, as stated, fails: a day offset takes part in 64-bit arithmetic. At the reading
1700000000 s (14 November 2023, UTC) with `initDays = 2^63 - 1` and `endDays = 0` the
`$gte` of the stage is the start of the day before the reading, not the start of a day
`2^63 - 1` days on, and the stage keeps a record of the day before, whose `finishedAt`
does not lie between the start of the day of now plus `initDays` days and the end of the
day of now. -/
theorem generateTimeFilterStage_wraps :
    generateTimeFilterStage (fixedZone 0) ⟨1700000000, 0⟩ ⟨1700000000, 0⟩
        9223372036854775807 0 =
      [ [("$match", .doc [("finishedAt", .doc [
          ("$gte", .date 1699833600000), ("$lte", .date 1700006399999)])])] ] ∧
    startOfDay 0 (dayOf 0 ⟨1700000000, 0⟩ + 9223372036854775807) ≠ 1699833600000 ∧
    aggregate (generateTimeFilterStage (fixedZone 0) ⟨1700000000, 0⟩ ⟨1700000000, 0⟩
        9223372036854775807 0) [[("finishedAt", .date 1699900000000)]] =
      some [[("finishedAt", .date 1699900000000)]] ∧
    finishedAtWithin (startOfDay 0 (dayOf 0 ⟨1700000000, 0⟩ + 9223372036854775807))
      (endOfDay 0 (dayOf 0 ⟨1700000000, 0⟩ + 0)) [("finishedAt", .date 1699900000000)] =
      false := by
  decide

/-- C5, amended. In a zone of fixed offset, for day offsets and two readings of the clock
(the first for `$gte`, the second for `$lte`) with which the readings and the readings
moved by the offsets stay in range, `generateTimeFilterStage` returns exactly one stage, a
`$match` whose only condition is on `finishedAt`, with `$gte` 00:00:00.000 of the day
`initDays` days after the day of the first reading and `$lte` 23:59:59.999 of the day
`endDays` days after the day of the second reading; run on a collection it keeps exactly
the records whose `finishedAt` is a date in the inclusive range between the two. -/
theorem generateTimeFilterStage_window (off : Int) (now₁ now₂ : Time) (initDays endDays : Int)
    (coll : List Doc) (hoff : zoneOffset off)
    (h₁ : inRange now₁.sec) (hinit : inRange (now₁.sec + initDays * 86400))
    (h₂ : inRange now₂.sec) (hend : inRange (now₂.sec + endDays * 86400)) :
    generateTimeFilterStage (fixedZone off) now₁ now₂ initDays endDays =
      [ [("$match", .doc [("finishedAt", .doc [
          ("$gte", .date (startOfDay off (dayOf off now₁ + initDays))),
          ("$lte", .date (endOfDay off (dayOf off now₂ + endDays)))])])] ] ∧
    aggregate (generateTimeFilterStage (fixedZone off) now₁ now₂ initDays endDays) coll =
      some (coll.filter (finishedAtWithin (startOfDay off (dayOf off now₁ + initDays))
        (endOfDay off (dayOf off now₂ + endDays)))) := by
  have h := generateTimeFilterStage_stage (fixedZone off) now₁ now₂ initDays endDays coll
  rw [lowerBound_fixedZone off now₁ initDays hoff h₁ hinit,
    upperBound_fixedZone off now₂ endDays hoff h₂ hend] at h
  exact h

theorem generateTimeFilterStage_window_witness :
    (zoneOffset (-10800) ∧ inRange 1705320000 ∧ inRange (1705320000 + -7 * 86400) ∧
      inRange 1705320001 ∧ inRange (1705320001 + 0 * 86400)) ∧
    startOfDay (-10800) (dayOf (-10800) ⟨1705320000, 250000000⟩ + -7) = 1704682800000 ∧
    endOfDay (-10800) (dayOf (-10800) ⟨1705320001, 0⟩ + 0) = 1705373999999 ∧
    (generateTimeFilterStage (fixedZone (-10800)) ⟨1705320000, 250000000⟩ ⟨1705320001, 0⟩
        (-7) 0 =
      [ [("$match", .doc [("finishedAt", .doc [
          ("$gte", .date (startOfDay (-10800) (dayOf (-10800) ⟨1705320000, 250000000⟩ + -7))),
          ("$lte", .date (endOfDay (-10800) (dayOf (-10800) ⟨1705320001, 0⟩ + 0)))])])] ] ∧
    aggregate (generateTimeFilterStage (fixedZone (-10800)) ⟨1705320000, 250000000⟩
        ⟨1705320001, 0⟩ (-7) 0)
        [ [("finishedAt", .date 1704682799999)], [("finishedAt", .date 1704682800000)],
          [("finishedAt", .date 1705373999999)], [("finishedAt", .date 1705374000000)],
          [("result", .str "passed")] ] =
      some ([ [("finishedAt", .date 1704682799999)], [("finishedAt", .date 1704682800000)],
          [("finishedAt", .date 1705373999999)], [("finishedAt", .date 1705374000000)],
          [("result", .str "passed")] ].filter
        (finishedAtWithin (startOfDay (-10800) (dayOf (-10800) ⟨1705320000, 250000000⟩ + -7))
          (endOfDay (-10800) (dayOf (-10800) ⟨1705320001, 0⟩ + 0))))) ∧
    [ [("finishedAt", Value.date 1704682799999)], [("finishedAt", .date 1704682800000)],
      [("finishedAt", .date 1705373999999)], [("finishedAt", .date 1705374000000)],
      [("result", .str "passed")] ].filter
      (finishedAtWithin (startOfDay (-10800) (dayOf (-10800) ⟨1705320000, 250000000⟩ + -7))
        (endOfDay (-10800) (dayOf (-10800) ⟨1705320001, 0⟩ + 0))) =
      [ [("finishedAt", .date 1704682800000)], [("finishedAt", .date 1705373999999)] ] :=
  ⟨by decide, by decide, by decide,
    generateTimeFilterStage_window (-10800) ⟨1705320000, 250000000⟩ ⟨1705320001, 0⟩ (-7) 0 _
      (by decide) (by decide) (by decide) (by decide) (by decide),
    by decide⟩

/-- C6, as stated, fails, in two ways. The clock is read once for each bound: with
`initDays = 1` and `endDays = 0`, a first reading in the last nanosecond of a day and a
second at the start of the next give the window of that next day, which keeps a record.
And the offsets take part in 64-bit arithmetic: with `initDays = 2^63 - 1` and
`endDays = 0` at a single reading the window runs from the start of the day before to the
end of the day, and keeps a record. -/
theorem generateTimeFilterStage_not_inverted :
    (generateTimeFilterStage (fixedZone 0) ⟨1699919999, 999999999⟩ ⟨1699920000, 0⟩ 1 0 =
      [ [("$match", .doc [("finishedAt", .doc [
          ("$gte", .date 1699920000000), ("$lte", .date 1700006399999)])])] ] ∧
     aggregate (generateTimeFilterStage (fixedZone 0) ⟨1699919999, 999999999⟩
        ⟨1699920000, 0⟩ 1 0) [[("finishedAt", .date 1699950000000)]] =
      some [[("finishedAt", .date 1699950000000)]]) ∧
    (generateTimeFilterStage (fixedZone 0) ⟨1700000000, 0⟩ ⟨1700000000, 0⟩
        9223372036854775807 0 =
      [ [("$match", .doc [("finishedAt", .doc [
          ("$gte", .date 1699833600000), ("$lte", .date 1700006399999)])])] ] ∧
     aggregate (generateTimeFilterStage (fixedZone 0) ⟨1700000000, 0⟩ ⟨1700000000, 0⟩
        9223372036854775807 0) [[("finishedAt", .date 1699900000000)]] =
      some [[("finishedAt", .date 1699900000000)]]) := by
  decide

theorem filter_finishedAtWithin_inverted (lo hi : Int) (h : hi < lo) (coll : List Doc) :
    coll.filter (finishedAtWithin lo hi) = [] := by
  rw [List.filter_eq_nil_iff]
  intro d _
  unfold finishedAtWithin
  split
  · simp only [decide_eq_true_eq, not_and, not_le]
    intro h1
    omega
  · simp

/-- C6, amended. In a zone of fixed offset and in range, when the day of the second
reading of the clock plus `endDays` is earlier than the day of the first reading plus
`initDays` (with `initDays > endDays`: whenever the second reading falls fewer than
`initDays - endDays` days after the first, so whenever both fall on the same day), the
lower bound of the stage of `generateTimeFilterStage` is strictly greater than its upper
bound, and the stage keeps no record of any collection. -/
theorem generateTimeFilterStage_inverted (off : Int) (now₁ now₂ : Time)
    (initDays endDays : Int) (coll : List Doc) (hoff : zoneOffset off)
    (h₁ : inRange now₁.sec) (hinit : inRange (now₁.sec + initDays * 86400))
    (h₂ : inRange now₂.sec) (hend : inRange (now₂.sec + endDays * 86400))
    (h : dayOf off now₂ + endDays < dayOf off now₁ + initDays) :
    generateTimeFilterStage (fixedZone off) now₁ now₂ initDays endDays =
      [ [("$match", .doc [("finishedAt", .doc [
          ("$gte", .date (startOfDay off (dayOf off now₁ + initDays))),
          ("$lte", .date (endOfDay off (dayOf off now₂ + endDays)))])])] ] ∧
    endOfDay off (dayOf off now₂ + endDays) < startOfDay off (dayOf off now₁ + initDays) ∧
    aggregate (generateTimeFilterStage (fixedZone off) now₁ now₂ initDays endDays) coll =
      some [] := by
  have hst := generateTimeFilterStage_stage (fixedZone off) now₁ now₂ initDays endDays coll
  rw [lowerBound_fixedZone off now₁ initDays hoff h₁ hinit,
    upperBound_fixedZone off now₂ endDays hoff h₂ hend] at hst
  have hlt : endOfDay off (dayOf off now₂ + endDays) <
      startOfDay off (dayOf off now₁ + initDays) := by
    simp only [endOfDay, startOfDay, secondsPerDay]
    omega
  refine ⟨hst.1, hlt, ?_⟩
  rw [hst.2, filter_finishedAtWithin_inverted _ _ hlt]

theorem generateTimeFilterStage_inverted_witness :
    (zoneOffset (-10800) ∧ inRange 1705320000 ∧ inRange (1705320000 + 1 * 86400) ∧
      inRange 1705330000 ∧ inRange (1705330000 + 0 * 86400) ∧
      dayOf (-10800) ⟨1705330000, 0⟩ = dayOf (-10800) ⟨1705320000, 0⟩ ∧
      dayOf (-10800) ⟨1705330000, 0⟩ + 0 < dayOf (-10800) ⟨1705320000, 0⟩ + 1) ∧
    startOfDay (-10800) (dayOf (-10800) ⟨1705320000, 0⟩ + 1) = 1705374000000 ∧
    endOfDay (-10800) (dayOf (-10800) ⟨1705330000, 0⟩ + 0) = 1705373999999 ∧
    (generateTimeFilterStage (fixedZone (-10800)) ⟨1705320000, 0⟩ ⟨1705330000, 0⟩ 1 0 =
      [ [("$match", .doc [("finishedAt", .doc [
          ("$gte", .date (startOfDay (-10800) (dayOf (-10800) ⟨1705320000, 0⟩ + 1))),
          ("$lte", .date (endOfDay (-10800) (dayOf (-10800) ⟨1705330000, 0⟩ + 0)))])])] ] ∧
    endOfDay (-10800) (dayOf (-10800) ⟨1705330000, 0⟩ + 0) <
      startOfDay (-10800) (dayOf (-10800) ⟨1705320000, 0⟩ + 1) ∧
    aggregate (generateTimeFilterStage (fixedZone (-10800)) ⟨1705320000, 0⟩
        ⟨1705330000, 0⟩ 1 0)
        [ [("finishedAt", .date 1705373999999)], [("finishedAt", .date 1705374000000)],
          [("result", .str "passed")] ] = some []) :=
  ⟨by decide, by decide, by decide,
    generateTimeFilterStage_inverted (-10800) ⟨1705320000, 0⟩ ⟨1705330000, 0⟩ 1 0 _
      (by decide) (by decide) (by decide) (by decide) (by decide) (by decide)⟩

theorem evalAll_eq (e : Value) (f : Doc → Option Value) (docs : List Doc)
    (h : ∀ d ∈ docs, evalExpr e d = some (f d)) : evalAll e docs = some (docs.map f) := by
  induction docs with
  | nil => rfl
  | cons d ds ih =>
    have h1 := h d (by simp)
    have h2 := ih (fun x hx => h x (by simp [hx]))
    simp [evalAll, h1, h2]

theorem zip_filter_snd (k : Doc → Value) (g : Value) (docs : List Doc) :
    ((((docs.map k).zip docs).filter (fun p => p.1 = g)).map Prod.snd) =
      docs.filter (fun d => k d = g) := by
  induction docs with
  | nil => rfl
  | cons d ds ih =>
    by_cases hk : k d = g
    · simp [List.filter_cons, hk, ← ih]
    · simp [List.filter_cons, hk, ← ih]

theorem groupRows_eq (spec : Doc) (F : List Doc → Doc) (keyed : List (Value × Doc))
    (hF : ∀ m, evalAccumulators m spec = some (F m)) (gs : List Value) :
    groupRows spec keyed gs =
      some (gs.map (fun g =>
        ("_id", g) :: F ((keyed.filter (fun p => p.1 = g)).map Prod.snd))) := by
  induction gs with
  | nil => rfl
  | cons g gs ih => simp [groupRows, hF, ih]

/-- What `$group` gives, for a key expression that has a value `key d` on every document
and accumulators that give `F` on every group. -/
theorem groupDocs_eq (spec : Doc) (idExpr : Value) (key : Doc → Option Value)
    (F : List Doc → Doc) (docs : List Doc)
    (hid : spec.lookup "_id" = some idExpr)
    (hkey : ∀ d ∈ docs, evalExpr idExpr d = some (key d))
    (hF : ∀ m, evalAccumulators m spec = some (F m)) :
    groupDocs spec docs =
      some (((docs.map (fun d => (key d).getD .null)).dedup).map (fun g =>
        ("_id", g) :: F (docs.filter (fun d => (key d).getD .null = g)))) := by
  unfold groupDocs
  rw [hid]
  simp only [evalAll_eq idExpr key docs hkey, List.map_map]
  rw [groupRows_eq spec F _ hF]
  congr 1
  apply List.map_congr_left
  intro g _
  have := zip_filter_snd (fun d => (key d).getD .null) g docs
  simp only [Function.comp_def] at this ⊢
  rw [this]

theorem evalAll_one (docs : List Doc) :
    evalAll (.int 1) docs = some (docs.map (fun _ => some (.int 1))) :=
  evalAll_eq _ _ _ (fun _ _ => by simp [evalExpr])

theorem sum_count (docs : List Doc) :
    ((docs.map (fun _ => some (Value.int 1))).map numOf).sum = (docs.length : Int) := by
  induction docs with
  | nil => rfl
  | cons d ds ih =>
    simp only [List.map_cons, List.sum_cons, List.length_cons, ih, numOf]
    push_cast
    ring

theorem evalAccumulator_count (docs : List Doc) :
    evalAccumulator (.doc [("$sum", .int 1)]) docs = some (.int docs.length) := by
  simp only [evalAccumulator, evalAll_one, Option.map_some', sum_count]

theorem filter_length_eq_count (k : Doc → Value) (g : Value) (docs : List Doc) :
    (docs.filter (fun d => k d = g)).length = (docs.map k).count g := by
  induction docs with
  | nil => rfl
  | cons d ds ih =>
    by_cases hk : k d = g
    · simp [List.filter_cons, hk, ih]
    · simp [List.filter_cons, hk, ih, List.count_cons]

theorem countRows_of_eq (name : String) (vals : List Value) (rows : List Doc)
    (hname : name ≠ "count")
    (h : rows = vals.dedup.map (fun v => [("count", .int (vals.count v)), (name, v)])) :
    CountRows name vals rows := by
  subst h
  refine ⟨by simp, ?_, ?_⟩
  · intro row hrow
    obtain ⟨v, hv, rfl⟩ := List.mem_map.1 hrow
    exact ⟨v, List.mem_dedup.1 hv, List.Perm.swap _ _ _⟩
  · intro v hv
    rw [List.countP_map]
    have hl : ∀ u : Value,
        List.lookup name [("count", Value.int (vals.count u)), (name, u)] = some u := by
      intro u
      have : (name == "count") = false := by simpa using hname
      simp [List.lookup, this]
    have : (fun row : Doc => decide (row.lookup name = some v)) ∘
        (fun u => [("count", Value.int (vals.count u)), (name, u)]) = fun u => decide (u = v) := by
      funext u
      simp [hl u]
    rw [this]
    have hc := List.count_eq_one_of_mem (List.nodup_dedup vals) (List.mem_dedup.2 hv)
    rw [List.count_eq_countP] at hc
    rw [← hc]
    congr 1

theorem projectDocs_eq (spec : Doc) (f : Doc → Doc) (docs : List Doc)
    (h : ∀ d ∈ docs, projectDoc spec d = some (f d)) :
    projectDocs spec docs = some (docs.map f) := by
  induction docs with
  | nil => rfl
  | cons d ds ih =>
    have h1 := h d (by simp)
    have h2 := ih (fun x hx => h x (by simp [hx]))
    simp [projectDocs, h1, h2]

theorem lookup_filter_keys (keep : String → Bool) (k : String) (h : keep k = true) (d : Doc) :
    (d.filter (fun p => keep p.1)).lookup k = d.lookup k := by
  induction d with
  | nil => rfl
  | cons p d ih =>
    obtain ⟨k', v⟩ := p
    by_cases hk : k = k'
    · subst hk
      simp [List.filter_cons, h, List.lookup]
    · have h' : (k == k') = false := by simpa using hk
      by_cases hkeep : keep k' = true
      · simp [List.filter_cons, hkeep, List.lookup, h', ih]
      · simp [List.filter_cons, hkeep, List.lookup, h', ih]

theorem evalAccumulators_count (idExpr : Value) (m : List Doc) :
    evalAccumulators m [("_id", idExpr), ("count", .doc [("$sum", .int 1)])] =
      some [("count", .int m.length)] := by
  have h : isFieldName "count" = true := by decide
  simp [evalAccumulators, evalAccumulator_count, h]

/-- The stage that groups under `idExpr` and counts. -/
theorem group_count (idExpr : Value) (key : Doc → Option Value) (docs : List Doc)
    (hkey : ∀ d ∈ docs, evalExpr idExpr d = some (key d)) :
    groupDocs [("_id", idExpr), ("count", .doc [("$sum", .int 1)])] docs =
      some (((docs.map (fun d => (key d).getD .null)).dedup).map (fun g =>
        [("_id", g), ("count", .int ((docs.map (fun d => (key d).getD .null)).count g))])) := by
  rw [groupDocs_eq _ idExpr key (fun m => [("count", .int m.length)]) docs (by simp [List.lookup])
    hkey (evalAccumulators_count idExpr)]
  congr 1
  apply List.map_congr_left
  intro g _
  rw [filter_length_eq_count (fun d => (key d).getD .null) g docs]

theorem analysisQuery_stages :
    analysisQuery =
      [ [("$project", .doc [("finishedAt", .int 1), ("result", .int 1)])],
        [("$group", .doc [("_id", .str "$result"), ("count", .doc [("$sum", .int 1)])])],
        [("$project", .doc [("count", .int 1), ("result", .str "$_id"), ("_id", .int 0)])] ] := by
  simp [analysisQuery, mapLit, bsonM, mapSet]

theorem analysis_run (coll : List Doc) :
    aggregate analysisQuery coll =
      some (((coll.map (fieldOrNull "result")).dedup).map (fun r =>
        [("count", .int ((coll.map (fieldOrNull "result")).count r)), ("result", r)])) := by
  have hf1 : isFieldName "finishedAt" = true := by decide
  have hf2 : isFieldName "result" = true := by decide
  have hf3 : isFieldName "count" = true := by decide
  have hf4 : isFieldName "_id" = true := by decide
  rw [analysisQuery_stages]
  simp only [aggregate, runStage]
  rw [projectDocs_eq _ (fun d => d.filter (fun p =>
    projKeeps [("finishedAt", .int 1), ("result", .int 1)] p.1)) coll
    (fun d _ => by simp [projectDoc, projCompute, hf1, hf2])]
  simp only []
  rw [group_count (.str "$result") (fun d => d.lookup "result") _
    (fun d _ => evalExpr_field "result" hf2 d)]
  simp only [List.map_map]
  have hkeys : ((fun d : Doc => (d.lookup "result").getD .null) ∘ fun d : Doc => d.filter (fun p =>
      projKeeps [("finishedAt", .int 1), ("result", .int 1)] p.1)) = fieldOrNull "result" := by
    funext d
    simp only [Function.comp, fieldOrNull]
    rw [lookup_filter_keys (projKeeps [("finishedAt", .int 1), ("result", .int 1)]) "result"
      (by decide) d]
  rw [hkeys]
  rw [projectDocs_eq _ (fun row => [("count", (row.lookup "count").getD .null),
      ("result", (row.lookup "_id").getD .null)]) _ ?_]
  · simp [List.map_map, Function.comp_def, List.lookup]
  · intro row hrow
    obtain ⟨g, _, rfl⟩ := List.mem_map.1 hrow
    have he := evalExpr_field "_id" hf4 [("_id", g), ("count", .int ((coll.map (fieldOrNull "result")).count g))]
    have he' : evalExpr (.str "$_id") [("_id", g), ("count", .int ((coll.map (fieldOrNull "result")).count g))] = some (some g) := by
      rw [show ("$_id" : String) = "$" ++ "_id" from rfl, he]; simp [List.lookup]
    simp [projectDoc, projCompute, projKeeps, hf2, hf3, hf4, he', List.lookup, mapSet]

/-- C9. On every collection the `analysis` pipeline gives one row for each distinct value of
`result` (a document without the field counting as `null`), each row being exactly
`{result: r, count: c}` with `c` the number of documents whose result is `r` and no other
field. On the results passed, passed, failed, error, passed the rows are passed: 3,
failed: 1 and error: 1. -/
theorem analysis_rows (coll : List Doc) :
    (∃ rows, aggregate analysisQuery coll = some rows ∧
      CountRows "result" (coll.map (fieldOrNull "result")) rows) ∧
    ∃ rows, aggregate analysisQuery
        [ [("_id", .int 1), ("result", .str "passed"), ("finishedAt", .date 10)],
          [("_id", .int 2), ("result", .str "passed"), ("finishedAt", .date 20)],
          [("_id", .int 3), ("result", .str "failed"), ("finishedAt", .date 30)],
          [("_id", .int 4), ("result", .str "error"), ("finishedAt", .date 40)],
          [("_id", .int 5), ("result", .str "passed"), ("finishedAt", .date 50)] ] = some rows ∧
      rows.Perm [ [("count", .int 3), ("result", .str "passed")],
                  [("count", .int 1), ("result", .str "failed")],
                  [("count", .int 1), ("result", .str "error")] ] := by
  refine ⟨⟨_, analysis_run coll, countRows_of_eq _ _ _ (by decide) rfl⟩, ?_⟩
  refine ⟨_, analysis_run _, ?_⟩
  decide

theorem unwindValues_lookup (k : String) (d : Doc) : unwindValues (d.lookup k) = elementsOf k d := by
  unfold elementsOf
  cases h : d.lookup k with
  | none => rfl
  | some v => cases v <;> rfl

theorem unwindDoc_eq (k : String) (d : Doc) :
    unwindDoc k false d = (elementsOf k d).map (fun v => mapSet d k v) := by
  unfold unwindDoc
  rw [unwindValues_lookup]
  cases elementsOf k d <;> simp

theorem lookup_mapSet_self (d : Doc) (k : String) (v : Value) : (mapSet d k v).lookup k = some v := by
  induction d with
  | nil => simp [mapSet, List.lookup]
  | cons p d ih =>
    obtain ⟨k', v'⟩ := p
    by_cases hk : k' = k
    · simp [mapSet, hk, List.lookup]
    · have h' : (k == k') = false := beq_false_of_ne (fun e => hk e.symm)
      simp [mapSet, hk, List.lookup, h', ih]

theorem projKeeps_single (f : String) : projKeeps [(f, .int 1)] f = true := by
  simp [projKeeps, List.lookup]

theorem projectDoc_single (f : String) (hf : isFieldName f = true) (d : Doc) :
    projectDoc [(f, .int 1)] d = some (d.filter (fun p => projKeeps [(f, .int 1)] p.1)) := by
  simp [projectDoc, projCompute, hf]

theorem elementsOf_filter (f : String) (d : Doc) :
    elementsOf f (d.filter (fun p => projKeeps [(f, .int 1)] p.1)) = elementsOf f d := by
  unfold elementsOf
  rw [lookup_filter_keys (projKeeps [(f, .int 1)]) f (projKeeps_single f) d]

theorem evalExpr_path (g : String) (p : List String) (hp : parsePath ("$" ++ g) = some p)
    (d : Doc) : evalExpr (.str ("$" ++ g)) d = some (getPath p d) := by
  have : ("$" ++ g).data = '$' :: g.data := by simp [String.data_append]
  simp [evalExpr, this, hp]

theorem project_count_row (name : String) (hn : isFieldName name = true)
    (hc : name ≠ "count") (hi : name ≠ "_id") (g c : Value) :
    projectDoc [(name, .str "$_id"), ("count", .int 1), ("_id", .int 0)]
      [("_id", g), ("count", c)] = some [("count", c), (name, g)] := by
  have h3 : isFieldName "count" = true := by decide
  have h4 : isFieldName "_id" = true := by decide
  have he : evalExpr (.str "$_id") [("_id", g), ("count", c)] = some (some g) := by
    rw [show ("$_id" : String) = "$" ++ "_id" from rfl, evalExpr_field "_id" h4]
    simp [List.lookup]
  have h1 : ("_id" == name) = false := beq_false_of_ne (fun e => hi e.symm)
  have h2 : ("count" == name) = false := beq_false_of_ne (fun e => hc e.symm)
  have h5 : ¬ ("count" = name) := fun e => hc e.symm
  simp [projectDoc, projCompute, projKeeps, hn, h3, h4, he, List.lookup, mapSet, h1, h2, h5]

/-- The run of `generateSimpleAggr f name g`: the keys are read by `K` off the elements
that the documents have under `f`. -/
theorem simpleAggr_run (f name g : String) (p : List String) (K : Value → Value)
    (hf : isFieldName f = true) (hn : isFieldName name = true)
    (hc : name ≠ "count") (hi : name ≠ "_id")
    (hp : parsePath ("$" ++ g) = some p)
    (hK : ∀ (d : Doc) (x : Value), (getPath p (mapSet d f x)).getD .null = K x)
    (coll : List Doc) :
    aggregate (generateSimpleAggr f name g) coll =
      some ((((coll.flatMap (elementsOf f)).map K).dedup).map (fun v =>
        [("count", .int (((coll.flatMap (elementsOf f)).map K).count v)), (name, v)])) := by
  rw [simpleAggr_stage_list f name g hc hi]
  simp only [aggregate, runStage]
  rw [projectDocs_eq _ _ coll (fun d _ => projectDoc_single f hf d)]
  have hu : unwindSpec (.str ("$" ++ f)) = some (f, false) := by
    simp [unwindSpec, parsePath_dollar f hf]
  simp only [hu]
  rw [group_count (.str ("$" ++ g)) (getPath p) _ (fun d _ => evalExpr_path g p hp d)]
  have hkeys : ((coll.map (fun d => d.filter (fun q => projKeeps [(f, .int 1)] q.1))).flatMap
      (unwindDoc f false)).map (fun d => (getPath p d).getD .null) =
      (coll.flatMap (elementsOf f)).map K := by
    induction coll with
    | nil => rfl
    | cons d ds ih =>
      simp only [List.map_cons, List.flatMap_cons, List.map_append, ih]
      congr 1
      rw [unwindDoc_eq, elementsOf_filter, List.map_map]
      apply List.map_congr_left
      intro x _
      exact hK _ x
  simp only [hkeys]
  rw [projectDocs_eq _ (fun row => [("count", (row.lookup "count").getD .null),
      (name, (row.lookup "_id").getD .null)]) _ ?_]
  · simp [List.map_map, Function.comp_def, List.lookup]
  · intro row hrow
    obtain ⟨v, _, rfl⟩ := List.mem_map.1 hrow
    rw [project_count_row name hn hc hi]
    simp [List.lookup]

theorem elementsOf_single (f : String) (d : Doc) (v : Value) (h : d.lookup f = some v)
    (hv : isSingle v = true) : elementsOf f d = [fieldOrNull f d] := by
  unfold elementsOf fieldOrNull
  rw [h]
  cases v <;> simp_all [isSingle]

theorem flatMap_elementsOf_single (f : String) (coll : List Doc)
    (hs : ∀ d ∈ coll, ∃ v, d.lookup f = some v ∧ isSingle v = true) :
    coll.flatMap (elementsOf f) = coll.map (fieldOrNull f) := by
  induction coll with
  | nil => rfl
  | cons d ds ih =>
    obtain ⟨v, h, hv⟩ := hs d (by simp)
    simp only [List.flatMap_cons, List.map_cons, elementsOf_single f d v h hv,
      ih (fun x hx => hs x (by simp [hx]))]
    rfl

/-- C2. Let `f` and `name` be field names (not empty, without a dot or a leading `$`), `name`
other than `count` and `_id`, and let every document of the collection carry a single value
(neither `null` nor an array) under `f`. Then the rows of `generateSimpleAggr f name f` on
the collection are as many as the distinct values of `f`, each row is exactly
`{name: v, count: m}` with `m` the number of documents whose `f` is `v`, and every value is
reported by exactly one row. -/
theorem simpleAggr_counts (f name : String) (coll : List Doc)
    (hf : isFieldName f = true) (hn : isFieldName name = true)
    (hc : name ≠ "count") (hi : name ≠ "_id")
    (hs : ∀ d ∈ coll, ∃ v, d.lookup f = some v ∧ isSingle v = true) :
    ∃ rows, aggregate (generateSimpleAggr f name f) coll = some rows ∧
      CountRows name (coll.map (fieldOrNull f)) rows := by
  have hrun := simpleAggr_run f name f [f] id hf hn hc hi (parsePath_dollar f hf)
    (fun d x => by simp [getPath, lookup_mapSet_self]) coll
  rw [flatMap_elementsOf_single f coll hs, List.map_id] at hrun
  exact ⟨_, hrun, countRows_of_eq _ _ _ hc rfl⟩

theorem simpleAggr_counts_witness :
    ∃ rows, aggregate (generateSimpleAggr "status" "state" "status")
        [ [("_id", .int 1), ("status", .str "running")],
          [("_id", .int 2), ("status", .str "finished")],
          [("_id", .int 3), ("status", .str "running")] ] = some rows ∧
      CountRows "state"
        ([ [("_id", .int 1), ("status", .str "running")],
           [("_id", .int 2), ("status", .str "finished")],
           [("_id", .int 3), ("status", .str "running")] ].map (fieldOrNull "status")) rows :=
  simpleAggr_counts "status" "state" _ (by decide) (by decide) (by decide) (by decide)
    (by
      intro d hd
      simp only [List.mem_cons, List.mem_singleton, List.not_mem_nil, or_false] at hd
      rcases hd with rfl | rfl | rfl
      · exact ⟨.str "running", by decide, by decide⟩
      · exact ⟨.str "finished", by decide, by decide⟩
      · exact ⟨.str "running", by decide, by decide⟩)

theorem languageOf_key (d : Doc) (x : Value) :
    (getPath ["codes", "language"] (mapSet d "codes" x)).getD .null = languageOf x := by
  simp only [getPath, lookup_mapSet_self]
  cases x <;> simp [languageOf]

/-- C3. The `language` entry of the catalog is
`generateSimpleAggr "codes" "language" "codes.language"`. On every collection its rows
report, for each language, the number of elements of the `codes` arrays of all documents
that have this language (a `codes` that is a single value counting as its one element, an
element without `language` counting under `null`). A document whose `codes` array has `n`
elements reaches the grouping stage as `n` documents; for instance a document with codes
go, go, py gives go: 2 and py: 1. -/
theorem language_counts (coll : List Doc) :
    statsQueryBase.lookup "language" =
      some (generateSimpleAggr "codes" "language" "codes.language") ∧
    (∃ rows, aggregate (generateSimpleAggr "codes" "language" "codes.language") coll =
        some rows ∧
      CountRows "language" ((coll.flatMap (elementsOf "codes")).map languageOf) rows) ∧
    (∀ (d : Doc) (xs : List Value), d.lookup "codes" = some (.arr xs) →
      ∃ out, aggregate ((generateSimpleAggr "codes" "language" "codes.language").take 2) [d] =
        some out ∧ out.length = xs.length) ∧
    ∃ rows, aggregate (generateSimpleAggr "codes" "language" "codes.language")
        [ [("_id", .int 1), ("codes", .arr [.doc [("language", .str "go")],
            .doc [("language", .str "go")], .doc [("language", .str "py")]])] ] = some rows ∧
      rows.Perm [ [("count", .int 2), ("language", .str "go")],
                  [("count", .int 1), ("language", .str "py")] ] := by
  have hrun := fun c => simpleAggr_run "codes" "language" "codes.language" ["codes", "language"]
    languageOf (by decide) (by decide) (by decide) (by decide) (by decide) languageOf_key c
  refine ⟨?_, ⟨_, hrun coll, countRows_of_eq _ _ _ (by decide) rfl⟩, ?_, ⟨_, hrun _, by decide⟩⟩
  · rw [statsQueryBase_entries]; rfl
  · intro d xs hd
    rw [simpleAggr_stage_list _ _ _ (by decide) (by decide)]
    have hu : unwindSpec (.str ("$" ++ "codes")) = some ("codes", false) := by decide
    simp only [List.take, aggregate, runStage, hu]
    rw [projectDocs_eq _ _ [d] (fun d _ => projectDoc_single "codes" (by decide) d)]
    simp only [List.map_cons, List.map_nil, List.flatMap_cons, List.flatMap_nil,
      List.append_nil, unwindDoc_eq, elementsOf_filter]
    refine ⟨_, rfl, ?_⟩
    simp [elementsOf, hd]

theorem matchDoc_exists (k : String) (hk : isFieldName k = true) (d : Doc) :
    matchDoc d [(k, .doc [("$exists", .bool true)])] = some (d.lookup k).isSome := by
  simp [matchDoc, parseName_of_isFieldName k hk, getPath, matchOps, matchOp]

theorem evalAccumulators_none (idExpr : Value) (m : List Doc) :
    evalAccumulators m [("_id", idExpr)] = some [] := by
  simp [evalAccumulators]

/-- The stage that groups under `idExpr` and computes nothing else. -/
theorem group_keys (idExpr : Value) (key : Doc → Option Value) (docs : List Doc)
    (hkey : ∀ d ∈ docs, evalExpr idExpr d = some (key d)) :
    groupDocs [("_id", idExpr)] docs =
      some (((docs.map (fun d => (key d).getD .null)).dedup).map (fun g => [("_id", g)])) := by
  rw [groupDocs_eq _ idExpr key (fun _ => []) docs (by simp [List.lookup]) hkey
    (evalAccumulators_none idExpr)]

theorem dedup_const {α β : Type} [DecidableEq β] (l : List α) (a : β) (h : l ≠ []) :
    (l.map (fun _ => a)).dedup = [a] := by
  rw [List.map_const']
  exact List.replicate_dedup (by simpa using h)

/-- The stage that puts all documents in one group, under a constant key. -/
theorem group_all (spec : Doc) (c : Value) (F : List Doc → Doc) (docs : List Doc)
    (hid : spec.lookup "_id" = some c)
    (hc : ∀ d, evalExpr c d = some (some c))
    (hF : ∀ m, evalAccumulators m spec = some (F m)) :
    groupDocs spec docs = some (if docs = [] then [] else [("_id", c) :: F docs]) := by
  rw [groupDocs_eq spec c (fun _ => some c) F docs hid (fun d _ => hc d) hF]
  by_cases h : docs = []
  · subst h; rfl
  · simp only [Option.getD_some, h, if_false]
    rw [dedup_const docs c h]
    simp

theorem dedup_map_dedup_length {α β : Type} [DecidableEq α] [DecidableEq β] (l : List α)
    (f : α → β) : ((l.dedup.map f).dedup).length = ((l.map f).dedup).length := by
  rw [← List.card_toFinset, ← List.card_toFinset]
  congr 1
  ext x
  simp

theorem cast_sum_map {α : Type} (l : List α) (f : α → Nat) :
    (l.map (fun a => (f a : Int))).sum = ((l.map f).sum : Nat) := by
  induction l with
  | nil => rfl
  | cons a l ih => simp [ih]

theorem sum_counts_dedup (keys : List Value) :
    (keys.dedup.map (fun g => (keys.count g : Int))).sum = (keys.length : Int) := by
  rw [cast_sum_map, List.sum_map_count_dedup_eq_length]

theorem repositoryQuery_stages :
    repositoryQuery =
      [ [("$match", .doc [("repositoryURL", .doc [("$exists", .bool true)])])],
        [("$match", .doc [("repositoryBranch", .doc [("$exists", .bool true)])])],
        [("$group", .doc [("_id", .doc [("repositoryBranch", .str "$repositoryBranch"),
                                        ("repositoryURL", .str "$repositoryURL")])])],
        [("$group", .doc [("_id", .doc [("repositoryURL", .str "$_id.repositoryURL")]),
                          ("branches", .doc [("$sum", .int 1)])])],
        [("$group", .doc [("_id", .str "repositories"),
                          ("totalBranches", .doc [("$sum", .str "$branches")]),
                          ("totalRepositories", .doc [("$sum", .int 1)])])] ] := by
  simp [repositoryQuery, mapLit, bsonM, mapSet]

theorem branchKey_injective : Function.Injective branchKey := by
  intro p q h
  obtain ⟨a, b⟩ := p
  obtain ⟨c, d⟩ := q
  simp [branchKey] at h
  simp [h.1, h.2]

theorem urlKey_injective : Function.Injective urlKey := by
  intro p q h
  simpa [urlKey] using h

theorem evalExpr_doc (fs : List (String × Value)) (d : Doc)
    (hop : (fs.head?.map (fun p => isOperator p.1)).getD false = false) :
    evalExpr (.doc fs) d = (evalFields fs d).map (fun r => some (.doc r)) := by
  rw [evalExpr_doc_eq]
  cases fs with
  | nil => rfl
  | cons p rest =>
    obtain ⟨k, e⟩ := p
    have h : isOperator k = false := by simpa using hop
    have h1 : k ≠ "$size" := by rintro rfl; exact absurd h (by decide)
    have h2 : k ≠ "$objectToArray" := by rintro rfl; exact absurd h (by decide)
    have h3 : k ≠ "$eq" := by rintro rfl; exact absurd h (by decide)
    have h4 : k ≠ "$cond" := by rintro rfl; exact absurd h (by decide)
    rw [evalDoc_cons, evalFields_cons_eq]
    simp only [h1, h2, h3, h4, h, if_false, Bool.false_eq_true]
    cases evalExpr e d with
    | none => rfl
    | some v =>
      cases v with
      | none => cases evalFields rest d <;> rfl
      | some w => cases evalFields rest d <;> rfl

theorem evalFields_cons_some (k : String) (e : Value) (rest : List (String × Value)) (d : Doc)
    (v : Value) (r : Doc) (hk : isOperator k = false) (he : evalExpr e d = some (some v))
    (hr : evalFields rest d = some r) : evalFields ((k, e) :: rest) d = some ((k, v) :: r) := by
  simp [evalFields, hk, he, hr]

theorem evalFields_nil (d : Doc) : evalFields [] d = some [] := by
  simp [evalFields]

theorem evalExpr_branchKey (d : Doc) (h : hasRepository d = true) :
    evalExpr (.doc [("repositoryBranch", .str "$repositoryBranch"),
                    ("repositoryURL", .str "$repositoryURL")]) d =
      some (some (branchKey (fieldOrNull "repositoryURL" d, fieldOrNull "repositoryBranch" d))) := by
  have h1 := evalExpr_field "repositoryBranch" (by decide) d
  have h2 := evalExpr_field "repositoryURL" (by decide) d
  rw [show ("$" ++ "repositoryBranch" : String) = "$repositoryBranch" from rfl] at h1
  rw [show ("$" ++ "repositoryURL" : String) = "$repositoryURL" from rfl] at h2
  simp only [hasRepository, Bool.and_eq_true, Option.isSome_iff_exists] at h
  obtain ⟨⟨u, hu⟩, ⟨b, hb⟩⟩ := h
  rw [hb] at h1
  rw [hu] at h2
  rw [evalExpr_doc _ _ (by decide), evalFields_cons_some _ _ _ _ b _ (by decide) h1
    (evalFields_cons_some _ _ _ _ u _ (by decide) h2 (evalFields_nil d))]
  simp [branchKey, fieldOrNull, hu, hb]

theorem evalExpr_urlKey (p : Value × Value) :
    evalExpr (.doc [("repositoryURL", .str "$_id.repositoryURL")]) [("_id", branchKey p)] =
      some (some (urlKey p.1)) := by
  have h1 : evalExpr (.str "$_id.repositoryURL") [("_id", branchKey p)] = some (some p.1) := by
    have := evalExpr_path "_id.repositoryURL" ["_id", "repositoryURL"] (by decide)
      [("_id", branchKey p)]
    rw [show ("$" ++ "_id.repositoryURL" : String) = "$_id.repositoryURL" from rfl] at this
    rw [this]
    simp [getPath, List.lookup, branchKey]
  rw [evalExpr_doc _ _ (by decide),
    evalFields_cons_some _ _ _ _ p.1 _ (by decide) h1 (evalFields_nil _)]
  simp [urlKey]

theorem evalAccumulators_branches (idExpr : Value) (m : List Doc) :
    evalAccumulators m [("_id", idExpr), ("branches", .doc [("$sum", .int 1)])] =
      some [("branches", .int m.length)] := by
  have h : isFieldName "branches" = true := by decide
  simp [evalAccumulators, evalAccumulator_count, h]

theorem evalAccumulators_totals (m : List Doc) :
    evalAccumulators m [("_id", .str "repositories"),
        ("totalBranches", .doc [("$sum", .str "$branches")]),
        ("totalRepositories", .doc [("$sum", .int 1)])] =
      some [("totalBranches", .int ((m.map (fun r => numOf (r.lookup "branches"))).sum)),
            ("totalRepositories", .int m.length)] := by
  have h1 : isFieldName "totalBranches" = true := by decide
  have h2 : isFieldName "totalRepositories" = true := by decide
  have he : evalAll (.str "$branches") m = some (m.map (fun r => r.lookup "branches")) :=
    evalAll_eq _ _ _ (fun d _ => evalExpr_field "branches" (by decide) d)
  have hs : evalAccumulator (.doc [("$sum", .str "$branches")]) m =
      some (.int ((m.map (fun r => numOf (r.lookup "branches"))).sum)) := by
    simp only [evalAccumulator, he, Option.map_some', List.map_map]
    rfl
  simp [evalAccumulators, evalAccumulator_count, hs, h1, h2]

/-- The run of the `repository` pipeline: no row when no document has both fields, and
otherwise the one row of the totals. -/
theorem repository_run (coll : List Doc) :
    aggregate repositoryQuery coll =
      some (if coll.filter hasRepository = [] then []
        else [[("_id", .str "repositories"),
               ("totalBranches", .int (repositoryBranches coll).length),
               ("totalRepositories", .int (repositoryURLs coll).length)]]) := by
  rw [repositoryQuery_stages]
  simp only [aggregate, runStage]
  rw [matchDocs_eq_filter _ _ (matchDoc_exists "repositoryURL" (by decide))]
  simp only []
  rw [matchDocs_eq_filter _ _ (matchDoc_exists "repositoryBranch" (by decide))]
  simp only [List.filter_filter]
  have hfilter : coll.filter (fun a => (a.lookup "repositoryBranch").isSome &&
      (a.lookup "repositoryURL").isSome) = coll.filter hasRepository := by
    congr 1
    funext a
    simp [hasRepository, Bool.and_comm]
  rw [hfilter]
  -- first group: one row for each distinct pair
  rw [group_keys _ (fun d => some (branchKey
      (fieldOrNull "repositoryURL" d, fieldOrNull "repositoryBranch" d))) _
    (fun d hd => evalExpr_branchKey d (List.mem_filter.1 hd).2)]
  simp only [Option.getD_some]
  have hB : ((coll.filter hasRepository).map (fun d => branchKey
      (fieldOrNull "repositoryURL" d, fieldOrNull "repositoryBranch" d))).dedup =
      (repositoryBranches coll).map branchKey := by
    rw [repositoryBranches, ← List.dedup_map_of_injective branchKey_injective, List.map_map]
    rfl
  rw [hB, List.map_map]
  -- second group: one row for each distinct repository, counting its pairs
  have hkey2 : ∀ row ∈ (repositoryBranches coll).map ((fun g => [("_id", g)]) ∘ branchKey),
      evalExpr (.doc [("repositoryURL", .str "$_id.repositoryURL")]) row =
        some ((evalExpr (.doc [("repositoryURL", .str "$_id.repositoryURL")]) row).getD none) := by
    intro row hrow
    obtain ⟨p, _, rfl⟩ := List.mem_map.1 hrow
    simp only [Function.comp, evalExpr_urlKey, Option.getD_some]
  rw [groupDocs_eq _ _ _ (fun m => [("branches", .int m.length)]) _ (by simp [List.lookup])
    hkey2 (evalAccumulators_branches _)]
  have hkeys2 : ((repositoryBranches coll).map ((fun g => [("_id", g)]) ∘ branchKey)).map
      (fun d => ((evalExpr (.doc [("repositoryURL", .str "$_id.repositoryURL")]) d).getD
        none).getD .null) = (repositoryBranches coll).map (fun p => urlKey p.1) := by
    rw [List.map_map]
    apply List.map_congr_left
    intro p _
    simp only [Function.comp, evalExpr_urlKey, Option.getD_some]
  simp only [filter_length_eq_count (fun d => ((evalExpr (.doc [("repositoryURL",
    .str "$_id.repositoryURL")]) d).getD none).getD .null), hkeys2]
  -- third group: the totals
  rw [group_all _ (.str "repositories") _ _ (by simp [List.lookup])
    (fun d => by simp [evalExpr]) evalAccumulators_totals]
  by_cases hempty : coll.filter hasRepository = []
  · simp [repositoryBranches, hempty]
  · have hB0 : repositoryBranches coll ≠ [] := by
      intro h0
      apply hempty
      have := congrArg List.length h0
      cases hc : coll.filter hasRepository with
      | nil => rfl
      | cons d ds =>
        have hm : (fieldOrNull "repositoryURL" d, fieldOrNull "repositoryBranch" d) ∈
            repositoryBranches coll := by
          rw [repositoryBranches, List.mem_dedup, hc]
          simp
        rw [h0] at hm
        simp at hm
    have hrows : ((repositoryBranches coll).map (fun p => urlKey p.1)).dedup ≠ [] := by
      intro h0
      obtain ⟨p, ps, hp⟩ := List.exists_cons_of_ne_nil hB0
      have hm : urlKey p.1 ∈ ((repositoryBranches coll).map (fun p => urlKey p.1)).dedup := by
        rw [List.mem_dedup, hp]
        simp
      rw [h0] at hm
      simp at hm
    simp only [hempty, if_false, List.map_eq_nil_iff, hrows, List.map_map, List.length_map]
    have hsum : (((repositoryBranches coll).map (fun p => urlKey p.1)).dedup.map
        ((fun r : Doc => numOf (r.lookup "branches")) ∘ fun g =>
          [("_id", g), ("branches", .int (((repositoryBranches coll).map
            (fun p => urlKey p.1)).count g))])).sum =
        ((repositoryBranches coll).length : Int) := by
      have := sum_counts_dedup ((repositoryBranches coll).map (fun p => urlKey p.1))
      rw [List.length_map] at this
      rw [← this]
      congr 1
    have hlen : (((repositoryBranches coll).map (fun p => urlKey p.1)).dedup).length =
        (repositoryURLs coll).length := by
      have e1 : (repositoryBranches coll).map (fun p => urlKey p.1) =
          ((repositoryBranches coll).map Prod.fst).map urlKey := by
        rw [List.map_map]; rfl
      rw [e1, List.dedup_map_of_injective urlKey_injective, List.length_map, repositoryBranches,
        dedup_map_dedup_length, List.map_map, repositoryURLs]
      rfl
    rw [hsum, hlen]

/-- C7. On every collection, each row of the `repository` pipeline has `totalBranches` equal
to the number of distinct (repositoryURL, repositoryBranch) pairs and `totalRepositories`
equal to the number of distinct repositoryURL values, both over the documents that have
both fields. Two repositories with branches main, dev and main give `totalBranches` 3 and
`totalRepositories` 2. -/
theorem repository_totals (coll : List Doc) :
    (∃ rows, aggregate repositoryQuery coll = some rows ∧
      ∀ row ∈ rows,
        row.lookup "totalBranches" = some (.int (repositoryBranches coll).length) ∧
        row.lookup "totalRepositories" = some (.int (repositoryURLs coll).length)) ∧
    ∃ row, aggregate repositoryQuery
        [ [("_id", .int 1), ("repositoryURL", .str "a"), ("repositoryBranch", .str "main")],
          [("_id", .int 2), ("repositoryURL", .str "a"), ("repositoryBranch", .str "dev")],
          [("_id", .int 3), ("repositoryURL", .str "b"), ("repositoryBranch", .str "main")],
          [("_id", .int 4), ("repositoryURL", .str "a"), ("repositoryBranch", .str "main")],
          [("_id", .int 5), ("repositoryURL", .str "c")] ] = some [row] ∧
      row.lookup "totalBranches" = some (.int 3) ∧
      row.lookup "totalRepositories" = some (.int 2) := by
  constructor
  · refine ⟨_, repository_run coll, ?_⟩
    intro row hrow
    by_cases h : coll.filter hasRepository = []
    · simp [h] at hrow
    · simp only [h, if_false, List.mem_singleton] at hrow
      subst hrow
      simp [List.lookup]
  · refine ⟨[("_id", .str "repositories"), ("totalBranches", .int 3),
      ("totalRepositories", .int 2)], ?_, by decide, by decide⟩
    rw [repository_run]
    decide

/-- C8, as stated, fails: on the empty collection the `repository` pipeline gives no row,
not one. -/
theorem repository_empty_no_row :
    aggregate repositoryQuery [] = some [] ∧
    ¬ ∃ row, aggregate repositoryQuery [] = some [row] := by
  have h : aggregate repositoryQuery [] = some [] := by
    rw [repository_run]; rfl
  refine ⟨h, ?_⟩
  rintro ⟨row, hrow⟩
  rw [h] at hrow
  simp at hrow

/-- C8, amended. The `repository` pipeline gives exactly one row on a collection in which
some document has both `repositoryURL` and `repositoryBranch`, and no row on any other
collection, the empty one included. -/
theorem repository_row_count (coll : List Doc) :
    ∃ rows, aggregate repositoryQuery coll = some rows ∧
      rows.length = if coll.any hasRepository = true then 1 else 0 := by
  refine ⟨_, repository_run coll, ?_⟩
  by_cases h : coll.filter hasRepository = []
  · have hany : ¬ (coll.any hasRepository = true) := by
      rw [List.any_eq_true]
      rintro ⟨d, hd, hr⟩
      have : d ∈ coll.filter hasRepository := List.mem_filter.2 ⟨hd, hr⟩
      rw [h] at this
      simp at this
    simp [h, hany]
  · have hany : coll.any hasRepository = true := by
      rw [List.any_eq_true]
      obtain ⟨d, ds, hd⟩ := List.exists_cons_of_ne_nil h
      have : d ∈ coll.filter hasRepository := by rw [hd]; simp
      exact ⟨d, (List.mem_filter.1 this).1, (List.mem_filter.1 this).2⟩
    simp [h, hany]

theorem unwound_keys (f : String) (p : List String) (K : Value → Value)
    (hK : ∀ (d : Doc) (x : Value), (getPath p (mapSet d f x)).getD .null = K x)
    (coll : List Doc) :
    ((coll.map (fun d => d.filter (fun q => projKeeps [(f, .int 1)] q.1))).flatMap
      (unwindDoc f false)).map (fun d => (getPath p d).getD .null) =
      (coll.flatMap (elementsOf f)).map K := by
  induction coll with
  | nil => rfl
  | cons d ds ih =>
    simp only [List.map_cons, List.flatMap_cons, List.map_append, ih]
    congr 1
    rw [unwindDoc_eq, elementsOf_filter, List.map_map]
    apply List.map_congr_left
    intro x _
    exact hK _ x

theorem authorQuery_stages :
    authorQuery =
      [ [("$project", .doc [("commitAuthors", .int 1)])],
        [("$unwind", .str "$commitAuthors")],
        [("$group", .doc [("_id", .str "$commitAuthors")])],
        [("$group", .doc [("_id", .str "commitAuthors"),
                          ("totalAuthors", .doc [("$sum", .int 1)])])] ] := by
  simp [authorQuery, mapLit, bsonM, mapSet]

theorem evalAccumulators_totalAuthors (m : List Doc) :
    evalAccumulators m [("_id", .str "commitAuthors"),
        ("totalAuthors", .doc [("$sum", .int 1)])] = some [("totalAuthors", .int m.length)] := by
  have h : isFieldName "totalAuthors" = true := by decide
  simp [evalAccumulators, evalAccumulator_count, h]

/-- The run of the `author` pipeline: no row when no document has an author, and otherwise
the one row of the number of distinct authors. -/
theorem author_run (coll : List Doc) :
    aggregate authorQuery coll =
      some (if coll.flatMap (elementsOf "commitAuthors") = [] then []
        else [[("_id", .str "commitAuthors"),
               ("totalAuthors", .int (distinctAuthors coll).length)]]) := by
  rw [authorQuery_stages]
  have hu : unwindSpec (.str "$commitAuthors") = some ("commitAuthors", false) := by decide
  simp only [aggregate, runStage, hu]
  rw [projectDocs_eq _ _ coll (fun d _ => projectDoc_single "commitAuthors" (by decide) d)]
  simp only []
  rw [group_keys (.str "$commitAuthors") (getPath ["commitAuthors"]) _
    (fun d _ => evalExpr_path "commitAuthors" ["commitAuthors"] (by decide) d)]
  rw [unwound_keys "commitAuthors" ["commitAuthors"] id
    (fun d x => by simp [getPath, lookup_mapSet_self]) coll, List.map_id]
  simp only []
  rw [group_all _ (.str "commitAuthors") _ _ (by simp [List.lookup])
    (fun d => by simp [evalExpr]) evalAccumulators_totalAuthors]
  by_cases h : coll.flatMap (elementsOf "commitAuthors") = []
  · simp [h]
  · have hd : (coll.flatMap (elementsOf "commitAuthors")).dedup ≠ [] := by
      intro h0
      obtain ⟨a, as, ha⟩ := List.exists_cons_of_ne_nil h
      have hm : a ∈ (coll.flatMap (elementsOf "commitAuthors")).dedup := by
        rw [List.mem_dedup, ha]; simp
      rw [h0] at hm
      simp at hm
    simp [h, hd, distinctAuthors]

/-- C10. On a collection in which some document has a non-empty `commitAuthors` array, the
`author` pipeline gives exactly one row, `{_id: "commitAuthors", totalAuthors: n}`, with `n`
the number of distinct author values among the `commitAuthors` of all documents: an author
of several documents, or several times in one array, is counted once. -/
theorem author_total (coll : List Doc)
    (h : ∃ d ∈ coll, ∃ x xs, d.lookup "commitAuthors" = some (.arr (x :: xs))) :
    aggregate authorQuery coll =
      some [[("_id", .str "commitAuthors"),
             ("totalAuthors", .int (distinctAuthors coll).length)]] := by
  rw [author_run]
  obtain ⟨d, hd, x, xs, hx⟩ := h
  have hne : coll.flatMap (elementsOf "commitAuthors") ≠ [] := by
    intro h0
    have hm : x ∈ coll.flatMap (elementsOf "commitAuthors") := by
      rw [List.mem_flatMap]
      exact ⟨d, hd, by simp [elementsOf, hx]⟩
    rw [h0] at hm
    simp at hm
  simp [hne]

theorem author_total_witness :
    distinctAuthors
        [ [("_id", .int 1), ("commitAuthors", .arr [.str "ann", .str "bob", .str "ann"])],
          [("_id", .int 2), ("commitAuthors", .arr [.str "bob"])],
          [("_id", .int 3), ("commitAuthors", .arr [])],
          [("_id", .int 4)] ] = [.str "ann", .str "bob"] ∧
    aggregate authorQuery
        [ [("_id", .int 1), ("commitAuthors", .arr [.str "ann", .str "bob", .str "ann"])],
          [("_id", .int 2), ("commitAuthors", .arr [.str "bob"])],
          [("_id", .int 3), ("commitAuthors", .arr [])],
          [("_id", .int 4)] ] =
      some [[("_id", .str "commitAuthors"),
             ("totalAuthors", .int (distinctAuthors
               [ [("_id", .int 1), ("commitAuthors", .arr [.str "ann", .str "bob", .str "ann"])],
                 [("_id", .int 2), ("commitAuthors", .arr [.str "bob"])],
                 [("_id", .int 3), ("commitAuthors", .arr [])],
                 [("_id", .int 4)] ]).length)]] :=
  ⟨by decide, author_total _ ⟨_, List.mem_cons_self _ _, .str "ann", [.str "bob", .str "ann"], by decide⟩⟩

theorem repositoryURLs_le_branches (coll : List Doc) :
    (repositoryURLs coll).length ≤ (repositoryBranches coll).length := by
  have h1 : (repositoryURLs coll).length =
      (((repositoryBranches coll).map Prod.fst).dedup).length := by
    rw [repositoryBranches, dedup_map_dedup_length, List.map_map, repositoryURLs]
    rfl
  rw [h1]
  calc (((repositoryBranches coll).map Prod.fst).dedup).length
      ≤ ((repositoryBranches coll).map Prod.fst).length :=
        (List.dedup_sublist _).length_le
    _ = (repositoryBranches coll).length := List.length_map _ _

theorem repositoryURLs_pos (coll : List Doc) (h : coll.filter hasRepository ≠ []) :
    1 ≤ (repositoryURLs coll).length := by
  obtain ⟨d, ds, hd⟩ := List.exists_cons_of_ne_nil h
  have hm : fieldOrNull "repositoryURL" d ∈ repositoryURLs coll := by
    rw [repositoryURLs, List.mem_dedup, hd]
    simp
  exact List.length_pos_of_mem hm

/-- C19. On every collection, each row of the `repository` pipeline has whole numbers for
`totalBranches` and `totalRepositories`, with
`totalBranches ≥ totalRepositories ≥ 1`. -/
theorem repository_totals_order (coll : List Doc) :
    ∃ rows, aggregate repositoryQuery coll = some rows ∧
      ∀ row ∈ rows, ∃ branches repositories : Int,
        row.lookup "totalBranches" = some (.int branches) ∧
        row.lookup "totalRepositories" = some (.int repositories) ∧
        repositories ≤ branches ∧ 1 ≤ repositories := by
  refine ⟨_, repository_run coll, ?_⟩
  intro row hrow
  by_cases h : coll.filter hasRepository = []
  · simp [h] at hrow
  · simp only [h, if_false, List.mem_singleton] at hrow
    subst hrow
    refine ⟨(repositoryBranches coll).length, (repositoryURLs coll).length, by simp [List.lookup],
      by simp [List.lookup], ?_, ?_⟩
    · exact_mod_cast repositoryURLs_le_branches coll
    · exact_mod_cast repositoryURLs_pos coll h

/-- The run of a pipeline of the shape `generateSimpleAggr` builds, with any last
projection that has a value on every row of the grouping stage. -/
theorem simpleAggr_run_with (f g : String) (p : List String) (proj : Doc)
    (out : Value → Value → Doc)
    (hf : isFieldName f = true) (hp : parsePath ("$" ++ g) = some p)
    (hproj : ∀ v c, projectDoc proj [("_id", v), ("count", c)] = some (out v c))
    (coll : List Doc) :
    aggregate
      [ [("$project", .doc [(f, .int 1)])],
        [("$unwind", .str ("$" ++ f))],
        [("$group", .doc [("_id", .str ("$" ++ g)), ("count", .doc [("$sum", .int 1)])])],
        [("$project", .doc proj)] ] coll =
      some ((((coll.map (fun d => d.filter (fun q => projKeeps [(f, .int 1)] q.1))).flatMap
        (unwindDoc f false)).map (fun d => (getPath p d).getD .null)).dedup.map (fun v =>
          out v (.int ((((coll.map (fun d => d.filter (fun q =>
            projKeeps [(f, .int 1)] q.1))).flatMap (unwindDoc f false)).map
              (fun d => (getPath p d).getD .null)).count v)))) := by
  simp only [aggregate, runStage]
  rw [projectDocs_eq _ _ coll (fun d _ => projectDoc_single f hf d)]
  have hu : unwindSpec (.str ("$" ++ f)) = some (f, false) := by
    simp [unwindSpec, parsePath_dollar f hf]
  simp only [hu]
  rw [group_count (.str ("$" ++ g)) (getPath p) _ (fun d _ => evalExpr_path g p hp d)]
  simp only []
  rw [projectDocs_eq _ (fun row => out ((row.lookup "_id").getD .null)
      ((row.lookup "count").getD .null)) _ ?_]
  · simp [List.map_map, Function.comp_def, List.lookup]
  · intro row hrow
    obtain ⟨v, _, rfl⟩ := List.mem_map.1 hrow
    rw [hproj]
    simp [List.lookup]

theorem project_count_only (v c : Value) :
    projectDoc [("count", .int 1), ("_id", .int 0)] [("_id", v), ("count", c)] =
      some [("count", c)] := by
  have h3 : isFieldName "count" = true := by decide
  have h4 : isFieldName "_id" = true := by decide
  simp [projectDoc, projCompute, projKeeps, h3, h4, List.lookup]

theorem project_count_only_swapped (v c : Value) :
    projectDoc [("_id", .int 0), ("count", .int 1)] [("_id", v), ("count", c)] =
      some [("count", c)] := by
  have h3 : isFieldName "count" = true := by decide
  have h4 : isFieldName "_id" = true := by decide
  simp [projectDoc, projCompute, projKeeps, h3, h4, List.lookup]

/-- C16. When the result name given to `generateSimpleAggr` is `count` or `_id`, its entry
in the last projection is overwritten by the fixed entry of the same key: the fourth stage
is the projection with the two entries `count: 1` and `_id: 0`, and every output row has
the one field `count`, so that the grouped value is reported under no name. For every
other result name the last projection has three entries. -/
theorem simpleAggr_name_collision (field groupID : String) :
    (generateSimpleAggr field "count" groupID).drop 3 =
      [[("$project", .doc [("count", .int 1), ("_id", .int 0)])]] ∧
    (generateSimpleAggr field "_id" groupID).drop 3 =
      [[("$project", .doc [("_id", .int 0), ("count", .int 1)])]] ∧
    (∀ finalName : String, finalName ≠ "count" → finalName ≠ "_id" →
      ∃ spec, (generateSimpleAggr field finalName groupID).drop 3 = [[("$project", .doc spec)]] ∧
        spec.length = 3) ∧
    (∀ (path : List String) (coll : List Doc), isFieldName field = true →
      parsePath ("$" ++ groupID) = some path →
      ∀ finalName : String, finalName = "count" ∨ finalName = "_id" →
        ∃ rows, aggregate (generateSimpleAggr field finalName groupID) coll = some rows ∧
          ∀ row ∈ rows, ∃ c : Int, row = [("count", .int c)]) ∧
    aggregate (generateSimpleAggr "result" "count" "result")
      [ [("_id", .int 1), ("result", .str "passed")],
        [("_id", .int 2), ("result", .str "passed")] ] = some [[("count", .int 2)]] := by
  have e1 : generateSimpleAggr field "count" groupID =
      [ [("$project", .doc [(field, .int 1)])],
        [("$unwind", .str ("$" ++ field))],
        [("$group", .doc [("_id", .str ("$" ++ groupID)),
                          ("count", .doc [("$sum", .int 1)])])],
        [("$project", .doc [("count", .int 1), ("_id", .int 0)])] ] := by
    simp [generateSimpleAggr, mapLit, bsonM, mapSet]
  have e2 : generateSimpleAggr field "_id" groupID =
      [ [("$project", .doc [(field, .int 1)])],
        [("$unwind", .str ("$" ++ field))],
        [("$group", .doc [("_id", .str ("$" ++ groupID)),
                          ("count", .doc [("$sum", .int 1)])])],
        [("$project", .doc [("_id", .int 0), ("count", .int 1)])] ] := by
    simp [generateSimpleAggr, mapLit, bsonM, mapSet]
  refine ⟨by rw [e1]; rfl, by rw [e2]; rfl, ?_, ?_, by decide⟩
  · intro finalName hc hi
    rw [simpleAggr_stage_list field finalName groupID hc hi]
    exact ⟨_, rfl, rfl⟩
  · intro path coll hf hp finalName hname
    rcases hname with rfl | rfl
    · rw [e1]
      refine ⟨_, simpleAggr_run_with field groupID path _ (fun _ c => [("count", c)]) hf hp
        project_count_only coll, ?_⟩
      intro row hrow
      obtain ⟨v, _, rfl⟩ := List.mem_map.1 hrow
      exact ⟨_, rfl⟩
    · rw [e2]
      refine ⟨_, simpleAggr_run_with field groupID path _ (fun _ c => [("count", c)]) hf hp
        project_count_only_swapped coll, ?_⟩
      intro row hrow
      obtain ⟨v, _, rfl⟩ := List.mem_map.1 hrow
      exact ⟨_, rfl⟩

/-- C14. `TimeToFixData` is a pass-through. Whatever the capability does, the rows, the error
and the state that `TimeToFixData query` returns are those of the capability called on
`query` and the analysis collection; it returns an error if and only if the capability did,
and the same one; and a capability that writes down its calls has written down exactly one
more call afterwards, with `query` unchanged and the analysis collection. -/
theorem TimeToFixData_passes_through {σ ρ ε κ : Type} (agg : Aggregation σ ρ ε κ)
    (analysis : κ) (query : List Doc) (s : σ) (calls : List (List Doc × κ)) :
    TimeToFixData agg analysis query s = agg query analysis s ∧
    ((TimeToFixData agg analysis query s).1.2.isSome = true ↔
      (agg query analysis s).1.2.isSome = true) ∧
    (TimeToFixData agg analysis query s).1.2 = (agg query analysis s).1.2 ∧
    TimeToFixData (recording agg) analysis query (s, calls) =
      ((agg query analysis s).1, ((agg query analysis s).2, calls ++ [(query, analysis)])) := by
  have h : TimeToFixData agg analysis query s = agg query analysis s := by
    unfold TimeToFixData
    rfl
  refine ⟨h, by rw [h], by rw [h], ?_⟩
  unfold TimeToFixData recording
  rfl

theorem timeToFixQuery_stages :
    timeToFixQuery =
      [ [("$project", .doc [
          ("repositoryBranch", .int 1), ("startedAt", .int 1), ("finishedAt", .int 1),
          ("result", .int 1), ("repositoryURL", .int 1),
          ("huskyciresults", .doc [("$cond", .doc [
            ("if", .doc [("$eq", .arr [.str "{}", .str "$huskyciresults"])]),
            ("then", .str "$REMOVE"),
            ("else", .str "$huskyciresults")])])])],
        [("$match", .doc [("result", .doc [("$in", .arr [.str "passed", .str "failed"])])])],
        [("$unwind", .doc [("path", .str "$startedAt"),
                           ("preserveNullAndEmptyArrays", .bool false)])],
        [("$unwind", .doc [("path", .str "$finishedAt"),
                           ("preserveNullAndEmptyArrays", .bool false)])],
        [("$unwind", .doc [("path", .str "$huskyciresults"),
                           ("preserveNullAndEmptyArrays", .bool false)])],
        [("$group", .doc [
          ("_id", .doc [("repositoryURL", .str "$repositoryURL"),
                        ("repositoryBranch", .str "$repositoryBranch"),
                        ("result", .str "$result")]),
          ("data", .doc [("$push", .doc [("startedAt", .str "$startedAt"),
                                         ("finishedAt", .str "$finishedAt"),
                                         ("hunkyciresults", .str "$huskyciresults")])]),
          ("count", .doc [("$sum", .int 1)])])],
        [("$group", .doc [
          ("_id", .doc [("repositoryURL", .str "$_id.repositoryURL"),
                        ("repositoryBranch", .str "$_id.repositoryBranch")]),
          ("analyses", .doc [("$push", .doc [("result", .str "$_id.result"),
                                             ("count", .str "$count"),
                                             ("data", .str "$data")])]),
          ("total", .doc [("$sum", .str "$count")])])],
        [("$match", .doc [("analyses", .doc [("$size", .int 2)])])],
        [("$project", .doc [
          ("_id", .int 0),
          ("repositoryURL", .str "$_id.repositoryURL"),
          ("repositoryBranch", .str "$_id.repositoryBranch"),
          ("analyses", .int 1),
          ("totalAnalyses", .int 1)])] ] := by
  simp [timeToFixQuery, mapLit, bsonM, mapSet, strings]

theorem evalExpr_string_path (s : String) (p : List String) (d : Doc)
    (hs : s.data.head? = some '$') (hp : parsePath s = some p) :
    evalExpr (.str s) d = some (getPath p d) := by
  rw [evalExpr]
  cases hd : s.data with
  | nil => rw [hd] at hs; simp at hs
  | cons c cs =>
    rw [hd] at hs
    simp only [List.head?_cons, Option.some.injEq] at hs
    subst hs
    simp [hp]

theorem evalExpr_cond (d : Doc) :
    evalExpr (.doc [("$cond", .doc [
        ("if", .doc [("$eq", .arr [.str "{}", .str "$huskyciresults"])]),
        ("then", .str "$REMOVE"),
        ("else", .str "$huskyciresults")])]) d = some (timeToFixResults d) := by
  have h1 : evalExpr (.str "$huskyciresults") d = some (d.lookup "huskyciresults") :=
    evalExpr_string_path _ ["huskyciresults"] d (by decide) (by decide)
  have h2 : evalExpr (.str "$REMOVE") d = some (d.lookup "REMOVE") :=
    evalExpr_string_path _ ["REMOVE"] d (by decide) (by decide)
  have h3 : evalExpr (.str "{}") d = some (some (.str "{}")) := rfl
  have hif : evalExpr (.doc [("$eq", .arr [.str "{}", .str "$huskyciresults"])]) d =
      some (some (.bool (decide (some (.str "{}") = d.lookup "huskyciresults")))) := by
    rw [evalExpr_doc_eq, evalDoc_cons]
    simp only [show ("$eq" : String) ≠ "$size" by decide,
      show ("$eq" : String) ≠ "$objectToArray" by decide, if_false, if_true]
    rw [evalList_arr, evalElems_cons, evalElems_cons, evalElems_nil, h1, h3]
  rw [evalExpr_doc_eq, evalDoc_cons]
  simp only [show ("$cond" : String) ≠ "$size" by decide,
    show ("$cond" : String) ≠ "$objectToArray" by decide,
    show ("$cond" : String) ≠ "$eq" by decide, if_false, if_true]
  rw [evalArgs_doc, evalArgFields_cons, evalArgFields_cons, evalArgFields_cons,
    evalArgFields_nil, hif, h1, h2]
  simp only [List.lookup, timeToFixResults]
  by_cases h : d.lookup "huskyciresults" = some (.str "{}")
  · simp [h, truthy]
  · have h' : ¬ (some (Value.str "{}") = d.lookup "huskyciresults") := fun e => h e.symm
    simp [h, h', truthy]

theorem mapSet_of_not_mem (d : Doc) (k : String) (v : Value) (h : ∀ p ∈ d, p.1 ≠ k) :
    mapSet d k v = d ++ [(k, v)] := by
  induction d with
  | nil => rfl
  | cons p d ih =>
    obtain ⟨k', v'⟩ := p
    have hk : k' ≠ k := h (k', v') (by simp)
    simp [mapSet, hk, ih (fun q hq => h q (by simp [hq]))]

theorem projKeeps_timeToFix (k : String) :
    projKeeps [("repositoryBranch", .int 1), ("startedAt", .int 1), ("finishedAt", .int 1),
        ("result", .int 1), ("repositoryURL", .int 1),
        ("huskyciresults", .doc [("$cond", .doc [
          ("if", .doc [("$eq", .arr [.str "{}", .str "$huskyciresults"])]),
          ("then", .str "$REMOVE"),
          ("else", .str "$huskyciresults")])])] k =
      decide (k = "_id" ∨ k = "repositoryBranch" ∨ k = "startedAt" ∨
        k = "finishedAt" ∨ k = "result" ∨ k = "repositoryURL") := by
  by_cases h1 : k = "repositoryBranch"
  · subst h1; decide
  by_cases h2 : k = "startedAt"
  · subst h2; decide
  by_cases h3 : k = "finishedAt"
  · subst h3; decide
  by_cases h4 : k = "result"
  · subst h4; decide
  by_cases h5 : k = "repositoryURL"
  · subst h5; decide
  by_cases h6 : k = "huskyciresults"
  · subst h6; decide
  have b1 := beq_false_of_ne h1
  have b2 := beq_false_of_ne h2
  have b3 := beq_false_of_ne h3
  have b4 := beq_false_of_ne h4
  have b5 := beq_false_of_ne h5
  have b6 := beq_false_of_ne h6
  simp only [projKeeps, List.lookup, b1, b2, b3, b4, b5, b6]
  by_cases h0 : k = "_id"
  · subst h0; decide
  · simp [h0, h1, h2, h3, h4, h5]

theorem projectDoc_timeToFix (d : Doc) :
    projectDoc [("repositoryBranch", .int 1), ("startedAt", .int 1), ("finishedAt", .int 1),
        ("result", .int 1), ("repositoryURL", .int 1),
        ("huskyciresults", .doc [("$cond", .doc [
          ("if", .doc [("$eq", .arr [.str "{}", .str "$huskyciresults"])]),
          ("then", .str "$REMOVE"),
          ("else", .str "$huskyciresults")])])] d = some (timeToFixProjected d) := by
  have f1 : isFieldName "repositoryBranch" = true := by decide
  have f2 : isFieldName "startedAt" = true := by decide
  have f3 : isFieldName "finishedAt" = true := by decide
  have f4 : isFieldName "result" = true := by decide
  have f5 : isFieldName "repositoryURL" = true := by decide
  have f6 : isFieldName "huskyciresults" = true := by decide
  unfold projectDoc
  simp only [projKeeps_timeToFix]
  unfold timeToFixProjected
  cases hres : timeToFixResults d with
  | none => simp [projCompute, f1, f2, f3, f4, f5, f6, evalExpr_cond, hres, optField]
  | some v =>
    simp only [projCompute, f1, f2, f3, f4, f5, f6, evalExpr_cond, hres, optField,
      Bool.not_true, Bool.false_eq_true, if_false, one_ne_zero, false_and]
    rw [mapSet_of_not_mem]
    intro p hp
    have := (List.mem_filter.1 hp).2
    simp only [decide_eq_true_eq] at this
    rcases this with h | h | h | h | h | h <;> rw [h] <;> decide

theorem lookup_filter_drop (keep : String → Bool) (k : String) (h : keep k = false) (d : Doc) :
    (d.filter (fun p => keep p.1)).lookup k = none := by
  induction d with
  | nil => rfl
  | cons p d ih =>
    obtain ⟨k', v⟩ := p
    by_cases hkeep : keep k' = true
    · have hk : k ≠ k' := by rintro rfl; rw [h] at hkeep; exact absurd hkeep (by simp)
      simp [List.filter_cons, hkeep, List.lookup, beq_false_of_ne hk, ih]
    · simp [List.filter_cons, hkeep, ih]

theorem lookup_append_some (a b : Doc) (k : String) (v : Value) (h : a.lookup k = some v) :
    (a ++ b).lookup k = some v := by
  induction a with
  | nil => simp [List.lookup] at h
  | cons p a ih =>
    obtain ⟨k', v'⟩ := p
    by_cases hk : k = k'
    · subst hk
      simp [List.lookup] at h ⊢
      exact h
    · simp only [List.lookup, beq_false_of_ne hk, List.cons_append] at h ⊢
      exact ih h

theorem lookup_append_none (a b : Doc) (k : String) (h : a.lookup k = none) :
    (a ++ b).lookup k = b.lookup k := by
  induction a with
  | nil => rfl
  | cons p a ih =>
    obtain ⟨k', v'⟩ := p
    by_cases hk : k = k'
    · subst hk
      simp [List.lookup] at h
    · simp only [List.lookup, beq_false_of_ne hk, List.cons_append] at h ⊢
      exact ih h

theorem lookup_optField_self (k : String) (o : Option Value) : (optField k o).lookup k = o := by
  cases o <;> simp [optField, List.lookup]

theorem lookup_optField_ne (k k' : String) (o : Option Value) (h : k' ≠ k) :
    (optField k o).lookup k' = none := by
  cases o <;> simp [optField, List.lookup, beq_false_of_ne h]

theorem lookup_append_either (a b : Doc) (k : String) :
    (a ++ b).lookup k = (a.lookup k).orElse (fun _ => b.lookup k) := by
  cases h : a.lookup k with
  | none => simp [lookup_append_none a b k h]
  | some v => simp [lookup_append_some a b k v h]

/-- The fields of a record that the first `time-to-fix` stage keeps as they are. -/
theorem lookup_timeToFixProjected (d : Doc) (k : String)
    (hk : k = "_id" ∨ k = "repositoryBranch" ∨ k = "startedAt" ∨ k = "finishedAt" ∨
      k = "result" ∨ k = "repositoryURL") :
    (timeToFixProjected d).lookup k = d.lookup k := by
  unfold timeToFixProjected
  have hkeep : (fun k : String => decide (k = "_id" ∨ k = "repositoryBranch" ∨ k = "startedAt" ∨
      k = "finishedAt" ∨ k = "result" ∨ k = "repositoryURL")) k = true := by
    simpa using hk
  have hne : k ≠ "huskyciresults" := by
    rcases hk with h | h | h | h | h | h <;> rw [h] <;> decide
  have h1 := lookup_filter_keys (fun k : String => decide (k = "_id" ∨ k = "repositoryBranch" ∨
    k = "startedAt" ∨ k = "finishedAt" ∨ k = "result" ∨ k = "repositoryURL")) k hkeep d
  simp only [] at h1
  rw [lookup_append_either, h1, lookup_optField_ne _ _ _ hne]
  cases d.lookup k <;> rfl

theorem lookup_timeToFixProjected_results (d : Doc) :
    (timeToFixProjected d).lookup "huskyciresults" = timeToFixResults d := by
  unfold timeToFixProjected
  have h1 := lookup_filter_drop (fun k : String => decide (k = "_id" ∨ k = "repositoryBranch" ∨
    k = "startedAt" ∨ k = "finishedAt" ∨ k = "result" ∨ k = "repositoryURL")) "huskyciresults"
    (by decide) d
  simp only [] at h1
  rw [lookup_append_none _ _ _ h1, lookup_optField_self]

theorem matchDoc_result_in (d : Doc) :
    matchDoc d [("result", .doc [("$in", .arr [.str "passed", .str "failed"])])] =
      some (passedOrFailed d) := by
  have hp : parseName "result".data = some ["result"] := by decide
  have hx : ∀ x : Option Value,
      decide (x.getD .null ∈ [Value.str "passed", Value.str "failed"]) =
        decide (x = some (.str "passed") ∨ x = some (.str "failed")) := by
    intro x
    cases x with
    | none => decide
    | some v => simp
  simp only [matchDoc, hp, getPath, matchOps, matchOp, passedOrFailed, hx, Bool.and_true]

theorem passedOrFailed_projected (d : Doc) :
    passedOrFailed (timeToFixProjected d) = passedOrFailed d := by
  unfold passedOrFailed
  rw [lookup_timeToFixProjected d "result" (by simp)]

/-- The first five stages of the `time-to-fix` pipeline act on each record by itself. -/
theorem timeToFix_first_stages (rest : List Doc) (coll : List Doc) :
    aggregate
      ([("$project", .doc [
          ("repositoryBranch", .int 1), ("startedAt", .int 1), ("finishedAt", .int 1),
          ("result", .int 1), ("repositoryURL", .int 1),
          ("huskyciresults", .doc [("$cond", .doc [
            ("if", .doc [("$eq", .arr [.str "{}", .str "$huskyciresults"])]),
            ("then", .str "$REMOVE"),
            ("else", .str "$huskyciresults")])])])] ::
        [("$match", .doc [("result", .doc [("$in", .arr [.str "passed", .str "failed"])])])] ::
        [("$unwind", .doc [("path", .str "$startedAt"),
                           ("preserveNullAndEmptyArrays", .bool false)])] ::
        [("$unwind", .doc [("path", .str "$finishedAt"),
                           ("preserveNullAndEmptyArrays", .bool false)])] ::
        [("$unwind", .doc [("path", .str "$huskyciresults"),
                           ("preserveNullAndEmptyArrays", .bool false)])] :: rest) coll =
      aggregate rest (coll.flatMap timeToFixUnwound) := by
  have hu1 : unwindSpec (.doc [("path", .str "$startedAt"),
      ("preserveNullAndEmptyArrays", .bool false)]) = some ("startedAt", false) := by decide
  have hu2 : unwindSpec (.doc [("path", .str "$finishedAt"),
      ("preserveNullAndEmptyArrays", .bool false)]) = some ("finishedAt", false) := by decide
  have hu3 : unwindSpec (.doc [("path", .str "$huskyciresults"),
      ("preserveNullAndEmptyArrays", .bool false)]) = some ("huskyciresults", false) := by
    decide
  simp only [aggregate, runStage, hu1, hu2, hu3]
  rw [projectDocs_eq _ _ coll (fun d _ => projectDoc_timeToFix d)]
  simp only []
  rw [matchDocs_eq_filter _ _ matchDoc_result_in]
  simp only []
  congr 1
  induction coll with
  | nil => rfl
  | cons d ds ih =>
    simp only [List.map_cons, List.filter_cons, passedOrFailed_projected, List.flatMap_cons]
    rw [← ih]
    unfold timeToFixUnwound
    cases passedOrFailed d <;> simp [List.flatMap_append]

theorem evalFields_path_cons (k s : String) (p : List String) (rest : List (String × Value))
    (d r : Doc) (hk : isOperator k = false) (hs : s.data.head? = some '$')
    (hp : parsePath s = some p) (hr : evalFields rest d = some r) :
    evalFields ((k, .str s) :: rest) d = some (optField k (getPath p d) ++ r) := by
  rw [evalFields_cons_eq, evalExpr_string_path s p d hs hp, hr]
  simp only [hk, Bool.false_eq_true, if_false]
  cases getPath p d <;> rfl

theorem evalExpr_groupKey (e : Doc) :
    evalExpr (.doc [("repositoryURL", .str "$repositoryURL"),
                    ("repositoryBranch", .str "$repositoryBranch"),
                    ("result", .str "$result")]) e = some (some (groupKey (groupOf e))) := by
  rw [evalExpr_doc _ _ (by decide),
    evalFields_path_cons _ _ ["repositoryURL"] _ _ _ (by decide) (by decide) (by decide)
      (evalFields_path_cons _ _ ["repositoryBranch"] _ _ _ (by decide) (by decide) (by decide)
        (evalFields_path_cons _ _ ["result"] _ _ _ (by decide) (by decide) (by decide)
          (evalFields_nil_eq e)))]
  simp [groupKey, groupOf, branchOf, getPath]

theorem evalExpr_datum (e : Doc) :
    evalExpr (.doc [("startedAt", .str "$startedAt"),
                    ("finishedAt", .str "$finishedAt"),
                    ("hunkyciresults", .str "$huskyciresults")]) e = some (some (datumOf e)) := by
  rw [evalExpr_doc _ _ (by decide),
    evalFields_path_cons _ _ ["startedAt"] _ _ _ (by decide) (by decide) (by decide)
      (evalFields_path_cons _ _ ["finishedAt"] _ _ _ (by decide) (by decide) (by decide)
        (evalFields_path_cons _ _ ["huskyciresults"] _ _ _ (by decide) (by decide) (by decide)
          (evalFields_nil_eq e)))]
  simp [datumOf, getPath]

theorem filterMap_id_map_some {α β : Type} (l : List α) (f : α → β) :
    (l.map (fun a => some (f a))).filterMap id = l.map f := by
  induction l with
  | nil => rfl
  | cons a l ih => simp [ih]

theorem evalAccumulator_push (e : Value) (f : Doc → Value) (m : List Doc)
    (h : ∀ d, evalExpr e d = some (some (f d))) :
    evalAccumulator (.doc [("$push", e)]) m = some (.arr (m.map f)) := by
  have he : evalAll e m = some (m.map (fun d => some (f d))) :=
    evalAll_eq e _ m (fun d _ => h d)
  simp only [evalAccumulator, he, Option.map_some', filterMap_id_map_some]

theorem evalAccumulators_data (idExpr : Value) (m : List Doc) :
    evalAccumulators m [("_id", idExpr),
        ("data", .doc [("$push", .doc [("startedAt", .str "$startedAt"),
                                       ("finishedAt", .str "$finishedAt"),
                                       ("hunkyciresults", .str "$huskyciresults")])]),
        ("count", .doc [("$sum", .int 1)])] =
      some [("data", .arr (m.map datumOf)), ("count", .int m.length)] := by
  have h1 : isFieldName "data" = true := by decide
  have h2 : isFieldName "count" = true := by decide
  have hp := evalAccumulator_push _ datumOf m evalExpr_datum
  simp [evalAccumulators, evalAccumulator_count, hp, h1, h2]

theorem optField_injective (k : String) : Function.Injective (optField k) := by
  intro a b h
  cases a <;> cases b <;> simp [optField] at h ⊢
  exact h

theorem groupKey_injective : Function.Injective groupKey := by
  intro s t h
  obtain ⟨⟨u, b⟩, r⟩ := s
  obtain ⟨⟨u', b'⟩, r'⟩ := t
  simp only [groupKey, Value.doc.injEq] at h
  cases u <;> cases b <;> cases r <;> cases u' <;> cases b' <;> cases r' <;>
    simp [optField] at h <;> simp_all

theorem pairKey_injective : Function.Injective pairKey := by
  intro s t h
  obtain ⟨u, b⟩ := s
  obtain ⟨u', b'⟩ := t
  simp only [pairKey, Value.doc.injEq] at h
  cases u <;> cases b <;> cases u' <;> cases b' <;>
    simp [optField] at h <;> simp_all

theorem timeToFix_group_one (S : List Doc) :
    groupDocs [("_id", .doc [("repositoryURL", .str "$repositoryURL"),
                             ("repositoryBranch", .str "$repositoryBranch"),
                             ("result", .str "$result")]),
        ("data", .doc [("$push", .doc [("startedAt", .str "$startedAt"),
                                       ("finishedAt", .str "$finishedAt"),
                                       ("hunkyciresults", .str "$huskyciresults")])]),
        ("count", .doc [("$sum", .int 1)])] S =
      some ((groupsOf S).map (fun t =>
        [("_id", groupKey t),
         ("data", .arr ((S.filter (fun e => groupOf e = t)).map datumOf)),
         ("count", .int (S.filter (fun e => groupOf e = t)).length)])) := by
  rw [groupDocs_eq _ _ (fun e => some (groupKey (groupOf e)))
    (fun m => [("data", .arr (m.map datumOf)), ("count", .int m.length)]) S
    (by simp [List.lookup]) (fun e _ => evalExpr_groupKey e) (evalAccumulators_data _)]
  simp only [Option.getD_some]
  have hk : (S.map (fun e => groupKey (groupOf e))).dedup = (groupsOf S).map groupKey := by
    rw [groupsOf, ← List.dedup_map_of_injective groupKey_injective, List.map_map]
    rfl
  rw [hk, List.map_map]
  congr 1
  apply List.map_congr_left
  intro t _
  have hf : S.filter (fun e => decide (groupKey (groupOf e) = groupKey t)) =
      S.filter (fun e => decide (groupOf e = t)) := by
    apply List.filter_congr
    intro e _
    simp [groupKey_injective.eq_iff]
  simp only [Function.comp, hf]

theorem lookup_groupKey_url (t : (Option Value × Option Value) × Option Value) :
    (optField "repositoryURL" t.1.1 ++ optField "repositoryBranch" t.1.2 ++
      optField "result" t.2).lookup "repositoryURL" = t.1.1 := by
  obtain ⟨⟨u, b⟩, r⟩ := t
  cases u <;> cases b <;> cases r <;> simp [optField, List.lookup]

theorem lookup_groupKey_branch (t : (Option Value × Option Value) × Option Value) :
    (optField "repositoryURL" t.1.1 ++ optField "repositoryBranch" t.1.2 ++
      optField "result" t.2).lookup "repositoryBranch" = t.1.2 := by
  obtain ⟨⟨u, b⟩, r⟩ := t
  cases u <;> cases b <;> cases r <;> simp [optField, List.lookup]

theorem lookup_groupKey_result (t : (Option Value × Option Value) × Option Value) :
    (optField "repositoryURL" t.1.1 ++ optField "repositoryBranch" t.1.2 ++
      optField "result" t.2).lookup "result" = t.2 := by
  obtain ⟨⟨u, b⟩, r⟩ := t
  cases u <;> cases b <;> cases r <;> simp [optField, List.lookup]

theorem lookup_pairKey_url (p : Option Value × Option Value) :
    (optField "repositoryURL" p.1 ++ optField "repositoryBranch" p.2).lookup "repositoryURL" =
      p.1 := by
  obtain ⟨u, b⟩ := p
  cases u <;> cases b <;> simp [optField, List.lookup]

theorem lookup_pairKey_branch (p : Option Value × Option Value) :
    (optField "repositoryURL" p.1 ++ optField "repositoryBranch" p.2).lookup
      "repositoryBranch" = p.2 := by
  obtain ⟨u, b⟩ := p
  cases u <;> cases b <;> simp [optField, List.lookup]

/-- The key of a row of the first group in the second group, for any row. -/
theorem evalExpr_pairKey (row : Doc) :
    evalExpr (.doc [("repositoryURL", .str "$_id.repositoryURL"),
                    ("repositoryBranch", .str "$_id.repositoryBranch")]) row =
      some (some (pairKey (getPath ["_id", "repositoryURL"] row,
        getPath ["_id", "repositoryBranch"] row))) := by
  rw [evalExpr_doc _ _ (by decide),
    evalFields_path_cons _ _ ["_id", "repositoryURL"] _ _ _ (by decide) (by decide) (by decide)
      (evalFields_path_cons _ _ ["_id", "repositoryBranch"] _ _ _ (by decide) (by decide)
        (by decide) (evalFields_nil_eq row))]
  simp [pairKey]

/-- The entry that the second group pushes for a row of the first group, for any row. -/
theorem evalExpr_analysis (row : Doc) :
    evalExpr (.doc [("result", .str "$_id.result"), ("count", .str "$count"),
                    ("data", .str "$data")]) row =
      some (some (.doc (optField "result" (getPath ["_id", "result"] row) ++
        optField "count" (row.lookup "count") ++ optField "data" (row.lookup "data")))) := by
  rw [evalExpr_doc _ _ (by decide),
    evalFields_path_cons _ _ ["_id", "result"] _ _ _ (by decide) (by decide) (by decide)
      (evalFields_path_cons _ _ ["count"] _ _ _ (by decide) (by decide) (by decide)
        (evalFields_path_cons _ _ ["data"] _ _ _ (by decide) (by decide) (by decide)
          (evalFields_nil_eq row)))]
  simp [getPath]

theorem evalAccumulators_analyses (idExpr : Value) (m : List Doc) :
    evalAccumulators m [("_id", idExpr),
        ("analyses", .doc [("$push", .doc [("result", .str "$_id.result"),
                                           ("count", .str "$count"),
                                           ("data", .str "$data")])]),
        ("total", .doc [("$sum", .str "$count")])] =
      some [("analyses", .arr (m.map (fun row =>
              .doc (optField "result" (getPath ["_id", "result"] row) ++
                optField "count" (row.lookup "count") ++ optField "data" (row.lookup "data"))))),
            ("total", .int ((m.map (fun r => numOf (r.lookup "count"))).sum))] := by
  have h1 : isFieldName "analyses" = true := by decide
  have h2 : isFieldName "total" = true := by decide
  have hp := evalAccumulator_push _ _ m evalExpr_analysis
  have he : evalAll (.str "$count") m = some (m.map (fun r => r.lookup "count")) :=
    evalAll_eq _ _ _ (fun d _ => evalExpr_field "count" (by decide) d)
  have hs : evalAccumulator (.doc [("$sum", .str "$count")]) m =
      some (.int ((m.map (fun r => numOf (r.lookup "count"))).sum)) := by
    simp only [evalAccumulator, he, Option.map_some', List.map_map]
    rfl
  simp [evalAccumulators, hp, hs, h1, h2]

theorem filter_map_comm {α β : Type} (l : List α) (f : α → β) (p : β → Bool) :
    (l.map f).filter p = (l.filter (fun a => p (f a))).map f := by
  induction l with
  | nil => rfl
  | cons a l ih =>
    by_cases h : p (f a) = true
    · simp [List.filter_cons, h, ih]
    · simp [List.filter_cons, h, ih]

theorem getPath_id (k : String) (fs rest : Doc) :
    getPath ["_id", k] (("_id", .doc fs) :: rest) = fs.lookup k := by
  simp [getPath, List.lookup]

theorem analysisOf_row (S : List Doc) (t : (Option Value × Option Value) × Option Value) :
    Value.doc (optField "result" (getPath ["_id", "result"]
        [("_id", groupKey t),
         ("data", .arr ((S.filter (fun e => groupOf e = t)).map datumOf)),
         ("count", .int (S.filter (fun e => groupOf e = t)).length)]) ++
      optField "count" (List.lookup "count"
        [("_id", groupKey t),
         ("data", .arr ((S.filter (fun e => groupOf e = t)).map datumOf)),
         ("count", .int (S.filter (fun e => groupOf e = t)).length)]) ++
      optField "data" (List.lookup "data"
        [("_id", groupKey t),
         ("data", .arr ((S.filter (fun e => groupOf e = t)).map datumOf)),
         ("count", .int (S.filter (fun e => groupOf e = t)).length)])) = analysisOf S t := by
  rw [groupKey, getPath_id, lookup_groupKey_result]
  simp [List.lookup, optField, analysisOf]

theorem timeToFix_group_two (S : List Doc) :
    groupDocs [("_id", .doc [("repositoryURL", .str "$_id.repositoryURL"),
                             ("repositoryBranch", .str "$_id.repositoryBranch")]),
        ("analyses", .doc [("$push", .doc [("result", .str "$_id.result"),
                                           ("count", .str "$count"),
                                           ("data", .str "$data")])]),
        ("total", .doc [("$sum", .str "$count")])]
      ((groupsOf S).map (fun t =>
        [("_id", groupKey t),
         ("data", .arr ((S.filter (fun e => groupOf e = t)).map datumOf)),
         ("count", .int (S.filter (fun e => groupOf e = t)).length)])) =
      some ((((groupsOf S).map Prod.fst).dedup).map (fun p =>
        [("_id", pairKey p),
         ("analyses", .arr (analysesOf S p)),
         ("total", .int ((((groupsOf S).filter (fun t => t.1 = p)).map (fun t =>
            ((S.filter (fun e => groupOf e = t)).length : Int))).sum))])) := by
  rw [groupDocs_eq _ _ (fun row => some (pairKey (getPath ["_id", "repositoryURL"] row,
      getPath ["_id", "repositoryBranch"] row))) _ _ (by simp [List.lookup])
    (fun row _ => evalExpr_pairKey row) (evalAccumulators_analyses _)]
  simp only [Option.getD_some, List.map_map]
  have hpath : ∀ t : (Option Value × Option Value) × Option Value,
      ∀ x y : Value,
      (getPath ["_id", "repositoryURL"] [("_id", groupKey t), ("data", x), ("count", y)],
        getPath ["_id", "repositoryBranch"] [("_id", groupKey t), ("data", x), ("count", y)]) =
        t.1 := by
    intro t x y
    rw [groupKey, getPath_id, getPath_id, lookup_groupKey_url, lookup_groupKey_branch]
  have hkeys : ((fun row : Doc => pairKey (getPath ["_id", "repositoryURL"] row,
      getPath ["_id", "repositoryBranch"] row)) ∘ fun t =>
        [("_id", groupKey t),
         ("data", .arr ((S.filter (fun e => groupOf e = t)).map datumOf)),
         ("count", .int (S.filter (fun e => groupOf e = t)).length)]) =
      fun t => pairKey t.1 := by
    funext t
    simp only [Function.comp, hpath]
  rw [hkeys]
  have hd : ((groupsOf S).map (fun t => pairKey t.1)).dedup =
      (((groupsOf S).map Prod.fst).dedup).map pairKey := by
    rw [← List.dedup_map_of_injective pairKey_injective, List.map_map]
    rfl
  rw [hd, List.map_map]
  congr 1
  apply List.map_congr_left
  intro p _
  simp only [Function.comp]
  rw [filter_map_comm]
  simp only [hpath, pairKey_injective.eq_iff, List.map_map]
  have ha : (((groupsOf S).filter (fun t => decide (t.1 = p))).map
      ((fun row : Doc => Value.doc (optField "result" (getPath ["_id", "result"] row) ++
          optField "count" (row.lookup "count") ++ optField "data" (row.lookup "data"))) ∘
        fun t => [("_id", groupKey t),
         ("data", .arr ((S.filter (fun e => groupOf e = t)).map datumOf)),
         ("count", .int (S.filter (fun e => groupOf e = t)).length)])) = analysesOf S p := by
    unfold analysesOf
    apply List.map_congr_left
    intro t _
    exact analysisOf_row S t
  have ht : (((groupsOf S).filter (fun t => decide (t.1 = p))).map
      ((fun r : Doc => numOf (r.lookup "count")) ∘
        fun t => [("_id", groupKey t),
         ("data", .arr ((S.filter (fun e => groupOf e = t)).map datumOf)),
         ("count", .int (S.filter (fun e => groupOf e = t)).length)])) =
      ((groupsOf S).filter (fun t => decide (t.1 = p))).map (fun t =>
        ((S.filter (fun e => groupOf e = t)).length : Int)) := by
    apply List.map_congr_left
    intro t _
    simp [List.lookup, numOf]
  rw [ha, ht]

theorem matchDoc_size_two (row : Doc) :
    matchDoc row [("analyses", .doc [("$size", .int 2)])] =
      some (match row.lookup "analyses" with
        | some (.arr xs) => decide ((xs.length : Int) = 2)
        | _ => false) := by
  have hp : parseName "analyses".data = some ["analyses"] := by decide
  simp only [matchDoc, hp, getPath, matchOps, matchOp]
  cases h : row.lookup "analyses" with
  | none => simp
  | some v => cases v <;> simp

theorem projectDoc_timeToFixRow (S : List Doc) (p : Option Value × Option Value) (total : Value) :
    projectDoc [("_id", .int 0),
        ("repositoryURL", .str "$_id.repositoryURL"),
        ("repositoryBranch", .str "$_id.repositoryBranch"),
        ("analyses", .int 1),
        ("totalAnalyses", .int 1)]
      [("_id", pairKey p), ("analyses", .arr (analysesOf S p)), ("total", total)] =
      some (timeToFixRow S p) := by
  have f0 : isFieldName "_id" = true := by decide
  have f1 : isFieldName "repositoryURL" = true := by decide
  have f2 : isFieldName "repositoryBranch" = true := by decide
  have f3 : isFieldName "analyses" = true := by decide
  have f4 : isFieldName "totalAnalyses" = true := by decide
  have e1 : evalExpr (.str "$_id.repositoryURL")
      [("_id", pairKey p), ("analyses", .arr (analysesOf S p)), ("total", total)] = some p.1 := by
    rw [evalExpr_string_path _ ["_id", "repositoryURL"] _ (by decide) (by decide), pairKey,
      getPath_id, lookup_pairKey_url]
  have e2 : evalExpr (.str "$_id.repositoryBranch")
      [("_id", pairKey p), ("analyses", .arr (analysesOf S p)), ("total", total)] = some p.2 := by
    rw [evalExpr_string_path _ ["_id", "repositoryBranch"] _ (by decide) (by decide), pairKey,
      getPath_id, lookup_pairKey_branch]
  obtain ⟨u, b⟩ := p
  cases u <;> cases b <;>
    simp [projectDoc, projCompute, projKeeps, f0, f1, f2, f3, f4, e1, e2, List.lookup, mapSet,
      timeToFixRow, optField] at e1 e2 ⊢

theorem getPath_pairKey (p : Option Value × Option Value) (x y : Value) :
    (getPath ["_id", "repositoryURL"] [("_id", pairKey p), ("analyses", x), ("total", y)],
      getPath ["_id", "repositoryBranch"] [("_id", pairKey p), ("analyses", x), ("total", y)]) =
      p := by
  rw [pairKey, getPath_id, getPath_id, lookup_pairKey_url, lookup_pairKey_branch]

theorem size_two_row (p : Option Value × Option Value) (xs : List Value) (y : Value) :
    (match List.lookup "analyses" [("_id", pairKey p), ("analyses", .arr xs), ("total", y)] with
      | some (.arr xs) => decide ((xs.length : Int) = 2)
      | _ => false) = decide (xs.length = 2) := by
  have h : List.lookup "analyses" [("_id", pairKey p), ("analyses", .arr xs), ("total", y)] =
      some (.arr xs) := by simp [List.lookup]
  rw [h]
  simp only []
  congr 1
  apply propext
  constructor
  · intro h2; exact_mod_cast h2
  · intro h2; exact_mod_cast h2

/-- The run of the `time-to-fix` pipeline: the rows are those of the repository branches
that have two entries of `analyses`, computed from the unwound documents. -/
theorem timeToFix_run (coll : List Doc) :
    aggregate timeToFixQuery coll = some (timeToFixRows (coll.flatMap timeToFixUnwound)) := by
  rw [timeToFixQuery_stages, timeToFix_first_stages]
  simp only [aggregate, runStage]
  rw [timeToFix_group_one]
  simp only []
  rw [timeToFix_group_two]
  simp only []
  rw [matchDocs_eq_filter _ _ matchDoc_size_two, filter_map_comm]
  simp only [size_two_row]
  rw [projectDocs_eq _ (fun row => timeToFixRow (coll.flatMap timeToFixUnwound)
    (getPath ["_id", "repositoryURL"] row, getPath ["_id", "repositoryBranch"] row)) _ ?_]
  · simp only [List.map_map, timeToFixRows]
    congr 2
    funext p
    simp only [Function.comp, getPath_pairKey]
  · intro row hrow
    obtain ⟨p, _, rfl⟩ := List.mem_map.1 hrow
    simp only [getPath_pairKey]
    exact projectDoc_timeToFixRow _ p _

theorem lookup_mapSet_ne (d : Doc) (k k' : String) (v : Value) (h : k' ≠ k) :
    (mapSet d k v).lookup k' = d.lookup k' := by
  induction d with
  | nil => simp [mapSet, List.lookup, beq_false_of_ne h]
  | cons p d ih =>
    obtain ⟨k₁, v₁⟩ := p
    by_cases h1 : k₁ = k
    · subst h1
      simp [mapSet, List.lookup, beq_false_of_ne h]
    · by_cases h2 : k' = k₁
      · subst h2
        simp [mapSet, h1, List.lookup]
      · simp [mapSet, h1, List.lookup, beq_false_of_ne h2, ih]

theorem mem_unwindDoc (k : String) (d e : Doc) (h : e ∈ unwindDoc k false d) :
    ∃ v ∈ elementsOf k d, e = mapSet d k v := by
  rw [unwindDoc_eq] at h
  obtain ⟨v, hv, rfl⟩ := List.mem_map.1 h
  exact ⟨v, hv, rfl⟩

/-- A field other than the three unwound ones is in an unwound document what it is in the
record after the first stage. -/
theorem lookup_unwound (d e : Doc) (k : String) (h : e ∈ timeToFixUnwound d)
    (h1 : k ≠ "startedAt") (h2 : k ≠ "finishedAt") (h3 : k ≠ "huskyciresults") :
    passedOrFailed d = true ∧ e.lookup k = (timeToFixProjected d).lookup k := by
  unfold timeToFixUnwound at h
  simp only [List.mem_flatMap] at h
  obtain ⟨e₂, ⟨e₁, ⟨e₀, h0, hs⟩, hf⟩, hr⟩ := h
  by_cases hp : passedOrFailed d = true
  · simp only [hp, if_true, List.mem_singleton] at h0
    subst h0
    obtain ⟨v₁, _, rfl⟩ := mem_unwindDoc _ _ _ hs
    obtain ⟨v₂, _, rfl⟩ := mem_unwindDoc _ _ _ hf
    obtain ⟨v₃, _, rfl⟩ := mem_unwindDoc _ _ _ hr
    refine ⟨hp, ?_⟩
    rw [lookup_mapSet_ne _ _ _ _ h3, lookup_mapSet_ne _ _ _ _ h2, lookup_mapSet_ne _ _ _ _ h1]
  · simp [hp] at h0

theorem result_of_unwound (coll : List Doc) (e : Doc) (h : e ∈ coll.flatMap timeToFixUnwound) :
    e.lookup "result" = some (.str "passed") ∨ e.lookup "result" = some (.str "failed") := by
  obtain ⟨d, _, hd⟩ := List.mem_flatMap.1 h
  obtain ⟨hp, hl⟩ := lookup_unwound d e "result" hd (by decide) (by decide) (by decide)
  rw [hl, lookup_timeToFixProjected d "result" (by simp)]
  simpa [passedOrFailed] using hp

theorem length_two_iff {α : Type} [DecidableEq α] (l : List α) (a b : α) (hab : a ≠ b)
    (hnd : l.Nodup) (hmem : ∀ x ∈ l, x = a ∨ x = b) :
    l.length = 2 ↔ a ∈ l ∧ b ∈ l := by
  constructor
  · intro h
    match l, h with
    | [x, y], _ =>
      have hxy : x ≠ y := by
        intro e
        subst e
        simp at hnd
      rcases hmem x (by simp) with hx | hx <;> rcases hmem y (by simp) with hy | hy
      · exact absurd (hx.trans hy.symm) hxy
      · simp [hx, hy]
      · simp [hx, hy]
      · exact absurd (hx.trans hy.symm) hxy
  · rintro ⟨ha, hb⟩
    apply le_antisymm
    · have hsub : l ⊆ [a, b] := by
        intro x hx
        rcases hmem x hx with h | h <;> simp [h]
      exact (List.subperm_of_subset hnd hsub).length_le
    · have hnd2 : [a, b].Nodup := by simp [hab]
      have hsub : [a, b] ⊆ l := by
        intro x hx
        simp only [List.mem_cons, List.mem_singleton, List.not_mem_nil, or_false] at hx
        rcases hx with h | h <;> simp [h, ha, hb]
      exact (List.subperm_of_subset hnd2 hsub).length_le

theorem mem_groupsOf (S : List Doc) (t : (Option Value × Option Value) × Option Value) :
    t ∈ groupsOf S ↔ ∃ e ∈ S, groupOf e = t := by
  simp [groupsOf, List.mem_dedup]

theorem analysisOf_fields (S : List Doc) (t : (Option Value × Option Value) × Option Value) :
    ∃ fields, analysisOf S t = .doc fields ∧ fields.lookup "result" = t.2 ∧
      fields.lookup "count" = some (.int (S.filter (fun e => groupOf e = t)).length) ∧
      fields.lookup "data" = some (.arr ((S.filter (fun e => groupOf e = t)).map datumOf)) ∧
      ∀ k ∈ fields.map Prod.fst, k = "result" ∨ k = "count" ∨ k = "data" := by
  refine ⟨_, rfl, ?_, ?_, ?_, ?_⟩ <;> cases t.2 <;> simp [optField, List.lookup]

/-- The groups of a repository branch differ in their result, which is `passed` or
`failed`: there are two of them exactly when both results occur. -/
theorem groups_of_branch (coll : List Doc) (p : Option Value × Option Value) :
    ((analysesOf (coll.flatMap timeToFixUnwound) p).length = 2 ↔
      (p, some (Value.str "passed")) ∈ groupsOf (coll.flatMap timeToFixUnwound) ∧
      (p, some (Value.str "failed")) ∈ groupsOf (coll.flatMap timeToFixUnwound)) ∧
    ((analysesOf (coll.flatMap timeToFixUnwound) p).length = 2 →
      analysesOf (coll.flatMap timeToFixUnwound) p =
          [analysisOf (coll.flatMap timeToFixUnwound) (p, some (.str "passed")),
           analysisOf (coll.flatMap timeToFixUnwound) (p, some (.str "failed"))] ∨
      analysesOf (coll.flatMap timeToFixUnwound) p =
          [analysisOf (coll.flatMap timeToFixUnwound) (p, some (.str "failed")),
           analysisOf (coll.flatMap timeToFixUnwound) (p, some (.str "passed"))]) := by
  set S := coll.flatMap timeToFixUnwound with hS
  set L := (groupsOf S).filter (fun t => decide (t.1 = p)) with hL
  have hlen : (analysesOf S p).length = (L.map Prod.snd).length := by
    simp [analysesOf, hL]
  have hLnd : L.Nodup := (List.nodup_dedup _).filter _
  have hfst : ∀ t ∈ L, t.1 = p := by
    intro t ht
    simpa using (List.mem_filter.1 ht).2
  have hnd : (L.map Prod.snd).Nodup := by
    apply List.Nodup.map_on _ hLnd
    intro s hs t ht hst
    exact Prod.ext ((hfst s hs).trans (hfst t ht).symm) hst
  have hres : ∀ r ∈ L.map Prod.snd,
      r = some (Value.str "passed") ∨ r = some (Value.str "failed") := by
    intro r hr
    obtain ⟨t, ht, rfl⟩ := List.mem_map.1 hr
    obtain ⟨e, he, rfl⟩ := (mem_groupsOf S t).1 (List.mem_filter.1 ht).1
    exact result_of_unwound coll e he
  have hmem : ∀ r : Option Value, r ∈ L.map Prod.snd ↔ (p, r) ∈ groupsOf S := by
    intro r
    constructor
    · intro hr
      obtain ⟨t, ht, rfl⟩ := List.mem_map.1 hr
      have := hfst t ht
      obtain ⟨t1, t2⟩ := t
      simp only at this
      subst this
      exact (List.mem_filter.1 ht).1
    · intro hr
      exact List.mem_map.2 ⟨(p, r), List.mem_filter.2 ⟨hr, by simp⟩, rfl⟩
  have hne : (some (Value.str "passed") : Option Value) ≠ some (Value.str "failed") := by decide
  have hiff := length_two_iff (L.map Prod.snd) _ _ hne hnd hres
  refine ⟨by rw [hlen, hiff, hmem, hmem], ?_⟩
  intro h2
  rw [hlen] at h2
  have h2' : L.length = 2 := by simpa using h2
  have hLeq : ∀ t ∈ L, t = (p, t.2) := fun t ht => Prod.ext (hfst t ht) rfl
  match L, h2', hLeq, hnd, hres, hL with
  | [s, t], _, hLeq, hnd, hres, hL =>
    have hst : s.2 ≠ t.2 := by
      intro e
      simp [e] at hnd
    have hs := hLeq s (by simp)
    have ht := hLeq t (by simp)
    have ha : analysesOf S p = [analysisOf S s, analysisOf S t] := by
      simp [analysesOf, ← hL]
    rw [ha, hs, ht]
    rcases hres s.2 (by simp) with h1 | h1 <;> rcases hres t.2 (by simp) with h3 | h3
    · exact absurd (h1.trans h3.symm) hst
    · left; simp [h1, h3]
    · right; simp [h1, h3]
    · exact absurd (h1.trans h3.symm) hst

theorem mem_timeToFixRows (S : List Doc) (row : Doc) :
    row ∈ timeToFixRows S ↔
      ∃ p, (∃ t ∈ groupsOf S, t.1 = p) ∧ (analysesOf S p).length = 2 ∧
        row = timeToFixRow S p := by
  simp only [timeToFixRows, List.mem_map, List.mem_filter, List.mem_dedup, decide_eq_true_eq]
  constructor
  · rintro ⟨p, ⟨⟨t, ht, rfl⟩, h2⟩, rfl⟩
    exact ⟨t.1, ⟨t, ht, rfl⟩, h2, rfl⟩
  · rintro ⟨p, ⟨t, ht, rfl⟩, h2, rfl⟩
    exact ⟨t.1, ⟨⟨t, ht, rfl⟩, h2⟩, rfl⟩

theorem timeToFixRow_fields (S : List Doc) (p : Option Value × Option Value) :
    (timeToFixRow S p).lookup "analyses" = some (.arr (analysesOf S p)) ∧
    branchOf (timeToFixRow S p) = p ∧
    (timeToFixRow S p).lookup "totalAnalyses" = none ∧
    (timeToFixRow S p).lookup "total" = none ∧
    (∀ k ∈ (timeToFixRow S p).map Prod.fst,
      k = "repositoryURL" ∨ k = "repositoryBranch" ∨ k = "analyses") ∧
    (p.1.isSome = true → p.2.isSome = true →
      (timeToFixRow S p).map Prod.fst = ["analyses", "repositoryURL", "repositoryBranch"]) := by
  obtain ⟨u, b⟩ := p
  cases u <;> cases b <;> simp [timeToFixRow, optField, List.lookup, branchOf]

/-- C12. Every row of the `time-to-fix` pipeline has an `analyses` array of exactly two
entries, one with the result `passed` and one with the result `failed`; and a repository
branch (its `repositoryURL` and `repositoryBranch`) has a row if and only if, among the
documents that its records become in the first five stages, one is `passed` and one is
`failed`. A branch with `passed` records only has no row. -/
theorem timeToFix_two_outcomes (coll : List Doc) :
    ∃ rows, aggregate timeToFixQuery coll = some rows ∧
      (∀ row ∈ rows, ∃ a b : Doc,
        (row.lookup "analyses" = some (.arr [.doc a, .doc b]) ∨
          row.lookup "analyses" = some (.arr [.doc b, .doc a])) ∧
        a.lookup "result" = some (.str "passed") ∧
        b.lookup "result" = some (.str "failed")) ∧
      (∀ p : Option Value × Option Value,
        (∃ row ∈ rows, branchOf row = p) ↔
          (∃ e ∈ coll.flatMap timeToFixUnwound,
            branchOf e = p ∧ e.lookup "result" = some (.str "passed")) ∧
          (∃ e ∈ coll.flatMap timeToFixUnwound,
            branchOf e = p ∧ e.lookup "result" = some (.str "failed"))) ∧
      aggregate timeToFixQuery
        [ [("_id", .int 1), ("repositoryURL", .str "a"), ("repositoryBranch", .str "main"),
           ("result", .str "passed"), ("startedAt", .date 1), ("finishedAt", .date 2),
           ("huskyciresults", .doc [])],
          [("_id", .int 2), ("repositoryURL", .str "a"), ("repositoryBranch", .str "main"),
           ("result", .str "passed"), ("startedAt", .date 3), ("finishedAt", .date 4),
           ("huskyciresults", .doc [])] ] = some [] := by
  refine ⟨_, timeToFix_run coll, ?_, ?_, ?_⟩
  · intro row hrow
    obtain ⟨p, _, h2, rfl⟩ := (mem_timeToFixRows _ row).1 hrow
    obtain ⟨fp, hfp, hrp, _⟩ := analysisOf_fields (coll.flatMap timeToFixUnwound)
      (p, some (.str "passed"))
    obtain ⟨ff, hff, hrf, _⟩ := analysisOf_fields (coll.flatMap timeToFixUnwound)
      (p, some (.str "failed"))
    refine ⟨fp, ff, ?_, hrp, hrf⟩
    rw [(timeToFixRow_fields _ p).1]
    rcases (groups_of_branch coll p).2 h2 with h | h
    · left; rw [h, hfp, hff]
    · right; rw [h, hfp, hff]
  · intro p
    have hgroup : ∀ r : Option Value,
        (p, r) ∈ groupsOf (coll.flatMap timeToFixUnwound) ↔
          ∃ e ∈ coll.flatMap timeToFixUnwound, branchOf e = p ∧ e.lookup "result" = r := by
      intro r
      rw [mem_groupsOf]
      constructor
      · rintro ⟨e, he, h⟩
        exact ⟨e, he, congrArg Prod.fst h, congrArg Prod.snd h⟩
      · rintro ⟨e, he, h1, h2⟩
        exact ⟨e, he, Prod.ext h1 h2⟩
    rw [← hgroup, ← hgroup, ← (groups_of_branch coll p).1]
    constructor
    · rintro ⟨row, hrow, hb⟩
      obtain ⟨q, _, h2, rfl⟩ := (mem_timeToFixRows _ row).1 hrow
      rw [(timeToFixRow_fields _ q).2.1] at hb
      rw [← hb]
      exact h2
    · intro h2
      refine ⟨timeToFixRow (coll.flatMap timeToFixUnwound) p, ?_, (timeToFixRow_fields _ p).2.1⟩
      rw [mem_timeToFixRows]
      refine ⟨p, ?_, h2, rfl⟩
      have := ((groups_of_branch coll p).1.1 h2).1
      exact ⟨_, this, rfl⟩
  · decide

theorem mem_analysesOf (S : List Doc) (p : Option Value × Option Value) (a : Value)
    (h : a ∈ analysesOf S p) : ∃ t ∈ groupsOf S, a = analysisOf S t := by
  obtain ⟨t, ht, rfl⟩ := List.mem_map.1 h
  exact ⟨t, (List.mem_filter.1 ht).1, rfl⟩

/-- C18. In every row of the `time-to-fix` pipeline, every entry of `analyses` has a `count`
equal to the length of its own `data` array, and at least 1. -/
theorem timeToFix_count_is_data_length (coll : List Doc) :
    ∃ rows, aggregate timeToFixQuery coll = some rows ∧
      ∀ row ∈ rows, ∃ entries, row.lookup "analyses" = some (.arr entries) ∧
        ∀ a ∈ entries, ∃ (fields : Doc) (count : Int) (data : List Value),
          a = .doc fields ∧ fields.lookup "count" = some (.int count) ∧
          fields.lookup "data" = some (.arr data) ∧
          count = data.length ∧ 1 ≤ count := by
  refine ⟨_, timeToFix_run coll, ?_⟩
  intro row hrow
  obtain ⟨p, _, _, rfl⟩ := (mem_timeToFixRows _ row).1 hrow
  refine ⟨_, (timeToFixRow_fields _ p).1, ?_⟩
  intro a ha
  obtain ⟨t, ht, rfl⟩ := mem_analysesOf _ p a ha
  obtain ⟨fields, hf, _, hc, hd, _⟩ := analysisOf_fields (coll.flatMap timeToFixUnwound) t
  refine ⟨fields, _, _, hf, hc, hd, by simp, ?_⟩
  obtain ⟨e, he, hg⟩ := (mem_groupsOf _ t).1 ht
  have hm : e ∈ (coll.flatMap timeToFixUnwound).filter (fun e => decide (groupOf e = t)) :=
    List.mem_filter.2 ⟨he, by simpa using hg⟩
  have := List.length_pos_of_mem hm
  exact_mod_cast this

theorem datumOf_fields (e : Doc) :
    ∃ fields, datumOf e = .doc fields ∧
      (∀ k ∈ fields.map Prod.fst, k = "startedAt" ∨ k = "finishedAt" ∨ k = "hunkyciresults") ∧
      fields.lookup "huskyciresults" = none ∧
      fields.lookup "hunkyciresults" = e.lookup "huskyciresults" := by
  refine ⟨_, rfl, ?_, ?_, ?_⟩ <;>
    cases e.lookup "startedAt" <;> cases e.lookup "finishedAt" <;>
      cases e.lookup "huskyciresults" <;> simp [optField, List.lookup]

/-- C17. The first `$group` of the `time-to-fix` pipeline pushes the results under the key
`hunkyciresults`, read from the field `huskyciresults`. In every row, every element of the
`data` array of every entry of `analyses` has its keys among `startedAt`, `finishedAt` and
`hunkyciresults`, and no key `huskyciresults`. -/
theorem timeToFix_data_keys (coll : List Doc) :
    timeToFixQuery[5]? = some [("$group", .doc [
      ("_id", .doc [("repositoryURL", .str "$repositoryURL"),
                    ("repositoryBranch", .str "$repositoryBranch"),
                    ("result", .str "$result")]),
      ("data", .doc [("$push", .doc [("startedAt", .str "$startedAt"),
                                     ("finishedAt", .str "$finishedAt"),
                                     ("hunkyciresults", .str "$huskyciresults")])]),
      ("count", .doc [("$sum", .int 1)])])] ∧
    ∃ rows, aggregate timeToFixQuery coll = some rows ∧
      ∀ row ∈ rows, ∃ entries, row.lookup "analyses" = some (.arr entries) ∧
        ∀ a ∈ entries, ∃ (fields : Doc) (data : List Value),
          a = .doc fields ∧ fields.lookup "data" = some (.arr data) ∧
          ∀ x ∈ data, ∃ xfields : Doc, x = .doc xfields ∧
            (∀ k ∈ xfields.map Prod.fst,
              k = "startedAt" ∨ k = "finishedAt" ∨ k = "hunkyciresults") ∧
            xfields.lookup "huskyciresults" = none := by
  refine ⟨by rw [timeToFixQuery_stages]; rfl, _, timeToFix_run coll, ?_⟩
  intro row hrow
  obtain ⟨p, _, _, rfl⟩ := (mem_timeToFixRows _ row).1 hrow
  refine ⟨_, (timeToFixRow_fields _ p).1, ?_⟩
  intro a ha
  obtain ⟨t, _, rfl⟩ := mem_analysesOf _ p a ha
  obtain ⟨fields, hf, _, _, hd, _⟩ := analysisOf_fields (coll.flatMap timeToFixUnwound) t
  refine ⟨fields, _, hf, hd, ?_⟩
  intro x hx
  obtain ⟨e, _, rfl⟩ := List.mem_map.1 hx
  obtain ⟨xf, hxf, hk, hn, _⟩ := datumOf_fields e
  exact ⟨xf, hxf, hk, hn⟩

theorem branchOf_unwound (coll : List Doc) (e : Doc) (h : e ∈ coll.flatMap timeToFixUnwound) :
    ∃ d ∈ coll, branchOf e = branchOf d := by
  obtain ⟨d, hd, he⟩ := List.mem_flatMap.1 h
  refine ⟨d, hd, ?_⟩
  have h1 := (lookup_unwound d e "repositoryURL" he (by decide) (by decide) (by decide)).2
  have h2 := (lookup_unwound d e "repositoryBranch" he (by decide) (by decide) (by decide)).2
  rw [lookup_timeToFixProjected d _ (by simp)] at h1 h2
  simp [branchOf, h1, h2]

/-- C13, as stated, fails in its last part: a row does not always carry `repositoryURL`,
`repositoryBranch` and `analyses`. Two records of the branch `main`, one failed and one
passed, that have no `repositoryURL` give a row of the fields `analyses` and
`repositoryBranch` alone. -/
theorem timeToFix_row_without_repositoryURL :
    ∃ row, aggregate timeToFixQuery
      [ [("_id", .int 1), ("repositoryBranch", .str "main"),
         ("result", .str "failed"), ("startedAt", .date 1), ("finishedAt", .date 2),
         ("huskyciresults", .doc [("gosec", .str "x")])],
        [("_id", .int 2), ("repositoryBranch", .str "main"),
         ("result", .str "passed"), ("startedAt", .date 3), ("finishedAt", .date 4),
         ("huskyciresults", .doc [])] ] = some [row] ∧
      row.map Prod.fst = ["analyses", "repositoryBranch"] ∧
      row.lookup "repositoryURL" = none ∧
      ¬ (row.map Prod.fst).Perm ["repositoryURL", "repositoryBranch", "analyses"] := by
  refine ⟨[("analyses", .arr [
               .doc [("result", .str "failed"), ("count", .int 1),
                     ("data", .arr [.doc [("startedAt", .date 1), ("finishedAt", .date 2),
                                          ("hunkyciresults", .doc [("gosec", .str "x")])]])],
               .doc [("result", .str "passed"), ("count", .int 1),
                     ("data", .arr [.doc [("startedAt", .date 3), ("finishedAt", .date 4),
                                          ("hunkyciresults", .doc [])]])]]),
             ("repositoryBranch", .str "main")], by decide, by decide, by decide, ?_⟩
  intro h
  have := h.length_eq
  simp at this

/-- C13, amended. The last projection of the `time-to-fix` pipeline lists `totalAnalyses`,
a field that no stage before it computes: the second `$group` produces `analyses` and
`total` beside `_id`, and `total` is not listed in the last projection. So on every
collection no output row has a field `totalAnalyses` or `total`. A row has `analyses`, and
it has `repositoryURL` and `repositoryBranch` as a record of its repository branch has
them: its fields are `analyses`, then `repositoryURL` when that record has one, then
`repositoryBranch` when that record has one, with the values of the record. On two records
that have both, the row has exactly the three fields. -/
theorem timeToFix_no_totalAnalyses (coll : List Doc) :
    (∃ group project : Doc,
      timeToFixQuery[6]? = some [("$group", .doc group)] ∧
      timeToFixQuery[8]? = some [("$project", .doc project)] ∧
      group.map Prod.fst = ["_id", "analyses", "total"] ∧
      project.lookup "totalAnalyses" = some (.int 1) ∧
      project.lookup "total" = none) ∧
    (∀ stage ∈ timeToFixQuery.take 8, ∀ (op : String) (spec : Doc),
      stage = [(op, .doc spec)] → spec.lookup "totalAnalyses" = none) ∧
    (∃ rows, aggregate timeToFixQuery coll = some rows ∧
      ∀ row ∈ rows,
        row.lookup "totalAnalyses" = none ∧ row.lookup "total" = none ∧
        (row.lookup "analyses").isSome = true ∧
        (∀ k ∈ row.map Prod.fst,
          k = "repositoryURL" ∨ k = "repositoryBranch" ∨ k = "analyses") ∧
        ∃ d ∈ coll,
          row.lookup "repositoryURL" = d.lookup "repositoryURL" ∧
          row.lookup "repositoryBranch" = d.lookup "repositoryBranch" ∧
          row.map Prod.fst = "analyses" ::
            ((optField "repositoryURL" (d.lookup "repositoryURL")).map Prod.fst ++
             (optField "repositoryBranch" (d.lookup "repositoryBranch")).map Prod.fst)) ∧
    aggregate timeToFixQuery
      [ [("_id", .int 1), ("repositoryURL", .str "a"), ("repositoryBranch", .str "main"),
         ("result", .str "failed"), ("startedAt", .date 1), ("finishedAt", .date 2),
         ("huskyciresults", .doc [("gosec", .str "x")])],
        [("_id", .int 2), ("repositoryURL", .str "a"), ("repositoryBranch", .str "main"),
         ("result", .str "passed"), ("startedAt", .date 3), ("finishedAt", .date 4),
         ("huskyciresults", .doc [])] ] =
      some [[("analyses", .arr [
               .doc [("result", .str "failed"), ("count", .int 1),
                     ("data", .arr [.doc [("startedAt", .date 1), ("finishedAt", .date 2),
                                          ("hunkyciresults", .doc [("gosec", .str "x")])]])],
               .doc [("result", .str "passed"), ("count", .int 1),
                     ("data", .arr [.doc [("startedAt", .date 3), ("finishedAt", .date 4),
                                          ("hunkyciresults", .doc [])]])]]),
             ("repositoryURL", .str "a"),
             ("repositoryBranch", .str "main")]] := by
  refine ⟨?_, ?_, ⟨_, timeToFix_run coll, ?_⟩, by decide⟩
  · rw [timeToFixQuery_stages]
    exact ⟨_, _, rfl, rfl, rfl, by decide, by decide⟩
  · rw [timeToFixQuery_stages]
    intro stage hstage op spec hs
    simp only [List.take, List.mem_cons, List.mem_singleton, List.not_mem_nil, or_false] at hstage
    rcases hstage with h | h | h | h | h | h | h | h <;> rw [h] at hs <;>
      simp only [List.cons.injEq, Prod.mk.injEq, Value.doc.injEq, and_true] at hs <;>
      obtain ⟨_, rfl⟩ := hs <;> decide
  · intro row hrow
    obtain ⟨p, ⟨t, ht, rfl⟩, _, rfl⟩ := (mem_timeToFixRows _ row).1 hrow
    obtain ⟨ha, hbr, h1, h2, h3, _⟩ := timeToFixRow_fields (coll.flatMap timeToFixUnwound) t.1
    refine ⟨h1, h2, by rw [ha]; rfl, h3, ?_⟩
    obtain ⟨e, he, hg⟩ := (mem_groupsOf _ t).1 ht
    obtain ⟨d, hd, hb⟩ := branchOf_unwound coll e he
    have ht1 : t.1 = branchOf d := by rw [← hb, ← hg]; rfl
    have hbr1 := congrArg Prod.fst hbr
    have hbr2 := congrArg Prod.snd hbr
    simp only [branchOf] at hbr1 hbr2
    refine ⟨d, hd, ?_, ?_, ?_⟩
    · rw [hbr1, ht1]; rfl
    · rw [hbr2, ht1]; rfl
    · rw [ht1]
      simp [timeToFixRow, branchOf]

theorem elementsOf_mapSet_ne (d : Doc) (k k' : String) (v : Value) (h : k' ≠ k) :
    elementsOf k' (mapSet d k v) = elementsOf k' d := by
  unfold elementsOf
  rw [lookup_mapSet_ne d k k' v h]

theorem flatMap_eq_nil_of_forall {α β : Type} (l : List α) (f : α → List β)
    (h : ∀ a ∈ l, f a = []) : l.flatMap f = [] := by
  induction l with
  | nil => rfl
  | cons a l ih =>
    simp only [List.flatMap_cons, h a (by simp), ih (fun x hx => h x (by simp [hx])),
      List.append_nil]

/-- The records that the first five stages of the `time-to-fix` pipeline drop: a record whose
result is neither `passed` nor `failed`, a record that has no element under `startedAt` or
under `finishedAt`, and a record whose results, after the first stage, have no element. -/
theorem timeToFixUnwound_eq_nil (d : Doc)
    (h : passedOrFailed d = false ∨ elementsOf "startedAt" d = [] ∨
      elementsOf "finishedAt" d = [] ∨
      unwindValues (timeToFixResults d) = []) : timeToFixUnwound d = [] := by
  unfold timeToFixUnwound
  by_cases hp : passedOrFailed d = true
  · simp only [hp, if_true, List.flatMap_cons, List.flatMap_nil, List.append_nil]
    have hs : elementsOf "startedAt" (timeToFixProjected d) = elementsOf "startedAt" d := by
      unfold elementsOf
      rw [lookup_timeToFixProjected d _ (by simp)]
    have hf : elementsOf "finishedAt" (timeToFixProjected d) = elementsOf "finishedAt" d := by
      unfold elementsOf
      rw [lookup_timeToFixProjected d _ (by simp)]
    have hr : elementsOf "huskyciresults" (timeToFixProjected d) =
        unwindValues (timeToFixResults d) := by
      rw [← unwindValues_lookup, lookup_timeToFixProjected_results]
    rcases h with h | h | h | h
    · rw [hp] at h; exact absurd h (by simp)
    · rw [unwindDoc_eq, hs, h]; rfl
    · have hmid : (unwindDoc "startedAt" false (timeToFixProjected d)).flatMap
          (unwindDoc "finishedAt" false) = [] := by
        apply flatMap_eq_nil_of_forall
        intro e₁ he₁
        obtain ⟨v₁, _, rfl⟩ := mem_unwindDoc _ _ _ he₁
        rw [unwindDoc_eq, elementsOf_mapSet_ne _ _ _ _ (by decide), hf, h]
        rfl
      rw [hmid]
      rfl
    · apply flatMap_eq_nil_of_forall
      intro e₂ he₂
      obtain ⟨e₁, he₁, he₂'⟩ := List.mem_flatMap.1 he₂
      obtain ⟨v₁, _, rfl⟩ := mem_unwindDoc _ _ _ he₁
      obtain ⟨v₂, _, rfl⟩ := mem_unwindDoc _ _ _ he₂'
      rw [unwindDoc_eq, elementsOf_mapSet_ne _ _ _ _ (by decide),
        elementsOf_mapSet_ne _ _ _ _ (by decide), hr, h]
      rfl
  · simp [hp]

/-- A record that the first five stages of the `time-to-fix` pipeline drop can be taken out
of the collection without any change to the output. Such are the records whose result is
neither `passed` nor `failed`, those that lack `startedAt`, `finishedAt` or
`huskyciresults`, or have `null` or an empty array there, and those whose `huskyciresults`
is the string `"{}"`, provided they have no field `REMOVE`. -/
theorem timeToFix_dropped_record (before after : List Doc) (d : Doc)
    (h : passedOrFailed d = false ∨ elementsOf "startedAt" d = [] ∨
      elementsOf "finishedAt" d = [] ∨
      (d.lookup "huskyciresults" ≠ some (.str "{}") ∧ elementsOf "huskyciresults" d = []) ∨
      (d.lookup "huskyciresults" = some (.str "{}") ∧ d.lookup "REMOVE" = none)) :
    aggregate timeToFixQuery (before ++ d :: after) =
      aggregate timeToFixQuery (before ++ after) := by
  have hnil : timeToFixUnwound d = [] := by
    apply timeToFixUnwound_eq_nil
    rcases h with h | h | h | ⟨h1, h2⟩ | ⟨h1, h2⟩
    · exact Or.inl h
    · exact Or.inr (Or.inl h)
    · exact Or.inr (Or.inr (Or.inl h))
    · right; right; right
      rw [timeToFixResults, if_neg h1, unwindValues_lookup, h2]
    · right; right; right
      rw [timeToFixResults, if_pos h1, h2]
      rfl
  rw [timeToFix_run, timeToFix_run]
  simp [List.flatMap_append, hnil]

theorem timeToFix_dropped_record_witness :
    aggregate timeToFixQuery
      ([[("_id", .int 1), ("repositoryURL", .str "a"), ("repositoryBranch", .str "main"),
         ("result", .str "failed"), ("startedAt", .date 1), ("finishedAt", .date 2),
         ("huskyciresults", .doc [])]] ++
       [("_id", .int 2), ("repositoryURL", .str "a"), ("repositoryBranch", .str "main"),
         ("result", .str "passed"), ("startedAt", .date 3), ("finishedAt", .date 4),
         ("huskyciresults", .str "{}")] :: []) =
    aggregate timeToFixQuery
      ([[("_id", .int 1), ("repositoryURL", .str "a"), ("repositoryBranch", .str "main"),
         ("result", .str "failed"), ("startedAt", .date 1), ("finishedAt", .date 2),
         ("huskyciresults", .doc [])]] ++ []) :=
  timeToFix_dropped_record _ _ _ (Or.inr (Or.inr (Or.inr (Or.inr ⟨by decide, by decide⟩))))

/-- C15, at a record where it fails. The record below has the string `"{}"` for
`huskyciresults` and a field `REMOVE`. The first stage of the `time-to-fix` pipeline writes
`"$REMOVE"`, the path of the field `REMOVE`, so that the record keeps results, the value
of that field, and is not dropped: with it the repository branch has a `failed` entry and
a row, without it the pipeline gives no row. -/
theorem timeToFix_sentinel_with_REMOVE_field :
    timeToFixResults
      [("_id", .int 2), ("repositoryURL", .str "a"), ("repositoryBranch", .str "main"),
       ("result", .str "failed"), ("startedAt", .date 3), ("finishedAt", .date 4),
       ("huskyciresults", .str "{}"), ("REMOVE", .str "x")] = some (.str "x") ∧
    aggregate timeToFixQuery
      [ [("_id", .int 1), ("repositoryURL", .str "a"), ("repositoryBranch", .str "main"),
         ("result", .str "passed"), ("startedAt", .date 1), ("finishedAt", .date 2),
         ("huskyciresults", .doc [])],
        [("_id", .int 2), ("repositoryURL", .str "a"), ("repositoryBranch", .str "main"),
         ("result", .str "failed"), ("startedAt", .date 3), ("finishedAt", .date 4),
         ("huskyciresults", .str "{}"), ("REMOVE", .str "x")] ] =
      some [[("analyses", .arr [
               .doc [("result", .str "passed"), ("count", .int 1),
                     ("data", .arr [.doc [("startedAt", .date 1), ("finishedAt", .date 2),
                                          ("hunkyciresults", .doc [])]])],
               .doc [("result", .str "failed"), ("count", .int 1),
                     ("data", .arr [.doc [("startedAt", .date 3), ("finishedAt", .date 4),
                                          ("hunkyciresults", .str "x")]])]]),
             ("repositoryURL", .str "a"),
             ("repositoryBranch", .str "main")]] ∧
    aggregate timeToFixQuery
      [ [("_id", .int 1), ("repositoryURL", .str "a"), ("repositoryBranch", .str "main"),
         ("result", .str "passed"), ("startedAt", .date 1), ("finishedAt", .date 2),
         ("huskyciresults", .doc [])] ] = some [] := by
  refine ⟨by decide, by decide, by decide⟩

theorem evalExpr_objectToArray (s : String) (p : List String) (d : Doc)
    (hs : s.data.head? = some '$') (hp : parsePath s = some p)
    (hshape : mapOrNull (getPath p d) = true) :
    evalExpr (.doc [("$objectToArray", .str s)]) d =
      some (some (objectToArrayOf (getPath p d))) := by
  rw [evalExpr_doc_eq, evalDoc_cons]
  simp only [show ("$objectToArray" : String) ≠ "$size" by decide, if_false, if_true]
  rw [evalExpr_string_path s p d hs hp]
  cases h : getPath p d with
  | none => rfl
  | some v =>
    rw [h] at hshape
    cases v <;> first | rfl | (simp [mapOrNull] at hshape)

theorem projKeeps_computed (outF : String) (e : List (String × Value)) (hne : outF ≠ "_id")
    (k : String) : projKeeps [(outF, .doc e)] k = decide (k = "_id") := by
  by_cases h : k = outF
  · subst h
    simp [projKeeps, List.lookup, hne]
  · simp only [projKeeps, List.lookup, beq_false_of_ne h]
    by_cases h0 : k = "_id"
    · simp [h0]
    · simp [h0]

theorem projectDoc_objectToArray (outF s : String) (p : List String) (d : Doc)
    (hf : isFieldName outF = true) (hne : outF ≠ "_id")
    (hs : s.data.head? = some '$') (hp : parsePath s = some p)
    (hshape : mapOrNull (getPath p d) = true) :
    projectDoc [(outF, .doc [("$objectToArray", .str s)])] d =
      some (idPart d ++ [(outF, objectToArrayOf (getPath p d))]) := by
  unfold projectDoc
  simp only [projKeeps_computed outF _ hne]
  simp only [projCompute, hf, evalExpr_objectToArray s p d hs hp hshape, Bool.not_true,
    Bool.false_eq_true, if_false]
  rw [mapSet_of_not_mem]
  · rfl
  · intro q hq
    have := (List.mem_filter.1 hq).2
    simp only [decide_eq_true_eq] at this
    rw [this]
    exact fun e => hne e.symm

theorem lookup_idPart (d : Doc) (k : String) (h : k ≠ "_id") : (idPart d).lookup k = none := by
  have := lookup_filter_drop (fun k : String => decide (k = "_id")) k (by simpa using h) d
  simpa [idPart] using this

theorem mapSet_last (I : Doc) (k : String) (v w : Value) (h : ∀ q ∈ I, q.1 ≠ k) :
    mapSet (I ++ [(k, v)]) k w = I ++ [(k, w)] := by
  induction I with
  | nil => simp [mapSet]
  | cons q I ih =>
    obtain ⟨k', v'⟩ := q
    have hk : k' ≠ k := h (k', v') (by simp)
    have := ih (fun x hx => h x (by simp [hx]))
    simp only [List.cons_append, mapSet, hk, if_false]
    exact congrArg _ this

theorem idPart_keys (d : Doc) (k : String) (h : k ≠ "_id") : ∀ q ∈ idPart d, q.1 ≠ k := by
  intro q hq
  have := (List.mem_filter.1 hq).2
  simp only [decide_eq_true_eq] at this
  rw [this]
  exact fun e => h e.symm

theorem unwindDoc_objectToArray (outF : String) (I : Doc) (o : Option Value)
    (hI : ∀ q ∈ I, q.1 ≠ outF) (hlook : I.lookup outF = none) :
    unwindDoc outF false (I ++ [(outF, objectToArrayOf o)]) =
      (entriesOf o).map (fun g => I ++ [(outF, kvDoc g)]) := by
  rw [unwindDoc_eq]
  have hl : (I ++ [(outF, objectToArrayOf o)]).lookup outF = some (objectToArrayOf o) := by
    rw [lookup_append_none _ _ _ hlook]
    simp [List.lookup]
  have he : elementsOf outF (I ++ [(outF, objectToArrayOf o)]) = (entriesOf o).map kvDoc := by
    unfold elementsOf
    rw [hl]
    cases o with
    | none => rfl
    | some v => cases v <;> rfl
  rw [he, List.map_map]
  apply List.map_congr_left
  intro g _
  exact mapSet_last I outF _ _ hI

theorem idPart_append (I : Doc) (k : String) (v : Value) (h : k ≠ "_id") :
    idPart (idPart I ++ [(k, v)]) = idPart I := by
  simp [idPart, List.filter_append, List.filter_filter, h]

/-- A `$project` that turns the map at a path into an array under `outF`, followed by the
`$unwind` of `outF`: each document becomes one document for each entry of its map. -/
theorem objectToArray_level (outF s us : String) (p : List String) (rest docs : List Doc)
    (hf : isFieldName outF = true) (hne : outF ≠ "_id")
    (hs : s.data.head? = some '$') (hp : parsePath s = some p)
    (hu : unwindSpec (.str us) = some (outF, false))
    (hshape : ∀ d ∈ docs, mapOrNull (getPath p d) = true) :
    aggregate ([("$project", .doc [(outF, .doc [("$objectToArray", .str s)])])] ::
        [("$unwind", .str us)] :: rest) docs =
      aggregate rest (docs.flatMap (fun d =>
        (entriesOf (getPath p d)).map (fun g => idPart d ++ [(outF, kvDoc g)]))) := by
  simp only [aggregate, runStage, hu]
  rw [projectDocs_eq _ (fun d => idPart d ++ [(outF, objectToArrayOf (getPath p d))]) docs
    (fun d hd => projectDoc_objectToArray outF s p d hf hne hs hp (hshape d hd))]
  simp only []
  congr 1
  induction docs with
  | nil => rfl
  | cons d ds ih =>
    simp only [List.map_cons, List.flatMap_cons]
    rw [ih (fun x hx => hshape x (by simp [hx])),
      unwindDoc_objectToArray outF (idPart d) _ (idPart_keys d outF hne)
        (lookup_idPart d outF hne)]

theorem flatMap_map_pairs {α β γ : Type} (X : List α) (f : α → β) (F : β → List γ) :
    (X.map f).flatMap F = X.flatMap (fun x => F (f x)) := by
  induction X with
  | nil => rfl
  | cons x X ih => simp [List.flatMap_cons, ih]

theorem map_flatMap_pairs {α β γ : Type} (X : List α) (F : α → List β) (f : β → γ) :
    (X.flatMap F).map f = X.flatMap (fun x => (F x).map f) := by
  induction X with
  | nil => rfl
  | cons x X ih => simp [List.flatMap_cons, ih]

theorem getPath_level (I : Doc) (inF : String) (g : String × Value) (hin : inF ≠ "_id") :
    getPath [inF, "v"] (idPart I ++ [(inF, kvDoc g)]) = some g.2 := by
  have hl : (idPart I ++ [(inF, kvDoc g)]).lookup inF = some (kvDoc g) := by
    rw [lookup_append_none _ _ _ (lookup_idPart I inF hin)]
    simp [List.lookup]
  simp only [getPath, hl]
  simp [kvDoc, List.lookup]

theorem getPath_level_k (I : Doc) (inF : String) (g : String × Value) (hin : inF ≠ "_id") :
    getPath [inF, "k"] (idPart I ++ [(inF, kvDoc g)]) = some (.str g.1) := by
  have hl : (idPart I ++ [(inF, kvDoc g)]).lookup inF = some (kvDoc g) := by
    rw [lookup_append_none _ _ _ (lookup_idPart I inF hin)]
    simp [List.lookup]
  simp only [getPath, hl]
  simp [kvDoc, List.lookup]

/-- The same on documents that hold an entry under `inF`, for the map under its `v`. -/
theorem objectToArray_next (inF outF s us : String) (rest : List Doc)
    (X : List (Doc × (String × Value)))
    (hf : isFieldName outF = true) (hne : outF ≠ "_id") (hin : inF ≠ "_id")
    (hs : s.data.head? = some '$') (hp : parsePath s = some [inF, "v"])
    (hu : unwindSpec (.str us) = some (outF, false))
    (hshape : ∀ x ∈ X, mapOrNull (some x.2.2) = true) :
    aggregate ([("$project", .doc [(outF, .doc [("$objectToArray", .str s)])])] ::
        [("$unwind", .str us)] :: rest)
        (X.map (fun x => idPart x.1 ++ [(inF, kvDoc x.2)])) =
      aggregate rest
        ((X.flatMap (fun x => (entriesOf (some x.2.2)).map (fun g => (x.1, g)))).map
          (fun x => idPart x.1 ++ [(outF, kvDoc x.2)])) := by
  rw [objectToArray_level outF s us [inF, "v"] rest _ hf hne hs hp hu]
  · congr 1
    rw [flatMap_map_pairs, map_flatMap_pairs]
    congr 1
    funext x
    rw [getPath_level _ _ _ hin, List.map_map, idPart_append _ _ _ hin]
    rfl
  · intro d hd
    obtain ⟨x, hx, rfl⟩ := List.mem_map.1 hd
    rw [getPath_level _ _ _ hin]
    exact hshape x hx

theorem tagged_snd (coll : List Doc) (f : Doc → List (String × Value)) :
    (tagged coll f).map Prod.snd = coll.flatMap f := by
  unfold tagged
  rw [map_flatMap_pairs]
  congr 1
  funext d
  rw [List.map_map]
  exact List.map_id _

theorem mem_tagged (coll : List Doc) (f : Doc → List (String × Value))
    (x : Doc × (String × Value)) (h : x ∈ tagged coll f) : x.1 ∈ coll ∧ x.2 ∈ f x.1 := by
  unfold tagged at h
  obtain ⟨d, hd, hx⟩ := List.mem_flatMap.1 h
  obtain ⟨g, hg, rfl⟩ := List.mem_map.1 hx
  exact ⟨hd, hg⟩

theorem tagged_flatMap (coll : List Doc) (f : Doc → List (String × Value))
    (h : String × Value → List (String × Value)) :
    (tagged coll f).flatMap (fun x => (h x.2).map (fun g => (x.1, g))) =
      tagged coll (fun d => (f d).flatMap h) := by
  unfold tagged
  induction coll with
  | nil => rfl
  | cons d ds ih =>
    simp only [List.flatMap_cons, List.flatMap_append, ih]
    congr 1
    rw [flatMap_map_pairs, map_flatMap_pairs]

theorem groupRows_eq_on (spec : Doc) (F : List Doc → Doc) (keyed : List (Value × Doc))
    (gs : List Value)
    (hF : ∀ g ∈ gs, evalAccumulators ((keyed.filter (fun p => p.1 = g)).map Prod.snd) spec =
      some (F ((keyed.filter (fun p => p.1 = g)).map Prod.snd))) :
    groupRows spec keyed gs =
      some (gs.map (fun g =>
        ("_id", g) :: F ((keyed.filter (fun p => p.1 = g)).map Prod.snd))) := by
  induction gs with
  | nil => rfl
  | cons g gs ih =>
    have h1 := hF g (by simp)
    have h2 := ih (fun x hx => hF x (by simp [hx]))
    simp only [groupRows, h1, h2, List.map_cons]

/-- What `$group` gives, for accumulators that give `F` on the groups made of documents
of the input. -/
theorem groupDocs_eq_on (spec : Doc) (idExpr : Value) (key : Doc → Option Value)
    (F : List Doc → Doc) (docs : List Doc)
    (hid : spec.lookup "_id" = some idExpr)
    (hkey : ∀ d ∈ docs, evalExpr idExpr d = some (key d))
    (hF : ∀ m, (∀ d ∈ m, d ∈ docs) → evalAccumulators m spec = some (F m)) :
    groupDocs spec docs =
      some (((docs.map (fun d => (key d).getD .null)).dedup).map (fun g =>
        ("_id", g) :: F (docs.filter (fun d => (key d).getD .null = g)))) := by
  unfold groupDocs
  rw [hid]
  simp only [evalAll_eq idExpr key docs hkey, List.map_map]
  have hz : ∀ g, ((((docs.map ((fun k => k.getD Value.null) ∘ key)).zip docs).filter
      (fun p => p.1 = g)).map Prod.snd) = docs.filter (fun d => (key d).getD .null = g) := by
    intro g
    have := zip_filter_snd (fun d => (key d).getD .null) g docs
    simp only [Function.comp_def] at this ⊢
    rw [this]
  rw [groupRows_eq_on spec F]
  · congr 1
    apply List.map_congr_left
    intro g _
    rw [hz g]
  · intro g _
    rw [hz g]
    exact hF _ (fun d hd => (List.mem_filter.1 hd).1)

theorem evalExpr_size (s : String) (p : List String) (d : Doc) (xs : List Value)
    (hs : s.data.head? = some '$') (hp : parsePath s = some p)
    (hv : getPath p d = some (.arr xs)) :
    evalExpr (.doc [("$size", .str s)]) d = some (some (.int xs.length)) := by
  rw [evalExpr_doc_eq, evalDoc_cons]
  simp only [if_true]
  rw [evalExpr_string_path s p d hs hp, hv]

theorem sum_numOf (l : List Doc) (c : Doc → Int) :
    ((l.map (fun d => some (Value.int (c d)))).map numOf).sum = (l.map c).sum := by
  induction l with
  | nil => rfl
  | cons d ds ih => simp only [List.map_cons, List.sum_cons, numOf, ih]

theorem sum_filter_tagged {α : Type} (X : List (α × (String × Value))) (mk : α × (String × Value) → Doc)
    (key : Doc → Value) (cnt : Doc → Int) (key' : String × Value → Value)
    (cnt' : String × Value → Int)
    (hk : ∀ x, key (mk x) = key' x.2) (hc : ∀ x, cnt (mk x) = cnt' x.2) (g : Value) :
    (((X.map mk).filter (fun d => key d = g)).map cnt).sum =
      (((X.map Prod.snd).filter (fun e => key' e = g)).map cnt').sum := by
  induction X with
  | nil => rfl
  | cons x X ih =>
    by_cases h : key' x.2 = g
    · simp [List.filter_cons, hk, hc, h, ih]
    · simp [List.filter_cons, hk, hc, h, ih]

theorem severityQuery_stages :
    severityQuery =
      [ [("$project", .doc [("huskyresults", .doc [("$objectToArray", .str "$huskyciresults")])])],
        [("$unwind", .str "$huskyresults")],
        [("$project", .doc [("languageresults", .doc [("$objectToArray", .str "$huskyresults.v")])])],
        [("$unwind", .str "$languageresults")],
        [("$project", .doc [("results", .doc [("$objectToArray", .str "$languageresults.v")])])],
        [("$unwind", .str "$results")],
        [("$group", .doc [("_id", .str "$results.k"),
          ("count", .doc [("$sum", .doc [("$size", .str "$results.v")])])])],
        [("$project", .doc [("severity", .str "$_id"), ("count", .int 1), ("_id", .int 0)])] ] := by
  simp [severityQuery, mapLit, bsonM, mapSet]

theorem parsePath_severity :
    parsePath "$huskyciresults" = some ["huskyciresults"] ∧
    parsePath "$huskyresults.v" = some ["huskyresults", "v"] ∧
    parsePath "$languageresults.v" = some ["languageresults", "v"] ∧
    parsePath "$results.v" = some ["results", "v"] ∧
    parsePath "$results.k" = some ["results", "k"] ∧
    unwindSpec (.str "$huskyresults") = some ("huskyresults", false) ∧
    unwindSpec (.str "$languageresults") = some ("languageresults", false) ∧
    unwindSpec (.str "$results") = some ("results", false) := by
  decide

theorem resultsShaped_iff (d : Doc) (h : resultsShaped d = true) :
    mapOrNull (d.lookup "huskyciresults") = true ∧
    (∀ g ∈ toolEntries d, mapOrNull (some g.2) = true) ∧
    (∀ g ∈ languageEntries d, mapOrNull (some g.2) = true) ∧
    (∀ g ∈ severityEntries d, isArray g.2 = true) := by
  simp only [resultsShaped, Bool.and_eq_true, List.all_eq_true] at h
  exact ⟨h.1.1.1, h.1.1.2, h.1.2, h.2⟩

theorem severity_accumulators (idExpr : Value) (docs m : List Doc)
    (hdocs : ∀ d ∈ docs, ∃ xs, getPath ["results", "v"] d = some (.arr xs))
    (hm : ∀ d ∈ m, d ∈ docs) :
    evalAccumulators m [("_id", idExpr),
        ("count", .doc [("$sum", .doc [("$size", .str "$results.v")])])] =
      some [("count", .int (m.map (fun d =>
        findingsCount ((getPath ["results", "v"] d).getD .null))).sum)] := by
  have h : isFieldName "count" = true := by decide
  have he : evalAll (.doc [("$size", .str "$results.v")]) m =
      some (m.map (fun d => some (.int (findingsCount ((getPath ["results", "v"] d).getD .null))))) := by
    apply evalAll_eq
    intro d hd
    obtain ⟨xs, hx⟩ := hdocs d (hm d hd)
    rw [evalExpr_size "$results.v" ["results", "v"] d xs (by decide) parsePath_severity.2.2.2.1 hx,
      hx]
    rfl
  simp only [evalAccumulators, evalAccumulator, he, Option.map_some', sum_numOf]
  simp [h]

/-- The run of the `severity` pipeline on records of the shape it reads: one row for each
severity key, with the sum of the lengths of the arrays under it. -/
theorem severity_run (coll : List Doc) (hshape : ∀ d ∈ coll, resultsShaped d = true) :
    aggregate severityQuery coll =
      some ((((coll.flatMap severityEntries).map (fun e => Value.str e.1)).dedup).map (fun g =>
        [("count", .int ((((coll.flatMap severityEntries).filter
            (fun e => Value.str e.1 = g)).map (fun e => findingsCount e.2)).sum)),
         ("severity", g)])) := by
  obtain ⟨p1, p2, p3, p4, p5, u1, u2, u3⟩ := parsePath_severity
  rw [severityQuery_stages]
  rw [objectToArray_level "huskyresults" "$huskyciresults" "$huskyresults" ["huskyciresults"] _ coll
    (by decide) (by decide) (by decide) p1 u1
    (fun d hd => (resultsShaped_iff d (hshape d hd)).1)]
  have h1 : (coll.flatMap (fun d => (entriesOf (getPath ["huskyciresults"] d)).map
      (fun g => idPart d ++ [("huskyresults", kvDoc g)]))) =
      (tagged coll toolEntries).map (fun x => idPart x.1 ++ [("huskyresults", kvDoc x.2)]) := by
    unfold tagged
    rw [map_flatMap_pairs]
    congr 1
    funext d
    rw [List.map_map]
    rfl
  rw [h1]
  rw [objectToArray_next "huskyresults" "languageresults" "$huskyresults.v" "$languageresults" _
    (tagged coll toolEntries) (by decide) (by decide) (by decide) (by decide) p2 u2
    (fun x hx => (resultsShaped_iff x.1 (hshape x.1 (mem_tagged _ _ x hx).1)).2.1 x.2
      (mem_tagged _ _ x hx).2)]
  rw [tagged_flatMap coll toolEntries (fun g => entriesOf (some g.2)),
    show (fun d => (toolEntries d).flatMap (fun g => entriesOf (some g.2))) = languageEntries
      from rfl]
  rw [objectToArray_next "languageresults" "results" "$languageresults.v" "$results" _
    (tagged coll languageEntries) (by decide) (by decide) (by decide) (by decide) p3 u3
    (fun x hx => (resultsShaped_iff x.1 (hshape x.1 (mem_tagged _ _ x hx).1)).2.2.1 x.2
      (mem_tagged _ _ x hx).2)]
  rw [tagged_flatMap coll languageEntries (fun g => entriesOf (some g.2)),
    show (fun d => (languageEntries d).flatMap (fun g => entriesOf (some g.2))) = severityEntries
      from rfl]
  have hv : ∀ d ∈ (tagged coll severityEntries).map
      (fun x => idPart x.1 ++ [("results", kvDoc x.2)]),
      ∃ xs, getPath ["results", "v"] d = some (.arr xs) := by
    intro d hd
    obtain ⟨x, hx, rfl⟩ := List.mem_map.1 hd
    rw [getPath_level _ _ _ (by decide)]
    have ha := (resultsShaped_iff x.1 (hshape x.1 (mem_tagged _ _ x hx).1)).2.2.2 x.2
      (mem_tagged _ _ x hx).2
    cases hx2 : x.2.2 <;> rw [hx2] at ha <;> simp [isArray] at ha
    exact ⟨_, rfl⟩
  simp only [aggregate, runStage]
  rw [groupDocs_eq_on _ (.str "$results.k") (getPath ["results", "k"])
    (fun m => [("count", .int (m.map (fun d =>
        findingsCount ((getPath ["results", "v"] d).getD .null))).sum)]) _
    (by simp [List.lookup])
    (fun d _ => evalExpr_string_path "$results.k" ["results", "k"] d (by decide) p5)
    (fun m hm => severity_accumulators _ _ m hv hm)]
  simp only []
  rw [projectDocs_eq _ (fun row => [("count", (row.lookup "count").getD .null),
      ("severity", (row.lookup "_id").getD .null)])]
  · have hkeys : ((tagged coll severityEntries).map
        (fun x => idPart x.1 ++ [("results", kvDoc x.2)])).map
        (fun d => (getPath ["results", "k"] d).getD .null) =
        (coll.flatMap severityEntries).map (fun e => Value.str e.1) := by
      rw [← tagged_snd coll severityEntries, List.map_map, List.map_map]
      apply List.map_congr_left
      intro x _
      simp only [Function.comp, getPath_level_k _ _ _ (show "results" ≠ "_id" by decide)]
      rfl
    rw [hkeys, List.map_map]
    simp only []
    congr 1
    apply List.map_congr_left
    intro g _
    simp only [Function.comp, List.lookup]
    have hsum := sum_filter_tagged (tagged coll severityEntries)
      (fun x => idPart x.1 ++ [("results", kvDoc x.2)])
      (fun d => (getPath ["results", "k"] d).getD .null)
      (fun d => findingsCount ((getPath ["results", "v"] d).getD .null))
      (fun e => Value.str e.1) (fun e => findingsCount e.2)
      (fun x => by simp only [getPath_level_k _ _ _ (show "results" ≠ "_id" by decide)]; rfl)
      (fun x => by simp only [getPath_level _ _ _ (show "results" ≠ "_id" by decide)]; rfl) g
    rw [tagged_snd] at hsum
    simp [hsum]
  · intro row hrow
    obtain ⟨g, _, rfl⟩ := List.mem_map.1 hrow
    rw [project_count_row "severity" (by decide) (by decide) (by decide)]
    simp [List.lookup]

theorem str_injective : Function.Injective Value.str := by
  intro a b h
  injection h

theorem severity_rows_eq (coll : List Doc) (hshape : ∀ d ∈ coll, resultsShaped d = true) :
    aggregate severityQuery coll =
      some ((severityKeys coll).dedup.map (fun s =>
        [("count", .int (severityTotal coll s)), ("severity", .str s)])) := by
  rw [severity_run coll hshape]
  have hk : (coll.flatMap severityEntries).map (fun e => Value.str e.1) =
      (severityKeys coll).map Value.str := by
    unfold severityKeys
    rw [List.map_map]
    rfl
  rw [hk, List.dedup_map_of_injective str_injective, List.map_map]
  congr 1
  apply List.map_congr_left
  intro s _
  simp only [Function.comp, severityTotal, Value.str.injEq]

theorem severityRows_of_eq (coll : List Doc) (rows : List Doc)
    (h : rows = (severityKeys coll).dedup.map (fun s =>
      [("count", .int (severityTotal coll s)), ("severity", .str s)])) :
    SeverityRows coll rows := by
  subst h
  refine ⟨by simp, ?_, ?_⟩
  · intro row hrow
    obtain ⟨s, hs, rfl⟩ := List.mem_map.1 hrow
    exact ⟨s, List.mem_dedup.1 hs, List.Perm.swap _ _ _⟩
  · intro s hs
    rw [List.countP_map]
    have : (fun row : Doc => decide (row.lookup "severity" = some (Value.str s))) ∘
        (fun u => [("count", Value.int (severityTotal coll u)), ("severity", Value.str u)]) =
        fun u => decide (u = s) := by
      funext u
      have hl : List.lookup "severity"
          [("count", Value.int (severityTotal coll u)), ("severity", Value.str u)] =
          some (Value.str u) := by
        simp [List.lookup]
      simp [hl]
    rw [this]
    have hc := List.count_eq_one_of_mem (List.nodup_dedup (severityKeys coll))
      (List.mem_dedup.2 hs)
    rw [List.count_eq_countP] at hc
    rw [← hc]
    congr 1

theorem projectDocs_none (spec : Doc) (docs : List Doc) (d : Doc) (hd : d ∈ docs)
    (h : projectDoc spec d = none) : projectDocs spec docs = none := by
  induction docs with
  | nil => simp at hd
  | cons x xs ih =>
    rcases List.mem_cons.1 hd with rfl | hx
    · simp only [projectDocs, h]
    · simp only [projectDocs, ih hx]
      cases projectDoc spec x <;> rfl

/-- The `severity` pipeline fails on every collection that holds a record whose
`huskyciresults` is a string, whatever the other records are: its first stage applies
`$objectToArray` to the string. -/
theorem severity_fails_on_string (coll : List Doc) (d : Doc) (s : String) (hd : d ∈ coll)
    (hs : d.lookup "huskyciresults" = some (.str s)) :
    aggregate severityQuery coll = none := by
  have he : evalExpr (.doc [("$objectToArray", .str "$huskyciresults")]) d = none := by
    rw [evalExpr_doc_eq, evalDoc_cons]
    simp only [show ("$objectToArray" : String) ≠ "$size" by decide, if_false, if_true]
    rw [evalExpr_string_path "$huskyciresults" ["huskyciresults"] d (by decide)
      parsePath_severity.1]
    simp only [getPath, hs]
  have hp : projectDoc [("huskyresults", .doc [("$objectToArray", .str "$huskyciresults")])] d =
      none := by
    have hf : isFieldName "huskyresults" = true := by decide
    simp only [projectDoc, projCompute, hf, he, Bool.not_true, Bool.false_eq_true, if_false]
  rw [severityQuery_stages]
  simp only [aggregate, runStage, projectDocs_none _ coll d hd hp]

theorem severity_fails_on_string_witness :
    aggregate severityQuery [[("_id", .int 2), ("huskyciresults", .str "{}")]] = none :=
  severity_fails_on_string _ [("_id", .int 2), ("huskyciresults", .str "{}")] "{}"
    (by simp) (by decide)

/-- C11. The `severity` pipeline at a collection on which it does not give the rows of the
claim. A record with three findings under gosec, go, high gives the row `{severity: high,
count: 3}`; with a second record whose `huskyciresults` is the string `"{}"`, the value that
the first stage of the `time-to-fix` pipeline tests for, the first stage fails and the
pipeline gives no rows at all, where the claim has the row of the first record. -/
theorem severity_fails_on_string_results :
    aggregate severityQuery
      [ [("_id", .int 1), ("huskyciresults", .doc [("gosec", .doc [("go", .doc
          [("high", .arr [.str "f1", .str "f2", .str "f3"])])])])] ] =
      some [[("count", .int 3), ("severity", .str "high")]] ∧
    aggregate severityQuery
      [ [("_id", .int 1), ("huskyciresults", .doc [("gosec", .doc [("go", .doc
          [("high", .arr [.str "f1", .str "f2", .str "f3"])])])])],
        [("_id", .int 2), ("huskyciresults", .str "{}")] ] = none := by
  refine ⟨?_, ?_⟩
  · rw [severity_rows_eq _ (by decide)]
    decide
  · decide

/-- The rows of the `severity` pipeline on records of the shape it reads. On every
collection whose records have such results (`huskyciresults` absent, `null` or a map by
tool, each tool `null` or a map by language, each language `null` or a map by severity,
each severity an array), the `severity` pipeline gives one row `{severity: s, count: c}` for each distinct severity key
`s`, with `c` the sum of the lengths of the arrays stored under `s` over every record, tool
and language, and no other field. -/
theorem severity_totals (coll : List Doc) (hshape : ∀ d ∈ coll, resultsShaped d = true) :
    ∃ rows, aggregate severityQuery coll = some rows ∧ SeverityRows coll rows :=
  ⟨_, severity_rows_eq coll hshape, severityRows_of_eq coll _ rfl⟩

theorem severity_totals_witness :
    (∀ d ∈ [ [("_id", Value.int 1), ("huskyciresults", Value.doc [("gosec", .doc [("go", .doc
          [("high", .arr [.str "f1", .str "f2", .str "f3"]), ("low", .arr [.str "f4"])])])])],
        [("_id", Value.int 2), ("huskyciresults", Value.doc [("bandit", .doc [("python", .doc
          [("high", .arr [.str "f5", .str "f6"])])])])] ],
      resultsShaped d = true) ∧
    severityTotal
      [ [("_id", Value.int 1), ("huskyciresults", Value.doc [("gosec", .doc [("go", .doc
          [("high", .arr [.str "f1", .str "f2", .str "f3"]), ("low", .arr [.str "f4"])])])])],
        [("_id", Value.int 2), ("huskyciresults", Value.doc [("bandit", .doc [("python", .doc
          [("high", .arr [.str "f5", .str "f6"])])])])] ] "high" = 5 ∧
    severityTotal
      [ [("_id", Value.int 1), ("huskyciresults", Value.doc [("gosec", .doc [("go", .doc
          [("high", .arr [.str "f1", .str "f2", .str "f3"]), ("low", .arr [.str "f4"])])])])],
        [("_id", Value.int 2), ("huskyciresults", Value.doc [("bandit", .doc [("python", .doc
          [("high", .arr [.str "f5", .str "f6"])])])])] ] "low" = 1 ∧
    ∃ rows, aggregate severityQuery
      [ [("_id", Value.int 1), ("huskyciresults", Value.doc [("gosec", .doc [("go", .doc
          [("high", .arr [.str "f1", .str "f2", .str "f3"]), ("low", .arr [.str "f4"])])])])],
        [("_id", Value.int 2), ("huskyciresults", Value.doc [("bandit", .doc [("python", .doc
          [("high", .arr [.str "f5", .str "f6"])])])])] ] = some rows ∧
      SeverityRows
      [ [("_id", Value.int 1), ("huskyciresults", Value.doc [("gosec", .doc [("go", .doc
          [("high", .arr [.str "f1", .str "f2", .str "f3"]), ("low", .arr [.str "f4"])])])])],
        [("_id", Value.int 2), ("huskyciresults", Value.doc [("bandit", .doc [("python", .doc
          [("high", .arr [.str "f5", .str "f6"])])])])] ] rows :=
  ⟨by decide, by decide, by decide, severity_totals _ (by decide)⟩

end HuskyCI
